import Mathlib

/-!
# S4ModApi: the dialog registry of `CDialog.cpp`

A shallow embedding of the static registry state of `CDialog` (the dialog list, the
pending list, the gate, the feature counters and the hook handles) and of the functions
that act on it: `MaintainS4Api`, `ModifyFeatureCounts`, `Show`, `Hide`, `Cleanup`,
`OnFrameProc` and `OnMouseProc`.

Conventions.
* A `CDialog*` is an `Option DialogId`; `none` is the null pointer and `this` is `some d`.
* `S4API` and `S4HOOK` are natural numbers whose value `0` is the null handle.
* The two `unsigned` counters are natural numbers reduced modulo `2^32` on every update.
* Calls that leave the translation unit (the host API and the virtual handlers) are
  recorded, in order, in the `trace` field of the world.
* The mutex is not modelled: every function below is one critical section, and the points
  at which `OnFrameProc`/`OnMouseProc` release the lock are exactly the points at which a
  handler body (a list of `Show`/`Hide` calls) runs.
* A dispatch entry point that finds the gate not idle waits on `condIdle`; it then has no
  result (`none`).
-/

namespace S4ModApi

/-- Identity (address) of a `CDialog` object. -/
abbrev DialogId := Nat

/-- Handle of the host API (`S4API`), `0` is `NULL`. -/
abbrev S4API := Nat

/-- Handle of a registered listener (`S4HOOK`), `0` is "not installed". -/
abbrev S4HOOK := Nat

/-- Win32 `RECT`. -/
structure RECT where
  left : Int
  top : Int
  right : Int
  bottom : Int
deriving DecidableEq, Repr

/-- Win32 `POINT`. -/
structure POINT where
  x : Int
  y : Int
deriving DecidableEq, Repr

/-- Win32 `PtInRect`: the left and top edges are inside, the right and bottom edges are not. -/
def PtInRect (rc : RECT) (p : POINT) : Bool :=
  decide (rc.left ≤ p.x) && decide (p.x < rc.right) && decide (rc.top ≤ p.y) && decide (p.y < rc.bottom)

/-- Windows message id `WM_LBUTTONDOWN`. -/
def WM_LBUTTONDOWN : Nat := 0x0201
/-- Windows message id `WM_LBUTTONUP`. -/
def WM_LBUTTONUP : Nat := 0x0202
/-- Windows message id `WM_RBUTTONDOWN`. -/
def WM_RBUTTONDOWN : Nat := 0x0204
/-- Windows message id `WM_RBUTTONUP`. -/
def WM_RBUTTONUP : Nat := 0x0205

/-- The gate `CDialog::State`. -/
inductive State where
  | StateIdle
  | StateBusy
  | StateBusyCleanupRequired
deriving DecidableEq, Repr

/-- The data members of one `CDialog` object. -/
structure CDialog where
  m_position : RECT
  m_flags : Nat
  m_isShown : Bool
  DialogFeatures : Nat
deriving DecidableEq, Repr

/-- A call of a public mutation method on a dialog, together with the value that the
virtual `OnShow()` / `OnHide()` of that dialog returns if the method reaches it. -/
inductive Call where
  | Show (d : DialogId) (onShow : Bool)
  | Hide (d : DialogId) (onHide : Bool)
deriving DecidableEq, Repr

/-- The dialog a call is made on. -/
def Call.target : Call → DialogId
  | .Show d _ => d
  | .Hide d _ => d

/-- The answer of the lifecycle hook of a call (`true` allows). -/
def Call.allow : Call → Bool
  | .Show _ b => b
  | .Hide _ b => b

/-- What the registry code does outside of its own state, in program order. -/
inductive Event where
  /-- The call `s4api->RemoveListener(h)`. -/
  | RemoveListener (h : S4HOOK)
  /-- The call `s4api->Release()`. -/
  | Release (api : S4API)
  /-- The call `S4ApiCreate()`. -/
  | S4ApiCreate
  /-- The call `CFrameHook::GetInstance().AddListener(OnFrameProc, ...)`. -/
  | FrameAddListener
  /-- The call `CMouseHook::GetInstance().AddListener(OnMouseProc, ...)`. -/
  | MouseAddListener
  /-- The call `inst->OnDraw(...)` was made on `d` and returns `ret`. -/
  | OnDraw (d : DialogId) (ret : Bool)
  /-- The call `inst->OnMouse(...)` was made on `d` and returns `ret`. -/
  | OnMouse (d : DialogId) (ret : Bool)
  /-- A client called `Show()`/`Hide()` and got `ret` back. -/
  | Called (c : Call) (ret : Bool)
deriving DecidableEq, Repr

/-- The events that are calls of the host API. -/
def Event.isApi : Event → Bool
  | .RemoveListener _ => true
  | .Release _ => true
  | .S4ApiCreate => true
  | .FrameAddListener => true
  | .MouseAddListener => true
  | .OnDraw _ _ => false
  | .OnMouse _ _ => false
  | .Called _ _ => false

/-- The static members of `CDialog`, the dialog objects, and the trace. -/
structure World where
  dialogs : List (Option DialogId)
  pending_dialogs : List (Option DialogId)
  s4api : S4API
  hFramehook : S4HOOK
  hMousehook : S4HOOK
  state : State
  countFramehook : Nat
  countMousehook : Nat
  obj : DialogId → CDialog
  trace : List Event

/-- What `CDialog.cpp` takes from headers and libraries that are not part of the file:
the two feature constants of `FeaturesEnum`, and the handles returned by `S4ApiCreate`
and by the two `AddListener` calls (each may depend on everything that happened before). -/
structure Host where
  FeatureOnDraw : Nat
  FeatureOnMouse : Nat
  S4ApiCreate : List Event → S4API
  FrameAddListener : List Event → S4HOOK
  MouseAddListener : List Event → S4HOOK

/-- The bodies of the virtual handlers `OnDraw` and `OnMouse` of every dialog: the calls
of `Show`/`Hide` made while the handler runs (by the handler itself, or by another thread,
the lock being released), and the value the handler returns. -/
structure Handlers where
  OnDraw : DialogId → World → List Call × Bool
  OnMouse : DialogId → Nat → Int → Int → Nat → World → List Call × Bool

/-- The handlers of the base class: `OnDraw` and `OnMouse` do nothing and return `FALSE`. -/
def Handlers.base : Handlers where
  OnDraw := fun _ _ => ([], false)
  OnMouse := fun _ _ _ _ _ _ => ([], false)

/-- The operation `unsigned += signed` on a 32-bit counter. -/
def addU32 (c : Nat) (add : Int) : Nat :=
  (((c : Int) + add) % 4294967296).toNat

/-- The idiom `std::find(v.rbegin(), v.rend(), p)` followed by `v.erase((++it).base())` when found:
the last occurrence of `p` is removed. -/
def eraseLast (p : Option DialogId) : List (Option DialogId) → List (Option DialogId)
  | [] => []
  | x :: xs =>
    if p ∈ xs then x :: eraseLast p xs
    else if x = p then xs
    else x :: xs

/-- The idiom `std::find(v.rbegin(), v.rend(), p)` followed by `*it = NULL` when found:
the last occurrence of `p` is overwritten with the null pointer. -/
def nullLast (p : Option DialogId) : List (Option DialogId) → List (Option DialogId)
  | [] => []
  | x :: xs =>
    if p ∈ xs then x :: nullLast p xs
    else if x = p then none :: xs
    else x :: xs

/-- The idiom `std::remove(v.begin(), v.end(), NULL)` followed by `erase`. -/
def removeNull (l : List (Option DialogId)) : List (Option DialogId) :=
  l.filter (fun x => decide (x ≠ none))

/-- The method `CDialog::HasFeature`. -/
def HasFeature (c : CDialog) (f : Nat) : Bool :=
  (c.DialogFeatures &&& f) == f

/-- Assignment to `m_isShown` of the object `d`. -/
def setShown (d : DialogId) (b : Bool) (w : World) : World :=
  { w with obj := Function.update w.obj d { w.obj d with m_isShown := b } }

/-- The statement
`if (hFramehook && countFramehook <= 0) { s4api->RemoveListener(hFramehook); hFramehook = 0; }`. -/
def removeFrameListener (w : World) : World :=
  if w.hFramehook ≠ 0 ∧ w.countFramehook ≤ 0 then
    { w with trace := w.trace ++ [Event.RemoveListener w.hFramehook], hFramehook := 0 }
  else w

/-- The statement
`if (hMousehook && countMousehook <= 0) { s4api->RemoveListener(hMousehook); hMousehook = 0; }`. -/
def removeMouseListener (w : World) : World :=
  if w.hMousehook ≠ 0 ∧ w.countMousehook ≤ 0 then
    { w with trace := w.trace ++ [Event.RemoveListener w.hMousehook], hMousehook := 0 }
  else w

/-- The statement `if (dialogs.empty()) { s4api->Release(); s4api = NULL; }`. -/
def releaseApi (w : World) : World :=
  if w.dialogs.isEmpty then
    { w with trace := w.trace ++ [Event.Release w.s4api], s4api := 0 }
  else w

/-- The branch `else if (!dialogs.empty()) { s4api = S4ApiCreate(); hFramehook = 0; hMousehook = 0; }`. -/
def acquireApi (h : Host) (w : World) : World :=
  if ¬ w.dialogs.isEmpty then
    { w with trace := w.trace ++ [Event.S4ApiCreate], s4api := h.S4ApiCreate w.trace,
             hFramehook := 0, hMousehook := 0 }
  else w

/-- The statement
`if (!hFramehook && countFramehook > 0) hFramehook = CFrameHook::GetInstance().AddListener(...)`. -/
def addFrameListener (h : Host) (w : World) : World :=
  if w.hFramehook = 0 ∧ w.countFramehook > 0 then
    { w with trace := w.trace ++ [Event.FrameAddListener],
             hFramehook := h.FrameAddListener w.trace }
  else w

/-- The statement
`if (!hMousehook && countMousehook > 0) hMousehook = CMouseHook::GetInstance().AddListener(...)`. -/
def addMouseListener (h : Host) (w : World) : World :=
  if w.hMousehook = 0 ∧ w.countMousehook > 0 then
    { w with trace := w.trace ++ [Event.MouseAddListener],
             hMousehook := h.MouseAddListener w.trace }
  else w

/-- The function `CDialog::MaintainS4Api`: the statements of the body, in source order. -/
def MaintainS4Api (h : Host) (w : World) : World :=
  let w1 : World :=
    if w.s4api ≠ 0 then releaseApi (removeMouseListener (removeFrameListener w))
    else acquireApi h w
  if w1.s4api ≠ 0 then addMouseListener h (addFrameListener h w1)
  else w1

/-- The method `CDialog::ModifyFeatureCounts`, called on the object `d`. -/
def ModifyFeatureCounts (h : Host) (d : DialogId) (add : Int) (w : World) : World :=
  let w1 : World :=
    if HasFeature (w.obj d) h.FeatureOnDraw then
      { w with countFramehook := addU32 w.countFramehook add }
    else w
  if HasFeature (w1.obj d) h.FeatureOnMouse then
    { w1 with countMousehook := addU32 w1.countMousehook add }
  else w1

/-- The method `CDialog::Show`, called on the object `d`; `onShow` is what `OnShow()` returns. -/
def Show (h : Host) (d : DialogId) (onShow : Bool) (w : World) : World × Bool :=
  if (w.obj d).m_isShown then (w, false)
  else
    let w1 := setShown d true w
    if !onShow then (w1, false)
    else
      let w2 := ModifyFeatureCounts h d 1 w1
      match w2.state with
      | State.StateIdle =>
        (MaintainS4Api h { w2 with dialogs := w2.dialogs ++ [some d] }, true)
      | State.StateBusy =>
        ({ w2 with pending_dialogs := w2.pending_dialogs ++ [some d],
                   state := State.StateBusyCleanupRequired }, true)
      | State.StateBusyCleanupRequired =>
        ({ w2 with pending_dialogs := w2.pending_dialogs ++ [some d],
                   state := State.StateBusyCleanupRequired }, true)

/-- The `case StateBusy` block of `CDialog::Hide`, also reached by falling through from
`case StateBusyCleanupRequired`. -/
def HideBusy (d : DialogId) (w : World) : World :=
  { w with dialogs := nullLast (some d) w.dialogs, state := State.StateBusyCleanupRequired }

/-- The method `CDialog::Hide`, called on the object `d`; `onHide` is what `OnHide()` returns. -/
def Hide (h : Host) (d : DialogId) (onHide : Bool) (w : World) : World × Bool :=
  if !(w.obj d).m_isShown then (w, false)
  else
    let w1 := setShown d false w
    if !onHide then (w1, false)
    else
      let w2 := ModifyFeatureCounts h d (-1) w1
      match w2.state with
      | State.StateIdle =>
        (MaintainS4Api h { w2 with dialogs := eraseLast (some d) w2.dialogs }, true)
      | State.StateBusyCleanupRequired =>
        if some d ∈ w2.pending_dialogs then
          ({ w2 with pending_dialogs := eraseLast (some d) w2.pending_dialogs }, true)
        else (HideBusy d w2, true)
      | State.StateBusy => (HideBusy d w2, true)

/-- The function `CDialog::Cleanup`. -/
def Cleanup (h : Host) (w : World) : World :=
  let w1 : World :=
    if w.state = State.StateBusyCleanupRequired then
      MaintainS4Api h
        { w with dialogs := removeNull w.dialogs ++ w.pending_dialogs, pending_dialogs := [] }
    else w
  { w1 with state := State.StateIdle }

/-- One client call of `Show()` or `Hide()`; the returned value is recorded. -/
def runCall (h : Host) (c : Call) (w : World) : World :=
  match c with
  | .Show d onShow =>
    let r := Show h d onShow w
    { r.1 with trace := r.1.trace ++ [Event.Called c r.2] }
  | .Hide d onHide =>
    let r := Hide h d onHide w
    { r.1 with trace := r.1.trace ++ [Event.Called c r.2] }

/-- A sequence of client calls, in order. -/
def runCalls (h : Host) (cs : List Call) (w : World) : World :=
  cs.foldl (fun acc c => runCall h c acc) w

/-- The `for (auto inst : dialogs)` loop of `OnFrameProc`: `n` iterations remain, the next
one reads slot `i`. The lock is released around `inst->OnDraw(...)`, which is where the
handler body runs. The case of a slot past the end of the list is there for totality only:
the length of the list does not change while the gate is not idle (`Frozen`). The calls run
here are those made from the entry of the handler on; `frameLoopGap` has, in addition, the
calls that other threads complete between `lock.unlock()` and the entry of the handler. -/
def frameLoop (h : Host) (H : Handlers) : Nat → Nat → World → World
  | 0, _, w => w
  | n + 1, i, w =>
    match w.dialogs.get? i with
    | none => w
    | some none => frameLoop h H n (i + 1) { w with state := State.StateBusyCleanupRequired }
    | some (some d) =>
      let r := H.OnDraw d w
      frameLoop h H n (i + 1)
        (runCalls h r.1 { w with trace := w.trace ++ [Event.OnDraw d r.2] })

/-- The function `CDialog::OnFrameProc`. The result is `none` when the call waits on `condIdle`
(the gate is not idle on entry). -/
def OnFrameProc (h : Host) (H : Handlers) (w : World) : Option (World × Nat) :=
  if w.state ≠ State.StateIdle then none
  else
    let w1 : World := { w with state := State.StateBusy }
    some (Cleanup h (frameLoop h H w1.dialogs.length 0 w1), 0)

/-- The reverse loop of `OnMouseProc`: slots `i-1, ..., 0` remain to be visited. The second
component is `consumeEvent`. The lock is released around `inst->OnMouse(...)`, which is where
the handler body runs. The case of a slot past the end of the list is there for totality
only. The calls run here are those made from the entry of the handler on; `mouseLoopGap` has,
in addition, the calls that other threads complete between `lock.unlock()` and the entry of
the handler. -/
def mouseLoop (h : Host) (H : Handlers) (btn : Nat) (iX iY : Int) (msg : Nat) :
    Nat → World → World × Bool
  | 0, w => (w, false)
  | i + 1, w =>
    match w.dialogs.get? i with
    | none => mouseLoop h H btn iX iY msg i w
    | some none =>
      mouseLoop h H btn iX iY msg i { w with state := State.StateBusyCleanupRequired }
    | some (some d) =>
      if !PtInRect (w.obj d).m_position ⟨iX, iY⟩ then mouseLoop h H btn iX iY msg i w
      else
        let r := H.OnMouse d btn iX iY msg w
        let w2 := runCalls h r.1 { w with trace := w.trace ++ [Event.OnMouse d r.2] }
        if r.2 then (w2, true) else mouseLoop h H btn iX iY msg i w2

/-- The message ids handled by `OnMouseProc`. -/
def isButtonMsg (msg : Nat) : Bool :=
  msg == WM_LBUTTONUP || msg == WM_LBUTTONDOWN || msg == WM_RBUTTONDOWN || msg == WM_RBUTTONUP

/-- The function `CDialog::OnMouseProc`. The result is `none` when the call waits on `condIdle`. -/
def OnMouseProc (h : Host) (H : Handlers) (btn : Nat) (iX iY : Int) (msg : Nat) (w : World) :
    Option (World × Nat) :=
  if isButtonMsg msg then
    if w.state ≠ State.StateIdle then none
    else
      let w1 : World := { w with state := State.StateBusy }
      let r := mouseLoop h H btn iX iY msg w1.dialogs.length w1
      some (Cleanup h r.1, if r.2 then 1 else 0)
  else some (w, 0)

/-- The registry before the first `Show()`: the statics are zero-initialised, and every
dialog object is as its constructor left it. -/
def World.init (objs : DialogId → CDialog) : World where
  dialogs := []
  pending_dialogs := []
  s4api := 0
  hFramehook := 0
  hMousehook := 0
  state := State.StateIdle
  countFramehook := 0
  countMousehook := 0
  obj := objs
  trace := []

/-- The hook state that `MaintainS4Api` establishes: without a handle the dialog list is
empty; with a handle it is not, and each hook is installed exactly when its counter is
positive. -/
def Settled (w : World) : Prop :=
  (w.s4api = 0 → w.dialogs = []) ∧
  (w.s4api ≠ 0 → w.dialogs ≠ [] ∧ (w.hFramehook ≠ 0 ↔ 0 < w.countFramehook) ∧
    (w.hMousehook ≠ 0 ↔ 0 < w.countMousehook))

/-- A host whose calls always succeed with handle `1`; the feature constants are `1` (draw)
and `2` (mouse). -/
def Host.sample : Host where
  FeatureOnDraw := 1
  FeatureOnMouse := 2
  S4ApiCreate := fun _ => 1
  FrameAddListener := fun _ => 1
  MouseAddListener := fun _ => 1

/-- Freshly constructed dialogs: dialog `d` occupies the square `[10 d, 10 d + 20)` in both
directions, dialog `0` draws, dialog `1` takes mouse input, the others do both. -/
def sampleObjs (d : DialogId) : CDialog where
  m_position := ⟨10 * d, 10 * d, 10 * d + 20, 10 * d + 20⟩
  m_flags := 0
  m_isShown := false
  DialogFeatures := if d = 0 then 1 else if d = 1 then 2 else 3

/-- The sample registry after dialog `0` was shown. -/
def sampleShown : World := (Show Host.sample 0 true (World.init sampleObjs)).1

/-- The world `w2` has the trace of `w1` followed by host API events only. -/
def ApiExt (w1 w2 : World) : Prop :=
  ∃ evs, w2.trace = w1.trace ++ evs ∧ ∀ e ∈ evs, Event.isApi e = true

/-- The dialogs that are registered: the non-null entries of the main list followed by
the pending list. This is the main list that `Cleanup` would produce. -/
def live (w : World) : List (Option DialogId) :=
  removeNull w.dialogs ++ w.pending_dialogs

/-- The registry invariant: the pending list has no null entry, no dialog is registered
twice, the registered dialogs are exactly those whose shown flag is set, and unless the gate
is `StateBusyCleanupRequired` the main list has no null entry and nothing is pending. -/
def Inv (w : World) : Prop :=
  none ∉ w.pending_dialogs ∧ (live w).Nodup ∧
  (∀ d, some d ∈ live w ↔ (w.obj d).m_isShown = true) ∧
  (w.state ≠ State.StateBusyCleanupRequired → none ∉ w.dialogs ∧ w.pending_dialogs = [])

/-- The event "a `Show()` of `d` returned `TRUE`". -/
def isShowOk (d : DialogId) : Event → Bool
  | .Called (.Show d2 _) true => d2 == d
  | _ => false

/-- The event "a `Hide()` returned `TRUE`". -/
def isHideOk : Event → Bool
  | .Called (.Hide _ _) true => true
  | _ => false

/-- The event "a `Show()` returned `TRUE`". -/
def isAnyShowOk : Event → Bool
  | .Called (.Show _ _) true => true
  | _ => false

/-- The time of the most recent successful `Show()` of `d`: the position in the trace,
counted from 1, of the last event "`Show()` of `d` returned `TRUE`", and 0 if there is none. -/
def lastShown (d : DialogId) : List Event → Nat
  | [] => 0
  | e :: t =>
    if lastShown d t ≠ 0 then lastShown d t + 1
    else if isShowOk d e then 1
    else 0

/-- The registered dialogs are ordered by the time of their most recent successful `Show()`. -/
def Ordered (w : World) : Prop :=
  (live w).Pairwise (fun a b => ∀ x y, a = some x → b = some y →
    lastShown x w.trace < lastShown y w.trace)

/-- The calls used as an example: show `0`, show `1`, hide `0`, show `0` again. -/
def sampleCalls : List Call :=
  [Call.Show 0 true, Call.Show 1 true, Call.Hide 0 true, Call.Show 0 true]

/-- The `OnMouse` invocations recorded in a trace, with the value each returned. -/
def mouseCalls (t : List Event) : List (DialogId × Bool) :=
  t.filterMap (fun e => match e with
    | .OnMouse d r => some (d, r)
    | _ => none)

/-- The `OnDraw` invocations recorded in a trace, with the value each returned. -/
def drawCalls (t : List Event) : List (DialogId × Bool) :=
  t.filterMap (fun e => match e with
    | .OnDraw d r => some (d, r)
    | _ => none)

/-- The world `w2` is a later moment than `w1` of one dispatch pass: the gate is not idle,
the main list has the same length and every slot either holds what it held or the null
pointer, and no dialog has moved. -/
def Frozen (w1 w2 : World) : Prop :=
  w2.state ≠ State.StateIdle ∧ w2.dialogs.length = w1.dialogs.length ∧
  (∀ j, w2.dialogs.get? j = w1.dialogs.get? j ∨ w2.dialogs.get? j = some none) ∧
  (∀ d, (w2.obj d).m_position = (w1.obj d).m_position)

/-- The dialogs of the list `l` that a mouse pass can reach at the point `p`, in the order of
the pass: the non-null entries, last entry first, whose rectangle contains `p`. -/
def hits (pos : DialogId → RECT) (p : POINT) (l : List (Option DialogId)) : List DialogId :=
  (l.reverse.filterMap id).filter (fun d => PtInRect (pos d) p)

/-- Handlers used as an example: no handler calls `Show` or `Hide`, `OnMouse` of dialog `1`
consumes the event and `OnDraw` returns `FALSE`. -/
def Handlers.sample : Handlers where
  OnDraw := fun _ _ => ([], false)
  OnMouse := fun d _ _ _ _ _ => ([], d == 1)

/-- The sample registry with the dialogs `0`, `1`, `2` shown in that order. -/
def sampleThree : World :=
  runCalls Host.sample [Call.Show 0 true, Call.Show 1 true, Call.Show 2 true]
    (World.init sampleObjs)

/-- A moment of a dispatch pass in which dialog `0` is both in the main list and in the
pending list: it was shown, a `Hide` of it was vetoed by `OnHide` (which cleared its flag but
left it registered), a pass began, and it was shown again during the pass. -/
def samplePendingDup : World :=
  (Show Host.sample 0 true
    { runCalls Host.sample [Call.Show 0 true, Call.Hide 0 false] (World.init sampleObjs) with
      state := State.StateBusy }).1

/-- A moment of a dispatch pass in which dialog `0` is twice in the main list: it was shown,
a `Hide` of it was vetoed by `OnHide`, it was shown again, and a pass began. -/
def sampleMainDup : World :=
  { runCalls Host.sample [Call.Show 0 true, Call.Hide 0 false, Call.Show 0 true]
      (World.init sampleObjs) with state := State.StateBusy }

/-- Handlers whose `OnDraw` of dialog `1` shows and then hides dialog `0`. -/
def Handlers.reshow : Handlers where
  OnDraw := fun d _ => (if d = 1 then [Call.Show 0 true, Call.Hide 0 true] else [], false)
  OnMouse := fun _ _ _ _ _ _ => ([], false)

/-- Handlers whose `OnDraw` of dialog `0` hides dialog `1` and shows dialog `3`. -/
def Handlers.swap : Handlers where
  OnDraw := fun d _ => (if d = 0 then [Call.Hide 1 true, Call.Show 3 true] else [], false)
  OnMouse := fun _ _ _ _ _ _ => ([], false)

/-- The number of `Hide()` calls that returned `TRUE` among the events `t`. -/
def hideOk (t : List Event) : Nat := t.countP isHideOk

/-- The number of `Show()` calls that returned `TRUE` among the events `t`. -/
def showOk (t : List Event) : Nat := t.countP isAnyShowOk

/-- Every `Show`/`Hide` call made while a handler runs is allowed by `OnShow`/`OnHide`. -/
def Handlers.Allowing (H : Handlers) : Prop :=
  (∀ d v, ∀ c ∈ (H.OnDraw d v).1, Call.allow c = true) ∧
  (∀ d btn iX iY msg v, ∀ c ∈ (H.OnMouse d btn iX iY msg v).1, Call.allow c = true)

/-- The idle worlds reached from an empty registry by `Show` and `Hide` calls and complete
frame and mouse passes, `OnShow` and `OnHide` always allowing. -/
inductive Reachable (h : Host) : World → Prop where
  | init (objs : DialogId → CDialog) (hf : ∀ d, (objs d).m_isShown = false) :
      Reachable h (World.init objs)
  | call (w : World) (c : Call) (hr : Reachable h w) (ha : Call.allow c = true) :
      Reachable h (runCall h c w)
  | frame (w w2 : World) (H : Handlers) (r : Nat) (hr : Reachable h w)
      (hH : Handlers.Allowing H) (hp : OnFrameProc h H w = some (w2, r)) : Reachable h w2
  | mouse (w w2 : World) (H : Handlers) (btn : Nat) (iX iY : Int) (msg r : Nat)
      (hr : Reachable h w) (hH : Handlers.Allowing H)
      (hp : OnMouseProc h H btn iX iY msg w = some (w2, r)) : Reachable h w2

/-- The moment `w` of a pass that began in `w0`, all calls so far having been allowed: the
registry invariant holds, the gate is not idle, and the number of registered dialogs is the
length of the main list at the start, minus the successful `Hide` calls, plus the successful
`Show` calls made since. -/
def PassInv (w0 w : World) : Prop :=
  Inv w ∧ w.state ≠ State.StateIdle ∧
  ∃ evs, w.trace = w0.trace ++ evs ∧
    (live w).length + hideOk evs = w0.dialogs.length + showOk evs

/-- The calls `S4ApiCreate` and `AddListener` of the host succeed: each returns a handle that
is not null. -/
def HostOk (h : Host) : Prop :=
  (∀ t, h.S4ApiCreate t ≠ 0) ∧ (∀ t, h.FrameAddListener t ≠ 0) ∧ (∀ t, h.MouseAddListener t ≠ 0)

/-- A moment of a pass in which dialog `1` was hidden and dialog `3` was shown: the main list
is `0, null, 2`, dialog `3` is pending and the gate is `StateBusyCleanupRequired`. -/
def sampleDirty : World :=
  runCalls Host.sample [Call.Hide 1 true, Call.Show 3 true]
    { sampleThree with state := State.StateBusy }

/-- Reduction of an integer to the range of a signed 32-bit `int`/`LONG`: the value that
two's-complement arithmetic leaves. -/
def wrap32 (x : Int) : Int :=
  (x + 2147483648) % 4294967296 - 2147483648

/-- The values of a signed 32-bit `int`/`LONG`. -/
def In32 (x : Int) : Prop :=
  -2147483648 ≤ x ∧ x < 2147483648

/-- The constants `S4_CUSTOMUIFLAGS_*`, declared in a header that is not part of the file. -/
structure UiFlags where
  S4_CUSTOMUIFLAGS_NO_PILLARBOX : Nat
  S4_CUSTOMUIFLAGS_ANCHOR_CENTER : Nat
  S4_CUSTOMUIFLAGS_ANCHOR_RIGHT : Nat
  S4_CUSTOMUIFLAGS_ANCHOR_MIDDLE : Nat
  S4_CUSTOMUIFLAGS_ANCHOR_BOTTOM : Nat
  S4_CUSTOMUIFLAGS_ALIGN_CENTER : Nat
  S4_CUSTOMUIFLAGS_ALIGN_RIGHT : Nat
  S4_CUSTOMUIFLAGS_ALIGN_MIDDLE : Nat
  S4_CUSTOMUIFLAGS_ALIGN_BOTTOM : Nat

/-- The method `CDialog::UpdatePositionWithOffsetsFlags`, called on the object `c`.
`PillarboxWidth` is what the pointer `S4::GetInstance().PillarboxWidth` points to (`none` for
a null pointer), `clientRect` is `none` for a null pointer. All arithmetic is that of 32-bit
signed integers; `/ 2` rounds towards zero. -/
def UpdatePositionWithOffsetsFlags (F : UiFlags) (PillarboxWidth : Option Int) (c : CDialog)
    (source : RECT) (clientRect : Option RECT) : CDialog :=
  let bitmapWidth : Int := wrap32 (source.right - source.left)
  let bitmapHeight : Int := wrap32 (source.bottom - source.top)
  let surfaceWidth : Int :=
    match clientRect with
    | some cr => wrap32 (cr.right - cr.left)
    | none => 0
  let surfaceHeight : Int :=
    match clientRect with
    | some cr => wrap32 (cr.bottom - cr.top)
    | none => 0
  let pillarboxWidth : Int :=
    if c.m_flags &&& F.S4_CUSTOMUIFLAGS_NO_PILLARBOX = 0 then
      match PillarboxWidth with
      | some p => p
      | none => 0
    else 0
  let x1 : Int :=
    if c.m_flags &&& F.S4_CUSTOMUIFLAGS_ANCHOR_CENTER ≠ 0 then wrap32 (0 - bitmapWidth.tdiv 2)
    else if c.m_flags &&& F.S4_CUSTOMUIFLAGS_ANCHOR_RIGHT ≠ 0 then wrap32 (0 - bitmapWidth)
    else 0
  let y1 : Int :=
    if c.m_flags &&& F.S4_CUSTOMUIFLAGS_ANCHOR_MIDDLE ≠ 0 then wrap32 (0 - bitmapHeight.tdiv 2)
    else if c.m_flags &&& F.S4_CUSTOMUIFLAGS_ANCHOR_BOTTOM ≠ 0 then wrap32 (0 - bitmapHeight)
    else 0
  let xoffset : Int :=
    if c.m_flags &&& F.S4_CUSTOMUIFLAGS_ALIGN_CENTER ≠ 0 then wrap32 (x1 + surfaceWidth.tdiv 2)
    else if c.m_flags &&& F.S4_CUSTOMUIFLAGS_ALIGN_RIGHT ≠ 0 then
      wrap32 (wrap32 (x1 + surfaceWidth) - pillarboxWidth)
    else wrap32 (x1 + pillarboxWidth)
  let yoffset : Int :=
    if c.m_flags &&& F.S4_CUSTOMUIFLAGS_ALIGN_MIDDLE ≠ 0 then wrap32 (y1 + surfaceHeight.tdiv 2)
    else if c.m_flags &&& F.S4_CUSTOMUIFLAGS_ALIGN_BOTTOM ≠ 0 then wrap32 (y1 + surfaceHeight)
    else y1
  { c with m_position :=
      { left := wrap32 (source.left + xoffset), top := wrap32 (source.top + yoffset),
        right := wrap32 (source.right + xoffset), bottom := wrap32 (source.bottom + yoffset) } }

/-- Sample values of the flag constants, one bit each. -/
def UiFlags.sample : UiFlags where
  S4_CUSTOMUIFLAGS_NO_PILLARBOX := 1
  S4_CUSTOMUIFLAGS_ANCHOR_CENTER := 2
  S4_CUSTOMUIFLAGS_ANCHOR_RIGHT := 4
  S4_CUSTOMUIFLAGS_ANCHOR_MIDDLE := 8
  S4_CUSTOMUIFLAGS_ANCHOR_BOTTOM := 16
  S4_CUSTOMUIFLAGS_ALIGN_CENTER := 32
  S4_CUSTOMUIFLAGS_ALIGN_RIGHT := 64
  S4_CUSTOMUIFLAGS_ALIGN_MIDDLE := 128
  S4_CUSTOMUIFLAGS_ALIGN_BOTTOM := 256

/-- A dialog with the given flag word. -/
def sampleDialog (flags : Nat) : CDialog where
  m_position := ⟨200, 200, 300, 300⟩
  m_flags := flags
  m_isShown := false
  DialogFeatures := 1

/-- Handlers whose `OnDraw` of dialog `0` hides dialog `1`; every `OnDraw` returns `TRUE`. -/
def Handlers.hideNext : Handlers where
  OnDraw := fun d _ => (if d = 0 then [Call.Hide 1 true] else [], true)
  OnMouse := fun _ _ _ _ _ _ => ([], false)

/-- The destructor `CDialog::~CDialog`, run on the object `d`: it calls `Hide()`. In a
destructor the virtual call `OnHide()` is that of `CDialog` itself, which returns `TRUE`. -/
def CDialog_destructor (h : Host) (d : DialogId) (w : World) : World :=
  (Hide h d true w).1

/-- Handlers whose `OnDraw` of dialog `1` shows dialog `0`. -/
def Handlers.showZero : Handlers where
  OnDraw := fun d _ => (if d = 1 then [Call.Show 0 true] else [], false)
  OnMouse := fun _ _ _ _ _ _ => ([], false)

/-- Handlers whose `OnDraw` of dialog `1` hides and then shows dialog `0`. -/
def Handlers.rehide : Handlers where
  OnDraw := fun d _ => (if d = 1 then [Call.Hide 0 true, Call.Show 0 true] else [], false)
  OnMouse := fun _ _ _ _ _ _ => ([], false)

/-- The sample registry after dialog `0` was shown and a `Hide` of it was vetoed by `OnHide`:
the dialog is in the main list and its shown flag is clear. -/
def sampleVetoed : World :=
  runCalls Host.sample [Call.Show 0 true, Call.Hide 0 false] (World.init sampleObjs)

/-- The events that record the invocation of a handler. -/
def Event.isHandler : Event → Bool
  | .OnDraw _ _ => true
  | .OnMouse _ _ => true
  | _ => false

/-- The worlds the registry can be in, at any moment: from an empty registry, by `Show` and
`Hide` calls made in any gate state, and by the steps of frame and mouse passes (a pass begins
when the gate is idle; during a pass a null entry is met, a handler is invoked and the calls of
its body are made; `Cleanup` ends it). With `veto = false` every call is allowed by
`OnShow`/`OnHide`, with `veto = true` a call may also be vetoed. -/
inductive Reach (h : Host) (veto : Bool) : World → Prop where
  | init (objs : DialogId → CDialog) (hf : ∀ d, (objs d).m_isShown = false) :
      Reach h veto (World.init objs)
  | call (w : World) (c : Call) (hr : Reach h veto w)
      (ha : veto = true ∨ Call.allow c = true) : Reach h veto (runCall h c w)
  | enter (w : World) (hr : Reach h veto w) (hst : w.state = State.StateIdle) :
      Reach h veto { w with state := State.StateBusy }
  | null (w : World) (hr : Reach h veto w) (hst : w.state ≠ State.StateIdle)
      (hn : none ∈ w.dialogs) : Reach h veto { w with state := State.StateBusyCleanupRequired }
  | invoke (w : World) (e : Event) (hr : Reach h veto w) (hst : w.state ≠ State.StateIdle)
      (he : Event.isHandler e = true) : Reach h veto { w with trace := w.trace ++ [e] }
  | cleanup (w : World) (hr : Reach h veto w) (hst : w.state ≠ State.StateIdle) :
      Reach h veto (Cleanup h w)

/-- The entry `p` is a dialog that has the feature `f`. -/
def hasFeatureAt (obj : DialogId → CDialog) (f : Nat) : Option DialogId → Bool
  | some d => HasFeature (obj d) f
  | none => false

/-- The number of dialogs with the feature `f` among the non-null entries of the main list
and the entries of the pending list. -/
def featCount (f : Nat) (w : World) : Nat :=
  (removeNull w.dialogs).countP (hasFeatureAt w.obj f) +
    w.pending_dialogs.countP (hasFeatureAt w.obj f)

/-- The invariant of the worlds reached with allowing hooks: the registry invariant, each
counter is the number of registered dialogs with its feature (modulo `2^32`), and without a
handle no hook is installed. -/
def Good (h : Host) (w : World) : Prop :=
  Inv w ∧
  w.countFramehook = featCount h.FeatureOnDraw w % 4294967296 ∧
  w.countMousehook = featCount h.FeatureOnMouse w % 4294967296 ∧
  (w.s4api = 0 → w.hFramehook = 0 ∧ w.hMousehook = 0)

/-- The pending list has no null entry, and unless the gate is `StateBusyCleanupRequired`
the main list has no null entry, nothing is pending and the hook state is the one that
`MaintainS4Api` establishes. -/
def Calm (w : World) : Prop :=
  none ∉ w.pending_dialogs ∧
  (w.state ≠ State.StateBusyCleanupRequired →
    none ∉ w.dialogs ∧ w.pending_dialogs = [] ∧ Settled w)

/-- A host whose first `S4ApiCreate` fails (returns `NULL`) and whose later calls succeed. -/
def Host.flaky : Host where
  FeatureOnDraw := 1
  FeatureOnMouse := 2
  S4ApiCreate := fun t => if t.isEmpty then 0 else 7
  FrameAddListener := fun _ => 1
  MouseAddListener := fun _ => 1

/-- The registry after dialog `0` was shown with a host whose `S4ApiCreate` failed. -/
def sampleNoHandle : World :=
  runCalls Host.flaky [Call.Show 0 true] (World.init sampleObjs)

/-- The world `w2` differs from `w1` at most in the dialog objects and the trace. -/
def SameCore (w1 w2 : World) : Prop :=
  w2.dialogs = w1.dialogs ∧ w2.pending_dialogs = w1.pending_dialogs ∧ w2.s4api = w1.s4api ∧
  w2.hFramehook = w1.hFramehook ∧ w2.hMousehook = w1.hMousehook ∧ w2.state = w1.state ∧
  w2.countFramehook = w1.countFramehook ∧ w2.countMousehook = w1.countMousehook

/-- The sample registry with the dialogs `0`, `1`, `2` at the beginning of a pass. -/
def sampleBusy : World := { sampleThree with state := State.StateBusy }

/-- The cleanup work in full, done whatever the gate is: remove the null entries of the main
list, append the pending list, clear the pending list, run `MaintainS4Api`, set the gate to
`StateIdle`. -/
def CleanupFull (h : Host) (w : World) : World :=
  { MaintainS4Api h
      { w with dialogs := removeNull w.dialogs ++ w.pending_dialogs, pending_dialogs := [] }
    with state := State.StateIdle }

/-- The `OnDraw` invocation made by the iteration of the frame loop that reads slot `k`, in a
pass started in `w0`: the entry found in slot `k` at the moment when the iteration reaches it
(after the iterations for the slots before it), with the value its `OnDraw` returns; nothing
when that entry is null. -/
def drawAt (h : Host) (H : Handlers) (w0 : World) (k : Nat) : List (DialogId × Bool) :=
  match (frameLoop h H k 0 w0).dialogs.get? k with
  | some (some d) => [(d, (H.OnDraw d (frameLoop h H k 0 w0)).2)]
  | _ => []

/-- The calls of `Show`/`Hide` that other threads complete in the gap of a loop iteration:
after the loop has copied the entry `inst` of the slot and released the lock
(`lock.unlock()`), and before the handler `inst->OnDraw(...)` or `inst->OnMouse(...)` is
entered. The argument `DialogId` is the dialog `inst`. -/
structure Gaps where
  BeforeDraw : DialogId → World → List Call
  BeforeMouse : DialogId → Nat → Int → Int → Nat → World → List Call

/-- No call is made in any gap. -/
def Gaps.quiet : Gaps where
  BeforeDraw := fun _ _ => []
  BeforeMouse := fun _ _ _ _ _ _ => []

/-- The `for (auto inst : dialogs)` loop of `OnFrameProc` with the calls of other threads at
both places where the lock is released: `n` iterations remain, the next one reads slot `i`.
The iteration copies the entry, releases the lock, other threads may call `Show`/`Hide`
(`G.BeforeDraw`), then `inst->OnDraw(...)` is entered with the pointer that was copied, the
calls made while it runs follow (`H.OnDraw`), and the lock is taken again. -/
def frameLoopGap (h : Host) (H : Handlers) (G : Gaps) : Nat → Nat → World → World
  | 0, _, w => w
  | n + 1, i, w =>
    match w.dialogs.get? i with
    | none => w
    | some none =>
      frameLoopGap h H G n (i + 1) { w with state := State.StateBusyCleanupRequired }
    | some (some d) =>
      let w1 := runCalls h (G.BeforeDraw d w) w
      let r := H.OnDraw d w1
      frameLoopGap h H G n (i + 1)
        (runCalls h r.1 { w1 with trace := w1.trace ++ [Event.OnDraw d r.2] })

/-- The reverse loop of `OnMouseProc` with the calls of other threads at both places where
the lock is released: slots `i-1, ..., 0` remain to be visited. The null test and the hit test
`PtInRect` are made with the lock held; then the lock is released, other threads may call
`Show`/`Hide` (`G.BeforeMouse`), `inst->OnMouse(...)` is entered with the pointer that was
copied, the calls made while it runs follow (`H.OnMouse`), and the lock is taken again. -/
def mouseLoopGap (h : Host) (H : Handlers) (G : Gaps) (btn : Nat) (iX iY : Int) (msg : Nat) :
    Nat → World → World × Bool
  | 0, w => (w, false)
  | i + 1, w =>
    match w.dialogs.get? i with
    | none => mouseLoopGap h H G btn iX iY msg i w
    | some none =>
      mouseLoopGap h H G btn iX iY msg i { w with state := State.StateBusyCleanupRequired }
    | some (some d) =>
      if !PtInRect (w.obj d).m_position ⟨iX, iY⟩ then mouseLoopGap h H G btn iX iY msg i w
      else
        let w1 := runCalls h (G.BeforeMouse d btn iX iY msg w) w
        let r := H.OnMouse d btn iX iY msg w1
        let w2 := runCalls h r.1 { w1 with trace := w1.trace ++ [Event.OnMouse d r.2] }
        if r.2 then (w2, true) else mouseLoopGap h H G btn iX iY msg i w2

/-- Another thread hides dialog `1` in the gap before the handler of dialog `1` is entered. -/
def Gaps.hideSelf : Gaps where
  BeforeDraw := fun d _ => if d = 1 then [Call.Hide 1 true] else []
  BeforeMouse := fun d _ _ _ _ _ => if d = 1 then [Call.Hide 1 true] else []

/-- Another thread hides dialog `1` and shows it again in the gap before the handler of
dialog `1` is entered. -/
def Gaps.reshowSelf : Gaps where
  BeforeDraw := fun d _ => if d = 1 then [Call.Hide 1 true, Call.Show 1 true] else []
  BeforeMouse := fun d _ _ _ _ _ =>
    if d = 1 then [Call.Hide 1 true, Call.Show 1 true] else []

/-- The moment of a frame pass over `sampleBusy` at which `OnDraw` of dialog `0` has returned,
the loop has copied the pointer of dialog `1` and released the lock, and another thread has
hidden dialog `1`. -/
def sampleGapMoment : World :=
  runCalls Host.sample [Call.Hide 1 true]
    { sampleBusy with trace := sampleBusy.trace ++ [Event.OnDraw 0 false] }

/-- The reverse loop of `OnMouseProc` stopped after `n` iterations: the next iteration reads
slot `i - 1`. It is `mouseLoop` when `n` is the number of slots to visit. -/
def mouseLoopN (h : Host) (H : Handlers) (btn : Nat) (iX iY : Int) (msg : Nat) :
    Nat → Nat → World → World × Bool
  | 0, _, w => (w, false)
  | _ + 1, 0, w => (w, false)
  | n + 1, i + 1, w =>
    match w.dialogs.get? i with
    | none => mouseLoopN h H btn iX iY msg n i w
    | some none =>
      mouseLoopN h H btn iX iY msg n i { w with state := State.StateBusyCleanupRequired }
    | some (some d) =>
      if !PtInRect (w.obj d).m_position ⟨iX, iY⟩ then mouseLoopN h H btn iX iY msg n i w
      else
        let r := H.OnMouse d btn iX iY msg w
        let w2 := runCalls h r.1 { w with trace := w.trace ++ [Event.OnMouse d r.2] }
        if r.2 then (w2, true) else mouseLoopN h H btn iX iY msg n i w2

/-- The `OnMouse` invocation made by one iteration of the reverse loop that reads slot
`i - 1` in the world `v`: the entry found in that slot, with the value its `OnMouse` returns,
if the entry is not null and its rectangle contains the point; nothing otherwise. -/
def mouseSlot (H : Handlers) (btn : Nat) (iX iY : Int) (msg : Nat) (i : Nat) (v : World) :
    List (DialogId × Bool) :=
  match i with
  | 0 => []
  | s + 1 =>
    match v.dialogs.get? s with
    | some (some d) =>
      if PtInRect (v.obj d).m_position ⟨iX, iY⟩ then [(d, (H.OnMouse d btn iX iY msg v).2)]
      else []
    | _ => []

/-- The `OnMouse` invocation made by iteration number `j` (from `0`) of the mouse loop, in a
pass started in `w0`: nothing if one of the iterations before it ended the loop (a handler
consumed the event); else the entry found in slot `length - 1 - j` at the moment when the
iteration reaches it, if it is not null and its rectangle contains the point. -/
def mouseAt (h : Host) (H : Handlers) (btn : Nat) (iX iY : Int) (msg : Nat) (w0 : World)
    (j : Nat) : List (DialogId × Bool) :=
  if (mouseLoopN h H btn iX iY msg j w0.dialogs.length w0).2 then []
  else mouseSlot H btn iX iY msg (w0.dialogs.length - j)
    (mouseLoopN h H btn iX iY msg j w0.dialogs.length w0).1

/-! ## Field lemmas -/

theorem MaintainS4Api_fields (h : Host) (w : World) :
    (MaintainS4Api h w).dialogs = w.dialogs ∧
    (MaintainS4Api h w).pending_dialogs = w.pending_dialogs ∧
    (MaintainS4Api h w).state = w.state ∧
    (MaintainS4Api h w).countFramehook = w.countFramehook ∧
    (MaintainS4Api h w).countMousehook = w.countMousehook ∧
    (MaintainS4Api h w).obj = w.obj := by
  rcases w with ⟨ds, ps, api, hF, hM, st, cF, cM, ob, tr⟩
  by_cases h1 : api = 0 <;> by_cases h2 : hF = 0 <;> by_cases h3 : hM = 0 <;>
  by_cases h4 : cF = 0 <;> by_cases h5 : cM = 0 <;> by_cases h6 : ds = [] <;>
  by_cases h7 : h.S4ApiCreate tr = 0 <;>
  simp [MaintainS4Api, removeFrameListener, removeMouseListener, releaseApi, acquireApi,
    addFrameListener, addMouseListener, h1, h2, h3, h4, h5, h6, h7, Nat.pos_iff_ne_zero]

@[simp] theorem MaintainS4Api_dialogs (h : Host) (w : World) :
    (MaintainS4Api h w).dialogs = w.dialogs := (MaintainS4Api_fields h w).1

@[simp] theorem MaintainS4Api_pending (h : Host) (w : World) :
    (MaintainS4Api h w).pending_dialogs = w.pending_dialogs := (MaintainS4Api_fields h w).2.1

@[simp] theorem MaintainS4Api_state (h : Host) (w : World) :
    (MaintainS4Api h w).state = w.state := (MaintainS4Api_fields h w).2.2.1

@[simp] theorem MaintainS4Api_countFramehook (h : Host) (w : World) :
    (MaintainS4Api h w).countFramehook = w.countFramehook := (MaintainS4Api_fields h w).2.2.2.1

@[simp] theorem MaintainS4Api_countMousehook (h : Host) (w : World) :
    (MaintainS4Api h w).countMousehook = w.countMousehook :=
  (MaintainS4Api_fields h w).2.2.2.2.1

@[simp] theorem MaintainS4Api_obj (h : Host) (w : World) :
    (MaintainS4Api h w).obj = w.obj := (MaintainS4Api_fields h w).2.2.2.2.2

theorem ApiExt_refl (w : World) : ApiExt w w := ⟨[], by simp, by simp⟩

theorem ApiExt_trans {w1 w2 w3 : World} (h12 : ApiExt w1 w2) (h23 : ApiExt w2 w3) :
    ApiExt w1 w3 := by
  obtain ⟨e1, t1, a1⟩ := h12
  obtain ⟨e2, t2, a2⟩ := h23
  refine ⟨e1 ++ e2, by rw [t2, t1, List.append_assoc], ?_⟩
  intro e he
  rcases List.mem_append.1 he with he | he
  · exact a1 e he
  · exact a2 e he

theorem ApiExt_single (w w2 : World) (e : Event) (ht : w2.trace = w.trace ++ [e])
    (he : Event.isApi e = true) : ApiExt w w2 :=
  ⟨[e], ht, by simpa using he⟩

theorem removeFrameListener_apiExt (w : World) : ApiExt w (removeFrameListener w) := by
  unfold removeFrameListener
  by_cases hc : w.hFramehook ≠ 0 ∧ w.countFramehook ≤ 0
  · rw [if_pos hc]; exact ApiExt_single w _ _ rfl rfl
  · rw [if_neg hc]; exact ApiExt_refl w

theorem removeMouseListener_apiExt (w : World) : ApiExt w (removeMouseListener w) := by
  unfold removeMouseListener
  by_cases hc : w.hMousehook ≠ 0 ∧ w.countMousehook ≤ 0
  · rw [if_pos hc]; exact ApiExt_single w _ _ rfl rfl
  · rw [if_neg hc]; exact ApiExt_refl w

theorem releaseApi_apiExt (w : World) : ApiExt w (releaseApi w) := by
  unfold releaseApi
  by_cases hc : w.dialogs.isEmpty = true
  · rw [if_pos hc]; exact ApiExt_single w _ _ rfl rfl
  · rw [if_neg hc]; exact ApiExt_refl w

theorem acquireApi_apiExt (h : Host) (w : World) : ApiExt w (acquireApi h w) := by
  unfold acquireApi
  by_cases hc : ¬ w.dialogs.isEmpty = true
  · rw [if_pos hc]; exact ApiExt_single w _ _ rfl rfl
  · rw [if_neg hc]; exact ApiExt_refl w

theorem addFrameListener_apiExt (h : Host) (w : World) : ApiExt w (addFrameListener h w) := by
  unfold addFrameListener
  by_cases hc : w.hFramehook = 0 ∧ w.countFramehook > 0
  · rw [if_pos hc]; exact ApiExt_single w _ _ rfl rfl
  · rw [if_neg hc]; exact ApiExt_refl w

theorem addMouseListener_apiExt (h : Host) (w : World) : ApiExt w (addMouseListener h w) := by
  unfold addMouseListener
  by_cases hc : w.hMousehook = 0 ∧ w.countMousehook > 0
  · rw [if_pos hc]; exact ApiExt_single w _ _ rfl rfl
  · rw [if_neg hc]; exact ApiExt_refl w

/-- The first half of `MaintainS4Api`: release what is not needed, or acquire the handle. -/
theorem MaintainS4Api_apiExt_aux (h : Host) (w : World) :
    ApiExt w (if w.s4api ≠ 0 then releaseApi (removeMouseListener (removeFrameListener w))
      else acquireApi h w) := by
  by_cases hc : w.s4api ≠ 0
  · rw [if_pos hc]
    exact ApiExt_trans (ApiExt_trans (removeFrameListener_apiExt w) (removeMouseListener_apiExt _))
      (releaseApi_apiExt _)
  · rw [if_neg hc]; exact acquireApi_apiExt h w

/-- The events that `MaintainS4Api` appends to the trace are host API calls. -/
theorem MaintainS4Api_apiExt (h : Host) (w : World) : ApiExt w (MaintainS4Api h w) := by
  have h1 := MaintainS4Api_apiExt_aux h w
  unfold MaintainS4Api
  generalize (if w.s4api ≠ 0 then releaseApi (removeMouseListener (removeFrameListener w))
      else acquireApi h w) = w1 at h1 ⊢
  simp only []
  by_cases hc : w1.s4api ≠ 0
  · rw [if_pos hc]
    exact ApiExt_trans h1 (ApiExt_trans (addFrameListener_apiExt h _) (addMouseListener_apiExt h _))
  · rw [if_neg hc]; exact h1

theorem MaintainS4Api_of_settled (h : Host) (w : World) (hs : Settled w) :
    MaintainS4Api h w = w := by
  rcases w with ⟨ds, ps, api, hF, hM, st, cF, cM, ob, tr⟩
  obtain ⟨h0, h1⟩ := hs
  simp only at h0 h1
  by_cases ha : api = 0
  · have hd := h0 ha
    subst ha; subst hd
    simp [MaintainS4Api, acquireApi]
  · obtain ⟨hd, hf, hm⟩ := h1 ha
    have e1 : ¬ (hF ≠ 0 ∧ cF ≤ 0) := by
      rintro ⟨a, b⟩; have := hf.1 a; omega
    have e2 : ¬ (hM ≠ 0 ∧ cM ≤ 0) := by
      rintro ⟨a, b⟩; have := hm.1 a; omega
    have e3 : ¬ (hF = 0 ∧ cF > 0) := by
      rintro ⟨a, b⟩; exact (hf.2 b) a
    have e4 : ¬ (hM = 0 ∧ cM > 0) := by
      rintro ⟨a, b⟩; exact (hm.2 b) a
    have e5 : ds.isEmpty = false := by
      cases ds with
      | nil => exact absurd rfl hd
      | cons _ _ => rfl
    simp only [MaintainS4Api, removeFrameListener, removeMouseListener, releaseApi,
      addFrameListener, addMouseListener, if_neg e1, if_neg e2, if_neg e3, if_neg e4, e5,
      ne_eq, ha, not_false_eq_true, if_true, Bool.false_eq_true, if_false]

theorem MaintainS4Api_settled (h : Host) (w : World)
    (hc : ∀ t, h.S4ApiCreate t ≠ 0) (hf : ∀ t, h.FrameAddListener t ≠ 0)
    (hm : ∀ t, h.MouseAddListener t ≠ 0) :
    Settled (MaintainS4Api h w) := by
  rcases w with ⟨ds, ps, api, hF, hM, st, cF, cM, ob, tr⟩
  by_cases h1 : api = 0 <;> by_cases h2 : hF = 0 <;> by_cases h3 : hM = 0 <;>
  by_cases h4 : cF = 0 <;> by_cases h5 : cM = 0 <;> by_cases h6 : ds = [] <;>
  simp [Settled, MaintainS4Api, removeFrameListener, removeMouseListener, releaseApi, acquireApi,
    addFrameListener, addMouseListener, h1, h2, h3, h4, h5, h6, hc, hf, hm, Nat.pos_iff_ne_zero]

@[simp] theorem setShown_dialogs (d : DialogId) (b : Bool) (w : World) :
    (setShown d b w).dialogs = w.dialogs := rfl
@[simp] theorem setShown_pending (d : DialogId) (b : Bool) (w : World) :
    (setShown d b w).pending_dialogs = w.pending_dialogs := rfl
@[simp] theorem setShown_state (d : DialogId) (b : Bool) (w : World) :
    (setShown d b w).state = w.state := rfl
@[simp] theorem setShown_countFramehook (d : DialogId) (b : Bool) (w : World) :
    (setShown d b w).countFramehook = w.countFramehook := rfl
@[simp] theorem setShown_countMousehook (d : DialogId) (b : Bool) (w : World) :
    (setShown d b w).countMousehook = w.countMousehook := rfl
@[simp] theorem setShown_trace (d : DialogId) (b : Bool) (w : World) :
    (setShown d b w).trace = w.trace := rfl
@[simp] theorem setShown_s4api (d : DialogId) (b : Bool) (w : World) :
    (setShown d b w).s4api = w.s4api := rfl
@[simp] theorem setShown_hFramehook (d : DialogId) (b : Bool) (w : World) :
    (setShown d b w).hFramehook = w.hFramehook := rfl
@[simp] theorem setShown_hMousehook (d : DialogId) (b : Bool) (w : World) :
    (setShown d b w).hMousehook = w.hMousehook := rfl

@[simp] theorem setShown_isShown_self (d : DialogId) (b : Bool) (w : World) :
    ((setShown d b w).obj d).m_isShown = b := by
  simp [setShown]

theorem setShown_isShown_other (d e : DialogId) (b : Bool) (w : World) (hne : e ≠ d) :
    (setShown d b w).obj e = w.obj e := by
  simp [setShown, Function.update_noteq hne]

@[simp] theorem setShown_features (d e : DialogId) (b : Bool) (w : World) :
    ((setShown d b w).obj e).DialogFeatures = (w.obj e).DialogFeatures := by
  by_cases hde : e = d
  · subst hde; simp [setShown]
  · rw [setShown_isShown_other d e b w hde]

@[simp] theorem setShown_position (d e : DialogId) (b : Bool) (w : World) :
    ((setShown d b w).obj e).m_position = (w.obj e).m_position := by
  by_cases hde : e = d
  · subst hde; simp [setShown]
  · rw [setShown_isShown_other d e b w hde]

@[simp] theorem HasFeature_setShown (d e : DialogId) (b : Bool) (w : World) (f : Nat) :
    HasFeature ((setShown d b w).obj e) f = HasFeature (w.obj e) f := by
  simp [HasFeature]

theorem ModifyFeatureCounts_fields (h : Host) (d : DialogId) (add : Int) (w : World) :
    (ModifyFeatureCounts h d add w).dialogs = w.dialogs ∧
    (ModifyFeatureCounts h d add w).pending_dialogs = w.pending_dialogs ∧
    (ModifyFeatureCounts h d add w).state = w.state ∧
    (ModifyFeatureCounts h d add w).obj = w.obj ∧
    (ModifyFeatureCounts h d add w).trace = w.trace ∧
    (ModifyFeatureCounts h d add w).s4api = w.s4api ∧
    (ModifyFeatureCounts h d add w).hFramehook = w.hFramehook ∧
    (ModifyFeatureCounts h d add w).hMousehook = w.hMousehook := by
  rcases w with ⟨ds, ps, api, hF, hM, st, cF, cM, ob, tr⟩
  by_cases h1 : HasFeature (ob d) h.FeatureOnDraw = true <;>
  by_cases h2 : HasFeature (ob d) h.FeatureOnMouse = true <;>
  simp [ModifyFeatureCounts, h1, h2]

@[simp] theorem ModifyFeatureCounts_dialogs (h : Host) (d : DialogId) (add : Int) (w : World) :
    (ModifyFeatureCounts h d add w).dialogs = w.dialogs := (ModifyFeatureCounts_fields h d add w).1
@[simp] theorem ModifyFeatureCounts_pending (h : Host) (d : DialogId) (add : Int) (w : World) :
    (ModifyFeatureCounts h d add w).pending_dialogs = w.pending_dialogs :=
  (ModifyFeatureCounts_fields h d add w).2.1
@[simp] theorem ModifyFeatureCounts_state (h : Host) (d : DialogId) (add : Int) (w : World) :
    (ModifyFeatureCounts h d add w).state = w.state := (ModifyFeatureCounts_fields h d add w).2.2.1
@[simp] theorem ModifyFeatureCounts_obj (h : Host) (d : DialogId) (add : Int) (w : World) :
    (ModifyFeatureCounts h d add w).obj = w.obj := (ModifyFeatureCounts_fields h d add w).2.2.2.1
@[simp] theorem ModifyFeatureCounts_trace (h : Host) (d : DialogId) (add : Int) (w : World) :
    (ModifyFeatureCounts h d add w).trace = w.trace :=
  (ModifyFeatureCounts_fields h d add w).2.2.2.2.1

theorem ModifyFeatureCounts_counts (h : Host) (d : DialogId) (add : Int) (w : World) :
    (ModifyFeatureCounts h d add w).countFramehook =
      (if HasFeature (w.obj d) h.FeatureOnDraw then addU32 w.countFramehook add
       else w.countFramehook) ∧
    (ModifyFeatureCounts h d add w).countMousehook =
      (if HasFeature (w.obj d) h.FeatureOnMouse then addU32 w.countMousehook add
       else w.countMousehook) := by
  rcases w with ⟨ds, ps, api, hF, hM, st, cF, cM, ob, tr⟩
  by_cases h1 : HasFeature (ob d) h.FeatureOnDraw = true <;>
  by_cases h2 : HasFeature (ob d) h.FeatureOnMouse = true <;>
  simp [ModifyFeatureCounts, h1, h2]

theorem addU32_one (c : Nat) : addU32 c 1 = (c + 1) % 4294967296 := by
  unfold addU32; omega

theorem addU32_restore (c : Nat) (hc : c < 4294967296) : addU32 (addU32 c 1) (-1) = c := by
  unfold addU32; omega

/-! ## `Show` and `Hide`, branch by branch -/

theorem Show_shown (h : Host) (d : DialogId) (onShow : Bool) (w : World)
    (hs : (w.obj d).m_isShown = true) :
    Show h d onShow w = (w, false) := by
  simp [Show, hs]

theorem Show_veto (h : Host) (d : DialogId) (w : World)
    (hs : (w.obj d).m_isShown = false) :
    Show h d false w = (setShown d true w, false) := by
  simp [Show, hs]

theorem Show_allow_idle (h : Host) (d : DialogId) (w : World)
    (hs : (w.obj d).m_isShown = false) (hst : w.state = State.StateIdle) :
    Show h d true w =
      (MaintainS4Api h { ModifyFeatureCounts h d 1 (setShown d true w) with
        dialogs := w.dialogs ++ [some d] }, true) := by
  simp [Show, hs, hst]

theorem Show_allow_busy (h : Host) (d : DialogId) (w : World)
    (hs : (w.obj d).m_isShown = false) (hst : w.state ≠ State.StateIdle) :
    Show h d true w =
      ({ ModifyFeatureCounts h d 1 (setShown d true w) with
        pending_dialogs := w.pending_dialogs ++ [some d],
        state := State.StateBusyCleanupRequired }, true) := by
  cases hw : w.state <;> simp [Show, hs, hw] at hst ⊢

theorem Hide_hidden (h : Host) (d : DialogId) (onHide : Bool) (w : World)
    (hs : (w.obj d).m_isShown = false) :
    Hide h d onHide w = (w, false) := by
  simp [Hide, hs]

theorem Hide_veto (h : Host) (d : DialogId) (w : World)
    (hs : (w.obj d).m_isShown = true) :
    Hide h d false w = (setShown d false w, false) := by
  simp [Hide, hs]

theorem Hide_allow_idle (h : Host) (d : DialogId) (w : World)
    (hs : (w.obj d).m_isShown = true) (hst : w.state = State.StateIdle) :
    Hide h d true w =
      (MaintainS4Api h { ModifyFeatureCounts h d (-1) (setShown d false w) with
        dialogs := eraseLast (some d) w.dialogs }, true) := by
  simp [Hide, hs, hst]

theorem Hide_allow_busy (h : Host) (d : DialogId) (w : World)
    (hs : (w.obj d).m_isShown = true) (hst : w.state = State.StateBusy) :
    Hide h d true w = (HideBusy d (ModifyFeatureCounts h d (-1) (setShown d false w)), true) := by
  simp [Hide, hs, hst]

theorem Hide_allow_pending (h : Host) (d : DialogId) (w : World)
    (hs : (w.obj d).m_isShown = true) (hst : w.state = State.StateBusyCleanupRequired)
    (hp : some d ∈ w.pending_dialogs) :
    Hide h d true w =
      ({ ModifyFeatureCounts h d (-1) (setShown d false w) with
        pending_dialogs := eraseLast (some d) w.pending_dialogs }, true) := by
  simp [Hide, hs, hst, hp]

theorem Hide_allow_fallthrough (h : Host) (d : DialogId) (w : World)
    (hs : (w.obj d).m_isShown = true) (hst : w.state = State.StateBusyCleanupRequired)
    (hp : some d ∉ w.pending_dialogs) :
    Hide h d true w = (HideBusy d (ModifyFeatureCounts h d (-1) (setShown d false w)), true) := by
  simp [Hide, hs, hst, hp]

/-- What a successful `Show` does to the parts of the world that do not depend on the gate. -/
theorem Show_allow_spec (h : Host) (d : DialogId) (w : World)
    (hs : (w.obj d).m_isShown = false) :
    (Show h d true w).2 = true ∧
    (Show h d true w).1.obj = (setShown d true w).obj ∧
    (Show h d true w).1.countFramehook =
      (ModifyFeatureCounts h d 1 (setShown d true w)).countFramehook ∧
    (Show h d true w).1.countMousehook =
      (ModifyFeatureCounts h d 1 (setShown d true w)).countMousehook := by
  cases hw : w.state <;> simp [Show, hs, hw]

/-- What a successful `Hide` does to the parts of the world that do not depend on the gate. -/
theorem Hide_allow_spec (h : Host) (d : DialogId) (w : World)
    (hs : (w.obj d).m_isShown = true) :
    (Hide h d true w).2 = true ∧
    (Hide h d true w).1.obj = (setShown d false w).obj ∧
    (Hide h d true w).1.countFramehook =
      (ModifyFeatureCounts h d (-1) (setShown d false w)).countFramehook ∧
    (Hide h d true w).1.countMousehook =
      (ModifyFeatureCounts h d (-1) (setShown d false w)).countMousehook := by
  cases hw : w.state
  · simp [Hide, hs, hw]
  · simp [Hide, hs, hw, HideBusy]
  · by_cases hp : some d ∈ w.pending_dialogs <;> simp [Hide, hs, hw, hp, HideBusy]

/-! ## C2, C3: calls that fail on the shown flag -/

/-- C2: `Show` on a dialog whose shown flag is already set returns `FALSE` and returns the
world it was given: the main list, the pending list, both counters, the gate, the handle
and hook handles, the flag and the trace are all unchanged, so the dialog is not added a second
time to either list. -/
theorem Show_already_shown (h : Host) (d : DialogId) (onShow : Bool) (w : World)
    (hs : (w.obj d).m_isShown = true) :
    (Show h d onShow w).2 = false ∧ (Show h d onShow w).1 = w ∧
    (Show h d onShow w).1.dialogs.count (some d) = w.dialogs.count (some d) ∧
    (Show h d onShow w).1.pending_dialogs.count (some d) = w.pending_dialogs.count (some d) := by
  simp [Show_shown h d onShow w hs]

theorem Show_already_shown_witness :
    (sampleShown.obj 0).m_isShown = true ∧
    (Show Host.sample 0 true sampleShown).2 = false ∧
    (Show Host.sample 0 true sampleShown).1 = sampleShown ∧
    (Show Host.sample 0 true sampleShown).1.dialogs.count (some 0) =
      sampleShown.dialogs.count (some 0) ∧
    (Show Host.sample 0 true sampleShown).1.pending_dialogs.count (some 0) =
      sampleShown.pending_dialogs.count (some 0) :=
  ⟨by decide, Show_already_shown Host.sample 0 true sampleShown (by decide)⟩

/-- C3: `Hide` on a dialog whose shown flag is not set returns `FALSE` and returns the world
it was given, whatever the gate is: the main list, the pending list, both counters, the gate,
the hook handles, the flag and the trace are all unchanged. -/
theorem Hide_not_shown (h : Host) (d : DialogId) (onHide : Bool) (w : World)
    (hs : (w.obj d).m_isShown = false) :
    (Hide h d onHide w).2 = false ∧ (Hide h d onHide w).1 = w := by
  simp [Hide_hidden h d onHide w hs]

theorem Hide_not_shown_witness :
    (sampleShown.obj 1).m_isShown = false ∧
    (Hide Host.sample 1 true sampleShown).2 = false ∧
    (Hide Host.sample 1 true sampleShown).1 = sampleShown :=
  ⟨by decide, Hide_not_shown Host.sample 1 true sampleShown (by decide)⟩

/-! ## C4: a veto is not rolled back -/

/-- C4, evaluated: on a fresh registry, a `Show` of dialog `0` that `OnShow` vetoes returns
`FALSE` and leaves both lists empty, but the shown flag of the dialog is set afterwards; the
next `Show` (now allowed by `OnShow`) is rejected as "already shown" and registers nothing, and
a `Hide` of the never-registered dialog succeeds and wraps the draw counter around.
Symmetrically, a vetoed `Hide` of the registered dialog `0` returns `FALSE` with the dialog
still in the list, but clears the flag, so that a second `Show` registers it twice. -/
theorem veto_not_rolled_back :
    (Show Host.sample 0 false (World.init sampleObjs)).2 = false ∧
    ((World.init sampleObjs).obj 0).m_isShown = false ∧
    ((Show Host.sample 0 false (World.init sampleObjs)).1.obj 0).m_isShown = true ∧
    (Show Host.sample 0 false (World.init sampleObjs)).1.dialogs = [] ∧
    (Show Host.sample 0 true (Show Host.sample 0 false (World.init sampleObjs)).1).2 = false ∧
    (Show Host.sample 0 true (Show Host.sample 0 false (World.init sampleObjs)).1).1.dialogs
      = [] ∧
    (Hide Host.sample 0 true (Show Host.sample 0 false (World.init sampleObjs)).1).2 = true ∧
    (Hide Host.sample 0 true
      (Show Host.sample 0 false (World.init sampleObjs)).1).1.countFramehook = 4294967295 ∧
    (Hide Host.sample 0 false sampleShown).2 = false ∧
    (sampleShown.obj 0).m_isShown = true ∧
    ((Hide Host.sample 0 false sampleShown).1.obj 0).m_isShown = false ∧
    (Hide Host.sample 0 false sampleShown).1.dialogs = [some 0] ∧
    (Show Host.sample 0 true (Hide Host.sample 0 false sampleShown).1).1.dialogs
      = [some 0, some 0] := by
  decide

/-! ## C9: the feature counters across `Show` and `Hide` -/

/-- C9: for a dialog that is not shown (32-bit counters, `OnShow`/`OnHide` allowing), `Show`
succeeds and adds 1 modulo `2^32` to the draw counter exactly when the dialog has the draw
feature and to the mouse counter exactly when it has the mouse feature (so a draw-only dialog
leaves the mouse counter alone, a mouse-only dialog the draw counter, and a dialog with both
changes both); the `Hide` that follows succeeds and gives both counters the values they had
before the `Show`. This holds whatever the gate is. -/
theorem Show_Hide_counters (h : Host) (d : DialogId) (w : World)
    (hs : (w.obj d).m_isShown = false)
    (hF : w.countFramehook < 4294967296) (hM : w.countMousehook < 4294967296) :
    (Show h d true w).2 = true ∧
    (Show h d true w).1.countFramehook =
      (if HasFeature (w.obj d) h.FeatureOnDraw then (w.countFramehook + 1) % 4294967296
       else w.countFramehook) ∧
    (Show h d true w).1.countMousehook =
      (if HasFeature (w.obj d) h.FeatureOnMouse then (w.countMousehook + 1) % 4294967296
       else w.countMousehook) ∧
    (Hide h d true (Show h d true w).1).2 = true ∧
    (Hide h d true (Show h d true w).1).1.countFramehook = w.countFramehook ∧
    (Hide h d true (Show h d true w).1).1.countMousehook = w.countMousehook := by
  obtain ⟨s1, s2, s3, s4⟩ := Show_allow_spec h d w hs
  have hshown : ((Show h d true w).1.obj d).m_isShown = true := by
    rw [s2]; simp
  obtain ⟨t1, t2, t3, t4⟩ := Hide_allow_spec h d (Show h d true w).1 hshown
  have c1 := ModifyFeatureCounts_counts h d 1 (setShown d true w)
  have c2 := ModifyFeatureCounts_counts h d (-1) (setShown d false (Show h d true w).1)
  have f1 : ∀ f, HasFeature ((Show h d true w).1.obj d) f = HasFeature (w.obj d) f := by
    intro f; rw [s2]; simp
  simp only [HasFeature_setShown, setShown_countFramehook, setShown_countMousehook, f1] at c1 c2
  refine ⟨s1, ?_, ?_, t1, ?_, ?_⟩
  · rw [s3, c1.1]; split_ifs <;> simp [addU32_one]
  · rw [s4, c1.2]; split_ifs <;> simp [addU32_one]
  · rw [t3, c2.1, s3, c1.1]; split_ifs
    · exact addU32_restore _ hF
    · rfl
  · rw [t4, c2.2, s4, c1.2]; split_ifs
    · exact addU32_restore _ hM
    · rfl

theorem Show_Hide_counters_witness :
    ((World.init sampleObjs).obj 0).m_isShown = false ∧
    (World.init sampleObjs).countFramehook < 4294967296 ∧
    (World.init sampleObjs).countMousehook < 4294967296 ∧
    HasFeature ((World.init sampleObjs).obj 0) Host.sample.FeatureOnDraw = true ∧
    HasFeature ((World.init sampleObjs).obj 0) Host.sample.FeatureOnMouse = false ∧
    ((Show Host.sample 0 true (World.init sampleObjs)).2 = true ∧
    (Show Host.sample 0 true (World.init sampleObjs)).1.countFramehook =
      (if HasFeature ((World.init sampleObjs).obj 0) Host.sample.FeatureOnDraw
       then ((World.init sampleObjs).countFramehook + 1) % 4294967296
       else (World.init sampleObjs).countFramehook) ∧
    (Show Host.sample 0 true (World.init sampleObjs)).1.countMousehook =
      (if HasFeature ((World.init sampleObjs).obj 0) Host.sample.FeatureOnMouse
       then ((World.init sampleObjs).countMousehook + 1) % 4294967296
       else (World.init sampleObjs).countMousehook) ∧
    (Hide Host.sample 0 true (Show Host.sample 0 true (World.init sampleObjs)).1).2 = true ∧
    (Hide Host.sample 0 true (Show Host.sample 0 true (World.init sampleObjs)).1).1.countFramehook
      = (World.init sampleObjs).countFramehook ∧
    (Hide Host.sample 0 true (Show Host.sample 0 true (World.init sampleObjs)).1).1.countMousehook
      = (World.init sampleObjs).countMousehook) :=
  ⟨by decide, by decide, by decide, by decide, by decide,
    Show_Hide_counters Host.sample 0 (World.init sampleObjs) (by decide) (by decide) (by decide)⟩

/-! ## C10: `MaintainS4Api` is idempotent -/

/-- C10: when `S4ApiCreate` and both `AddListener` calls return non-null handles, running
`MaintainS4Api` a second time returns the world the first run produced, for every world: the
handle, the hook handles and everything else are the same, and the trace is the same, that is,
the second run makes no `S4ApiCreate`, `Release`, `AddListener` or `RemoveListener` call. -/
theorem MaintainS4Api_idempotent (h : Host) (w : World)
    (hc : ∀ t, h.S4ApiCreate t ≠ 0) (hf : ∀ t, h.FrameAddListener t ≠ 0)
    (hm : ∀ t, h.MouseAddListener t ≠ 0) :
    MaintainS4Api h (MaintainS4Api h w) = MaintainS4Api h w ∧
    (MaintainS4Api h (MaintainS4Api h w)).trace = (MaintainS4Api h w).trace := by
  have e := MaintainS4Api_of_settled h _ (MaintainS4Api_settled h w hc hf hm)
  exact ⟨e, by rw [e]⟩

theorem MaintainS4Api_idempotent_witness :
    (∀ t, Host.sample.S4ApiCreate t ≠ 0) ∧ (∀ t, Host.sample.FrameAddListener t ≠ 0) ∧
    (∀ t, Host.sample.MouseAddListener t ≠ 0) ∧
    MaintainS4Api Host.sample (MaintainS4Api Host.sample
        { World.init sampleObjs with dialogs := [some 0], countFramehook := 1 }) =
      MaintainS4Api Host.sample
        { World.init sampleObjs with dialogs := [some 0], countFramehook := 1 } ∧
    (MaintainS4Api Host.sample (MaintainS4Api Host.sample
        { World.init sampleObjs with dialogs := [some 0], countFramehook := 1 })).trace =
      (MaintainS4Api Host.sample
        { World.init sampleObjs with dialogs := [some 0], countFramehook := 1 }).trace :=
  ⟨by simp [Host.sample], by simp [Host.sample], by simp [Host.sample],
    MaintainS4Api_idempotent Host.sample _ (by simp [Host.sample]) (by simp [Host.sample])
      (by simp [Host.sample])⟩

/-! ## Lists -/

theorem eraseLast_of_not_mem (p : Option DialogId) (l : List (Option DialogId)) (hp : p ∉ l) :
    eraseLast p l = l := by
  induction l with
  | nil => rfl
  | cons x xs ih =>
    have h1 : p ∉ xs := fun hm => hp (List.mem_cons_of_mem _ hm)
    have h2 : ¬ x = p := fun he => hp (he ▸ List.mem_cons_self _ _)
    simp [eraseLast, h1, h2]

theorem eraseLast_eq_erase (p : Option DialogId) (l : List (Option DialogId)) (hl : l.Nodup) :
    eraseLast p l = l.erase p := by
  induction l with
  | nil => rfl
  | cons x xs ih =>
    obtain ⟨hx, hxs⟩ := List.nodup_cons.1 hl
    by_cases h1 : p ∈ xs
    · have h2 : ¬ x = p := fun he => hx (he ▸ h1)
      simp [eraseLast, h1, List.erase_cons, h2, ih hxs]
    · by_cases h2 : x = p
      · simp [eraseLast, h1, h2]
      · simp [eraseLast, h1, h2, List.erase_cons, List.erase_of_not_mem h1]

theorem length_nullLast (p : Option DialogId) (l : List (Option DialogId)) :
    (nullLast p l).length = l.length := by
  induction l with
  | nil => rfl
  | cons x xs ih =>
    by_cases h1 : p ∈ xs
    · simp [nullLast, h1, ih]
    · by_cases h2 : x = p <;> simp [nullLast, h1, h2]

theorem nullLast_of_not_mem (p : Option DialogId) (l : List (Option DialogId)) (hp : p ∉ l) :
    nullLast p l = l := by
  induction l with
  | nil => rfl
  | cons x xs ih =>
    have h1 : p ∉ xs := fun hm => hp (List.mem_cons_of_mem _ hm)
    have h2 : ¬ x = p := fun he => hp (he ▸ List.mem_cons_self _ _)
    simp [nullLast, h1, h2]

theorem mem_removeNull (p : Option DialogId) (l : List (Option DialogId)) :
    p ∈ removeNull l ↔ p ∈ l ∧ p ≠ none := by
  simp [removeNull]

theorem removeNull_of_no_null (l : List (Option DialogId)) (hl : none ∉ l) :
    removeNull l = l := by
  unfold removeNull
  rw [List.filter_eq_self]
  intro a ha
  have : a ≠ none := fun he => hl (he ▸ ha)
  simpa using this

theorem removeNull_append (l1 l2 : List (Option DialogId)) :
    removeNull (l1 ++ l2) = removeNull l1 ++ removeNull l2 := by
  simp [removeNull]

theorem removeNull_cons_some (d : DialogId) (l : List (Option DialogId)) :
    removeNull (some d :: l) = some d :: removeNull l := by
  simp [removeNull]

theorem removeNull_cons_none (l : List (Option DialogId)) :
    removeNull (none :: l) = removeNull l := by
  simp [removeNull]

theorem removeNull_nullLast (d : DialogId) (l : List (Option DialogId)) :
    removeNull (nullLast (some d) l) = eraseLast (some d) (removeNull l) := by
  induction l with
  | nil => rfl
  | cons x xs ih =>
    by_cases h1 : some d ∈ xs
    · have h1r : some d ∈ removeNull xs := (mem_removeNull _ _).2 ⟨h1, by simp⟩
      have e1 : nullLast (some d) (x :: xs) = x :: nullLast (some d) xs := by
        simp [nullLast, h1]
      rw [e1]
      cases x with
      | none => rw [removeNull_cons_none, removeNull_cons_none, ih]
      | some y =>
        rw [removeNull_cons_some, removeNull_cons_some, ih]
        simp [eraseLast, h1r]
    · have h1r : some d ∉ removeNull xs := fun hm => h1 ((mem_removeNull _ _).1 hm).1
      cases x with
      | none =>
        have e1 : nullLast (some d) (none :: xs) = none :: xs := by
          simp [nullLast, h1]
        rw [e1, removeNull_cons_none, eraseLast_of_not_mem _ _ h1r]
      | some y =>
        by_cases h2 : y = d
        · subst h2
          have e1 : nullLast (some y) (some y :: xs) = none :: xs := by
            simp [nullLast, h1]
          rw [e1, removeNull_cons_none, removeNull_cons_some]
          simp [eraseLast, h1r]
        · have e1 : nullLast (some d) (some y :: xs) = some y :: xs := by
            simp [nullLast, h1, h2]
          rw [e1, removeNull_cons_some]
          simp [eraseLast, h1r, h2]

/-- The slots of `nullLast`: one slot that held `p` holds the null pointer, the others are
unchanged. -/
theorem nullLast_slots (p : Option DialogId) (l : List (Option DialogId)) (hp : p ∈ l) :
    ∃ k, k < l.length ∧ l.get? k = some p ∧ (nullLast p l).get? k = some none ∧
      ∀ j, j ≠ k → (nullLast p l).get? j = l.get? j := by
  induction l with
  | nil => simp at hp
  | cons x xs ih =>
    by_cases h1 : p ∈ xs
    · obtain ⟨k, hk, hk1, hk2, hk3⟩ := ih h1
      refine ⟨k + 1, by simpa using hk, by simpa using hk1, by simpa [nullLast, h1] using hk2, ?_⟩
      intro j hj
      cases j with
      | zero => simp [nullLast, h1]
      | succ j =>
        have : j ≠ k := fun he => hj (by rw [he])
        simpa [nullLast, h1] using hk3 j this
    · have h2 : x = p := by
        rcases List.mem_cons.1 hp with he | he
        · exact he.symm
        · exact absurd he h1
      refine ⟨0, by simp, by simp [h2], by simp [nullLast, h1, h2], ?_⟩
      intro j hj
      cases j with
      | zero => exact absurd rfl hj
      | succ j => simp [nullLast, h1, h2]

theorem lastShown_le (d : DialogId) (t : List Event) : lastShown d t ≤ t.length := by
  induction t with
  | nil => simp [lastShown]
  | cons e t ih =>
    simp only [lastShown, List.length_cons]
    split_ifs <;> omega

theorem lastShown_append_single (d : DialogId) (t : List Event) (e : Event) :
    lastShown d (t ++ [e]) = if isShowOk d e then t.length + 1 else lastShown d t := by
  induction t with
  | nil => simp [lastShown]
  | cons x t ih =>
    have e1 : lastShown d (x :: t ++ [e]) =
        if lastShown d (t ++ [e]) ≠ 0 then lastShown d (t ++ [e]) + 1
        else if isShowOk d x then 1 else 0 := rfl
    have e2 : lastShown d (x :: t) =
        if lastShown d t ≠ 0 then lastShown d t + 1
        else if isShowOk d x then 1 else 0 := rfl
    rw [e1, e2, ih]
    by_cases he : isShowOk d e = true
    · simp [he]
    · simp [he]

theorem lastShown_append_of_no_show (d : DialogId) (t evs : List Event)
    (hn : ∀ e ∈ evs, isShowOk d e = false) : lastShown d (t ++ evs) = lastShown d t := by
  induction evs using List.reverseRecOn with
  | nil => simp
  | append_singleton l e ih =>
    have h1 : isShowOk d e = false := hn e (by simp)
    rw [← List.append_assoc, lastShown_append_single, h1]
    simpa using ih (fun x hx => hn x (List.mem_append_left _ hx))


/-! ## The invariant under `Show` and `Hide` -/

theorem state_cases (s : State) : s = State.StateIdle ∨ s = State.StateBusy ∨
    s = State.StateBusyCleanupRequired := by
  cases s <;> simp

/-- A successful `Show` registers the dialog last. -/
theorem Show_allow_live (h : Host) (d : DialogId) (w : World) (hi : Inv w)
    (hs : (w.obj d).m_isShown = false) :
    live (Show h d true w).1 = live w ++ [some d] ∧
    (Show h d true w).1.state =
      (if w.state = State.StateIdle then State.StateIdle else State.StateBusyCleanupRequired) ∧
    none ∉ (Show h d true w).1.pending_dialogs ∧
    ((Show h d true w).1.state ≠ State.StateBusyCleanupRequired →
      none ∉ (Show h d true w).1.dialogs ∧ (Show h d true w).1.pending_dialogs = []) ∧
    ApiExt w (Show h d true w).1 ∧
    (w.state ≠ State.StateIdle → (Show h d true w).1.dialogs = w.dialogs) := by
  obtain ⟨i1, i2, i3, i4⟩ := hi
  by_cases hst : w.state = State.StateIdle
  · obtain ⟨n1, n2⟩ := i4 (by rw [hst]; decide)
    rw [Show_allow_idle h d w hs hst]
    refine ⟨?_, ?_, ?_, ?_, ?_, ?_⟩
    · simp [live, removeNull_append, n2, removeNull]
    · simp [hst]
    · simp [n2]
    · intro _; simp [n1, n2]
    · have := MaintainS4Api_apiExt h { ModifyFeatureCounts h d 1 (setShown d true w) with
        dialogs := w.dialogs ++ [some d] }
      obtain ⟨evs, e1, e2⟩ := this
      exact ⟨evs, by simpa using e1, e2⟩
    · intro hc; exact absurd hst hc
  · rw [Show_allow_busy h d w hs hst]
    refine ⟨?_, ?_, ?_, ?_, ?_, ?_⟩
    · simp [live]
    · simp [hst]
    · simp [i1]
    · intro hc; simp at hc
    · exact ⟨[], by simp, by simp⟩
    · intro _; simp

/-- A successful `Hide` removes the dialog from the registered ones. -/
theorem Hide_allow_live (h : Host) (d : DialogId) (w : World) (hi : Inv w)
    (hs : (w.obj d).m_isShown = true) :
    live (Hide h d true w).1 = (live w).erase (some d) ∧
    (Hide h d true w).1.state =
      (if w.state = State.StateIdle then State.StateIdle else State.StateBusyCleanupRequired) ∧
    none ∉ (Hide h d true w).1.pending_dialogs ∧
    ((Hide h d true w).1.state ≠ State.StateBusyCleanupRequired →
      none ∉ (Hide h d true w).1.dialogs ∧ (Hide h d true w).1.pending_dialogs = []) ∧
    ApiExt w (Hide h d true w).1 ∧
    (w.state ≠ State.StateIdle → (Hide h d true w).1.dialogs.length = w.dialogs.length) := by
  obtain ⟨i1, i2, i3, i4⟩ := hi
  have hmem : some d ∈ live w := (i3 d).2 hs
  rcases state_cases w.state with hst | hst | hst
  · obtain ⟨n1, n2⟩ := i4 (by rw [hst]; decide)
    have hl : live w = w.dialogs := by simp [live, n2, removeNull_of_no_null _ n1]
    have hnd : w.dialogs.Nodup := hl ▸ i2
    rw [Hide_allow_idle h d w hs hst]
    have hsub : eraseLast (some d) w.dialogs = w.dialogs.erase (some d) :=
      eraseLast_eq_erase _ _ hnd
    have n1e : none ∉ w.dialogs.erase (some d) := fun hm => n1 (List.mem_of_mem_erase hm)
    refine ⟨?_, ?_, ?_, ?_, ?_, ?_⟩
    · simp [live, n2, hsub, removeNull_of_no_null _ n1e, removeNull_of_no_null _ n1]
    · simp [hst]
    · simp [n2]
    · intro _; simp [hsub, n1e, n2]
    · have := MaintainS4Api_apiExt h { ModifyFeatureCounts h d (-1) (setShown d false w) with
        dialogs := eraseLast (some d) w.dialogs }
      obtain ⟨evs, e1, e2⟩ := this
      exact ⟨evs, by simpa using e1, e2⟩
    · intro hc; exact absurd hst hc
  · obtain ⟨n1, n2⟩ := i4 (by rw [hst]; decide)
    rw [Hide_allow_busy h d w hs hst]
    have hnd : (removeNull w.dialogs).Nodup := by simpa [live, n2] using i2
    refine ⟨?_, ?_, ?_, ?_, ?_, ?_⟩
    · simp [live, HideBusy, n2, removeNull_nullLast, eraseLast_eq_erase _ _ hnd]
    · simp [hst, HideBusy]
    · simp [HideBusy, n2]
    · intro hc; simp [HideBusy] at hc
    · exact ⟨[], by simp [HideBusy], by simp⟩
    · intro _; simp [HideBusy, length_nullLast]
  · have hndA : (removeNull w.dialogs).Nodup := (List.nodup_append.1 i2).1
    have hndP : w.pending_dialogs.Nodup := (List.nodup_append.1 i2).2.1
    have hdis := (List.nodup_append.1 i2).2.2
    by_cases hp : some d ∈ w.pending_dialogs
    · rw [Hide_allow_pending h d w hs hst hp]
      have hA : some d ∉ removeNull w.dialogs := fun hm => hdis hm hp
      refine ⟨?_, ?_, ?_, ?_, ?_, ?_⟩
      · simp [live, eraseLast_eq_erase _ _ hndP, List.erase_append_right _ hA]
      · simp [hst]
      · simp only [ModifyFeatureCounts_pending, setShown_pending]
        rw [eraseLast_eq_erase _ _ hndP]
        exact fun hm => i1 (List.mem_of_mem_erase hm)
      · intro hc; simp [hst] at hc
      · exact ⟨[], by simp, by simp⟩
      · intro _; simp
    · rw [Hide_allow_fallthrough h d w hs hst hp]
      have hA : some d ∈ removeNull w.dialogs := by
        rcases List.mem_append.1 hmem with hm | hm
        · exact hm
        · exact absurd hm hp
      refine ⟨?_, ?_, ?_, ?_, ?_, ?_⟩
      · simp [live, HideBusy, removeNull_nullLast, eraseLast_eq_erase _ _ hndA,
          List.erase_append_left _ hA]
      · simp [hst, HideBusy]
      · simp [HideBusy, i1]
      · intro hc; simp [HideBusy] at hc
      · exact ⟨[], by simp [HideBusy], by simp⟩
      · intro _; simp [HideBusy, length_nullLast]

theorem Inv_Show_allow (h : Host) (d : DialogId) (w : World) (hi : Inv w)
    (hs : (w.obj d).m_isShown = false) : Inv (Show h d true w).1 := by
  obtain ⟨l1, l2, l3, l4, _, _⟩ := Show_allow_live h d w hi hs
  obtain ⟨_, s2, _, _⟩ := Show_allow_spec h d w hs
  obtain ⟨i1, i2, i3, i4⟩ := hi
  have hnot : some d ∉ live w := fun hm => by
    have := (i3 d).1 hm
    rw [hs] at this; exact Bool.noConfusion this
  refine ⟨l3, ?_, ?_, l4⟩
  · rw [l1]
    exact List.nodup_append.2 ⟨i2, List.nodup_singleton _, by
      intro a ha hb
      rw [List.mem_singleton] at hb
      exact hnot (hb ▸ ha)⟩
  · intro x
    rw [l1, s2]
    by_cases hx : x = d
    · subst hx; simp
    · rw [setShown_isShown_other d x true w hx, ← i3 x]
      simp [hx]

theorem Inv_Hide_allow (h : Host) (d : DialogId) (w : World) (hi : Inv w)
    (hs : (w.obj d).m_isShown = true) : Inv (Hide h d true w).1 := by
  obtain ⟨l1, l2, l3, l4, _, _⟩ := Hide_allow_live h d w hi hs
  obtain ⟨_, s2, _, _⟩ := Hide_allow_spec h d w hs
  obtain ⟨i1, i2, i3, i4⟩ := hi
  refine ⟨l3, ?_, ?_, l4⟩
  · rw [l1]; exact i2.erase _
  · intro x
    rw [l1, s2, i2.mem_erase_iff]
    by_cases hx : x = d
    · subst hx; simp
    · rw [setShown_isShown_other d x false w hx, ← i3 x]
      simp [hx]


/-! ## Client calls -/

theorem runCall_Show (h : Host) (d : DialogId) (b : Bool) (w : World) :
    runCall h (Call.Show d b) w =
      { (Show h d b w).1 with
        trace := (Show h d b w).1.trace ++ [Event.Called (Call.Show d b) (Show h d b w).2] } :=
  rfl

theorem runCall_Hide (h : Host) (d : DialogId) (b : Bool) (w : World) :
    runCall h (Call.Hide d b) w =
      { (Hide h d b w).1 with
        trace := (Hide h d b w).1.trace ++ [Event.Called (Call.Hide d b) (Hide h d b w).2] } :=
  rfl

theorem runCalls_nil (h : Host) (w : World) : runCalls h [] w = w := rfl

theorem runCalls_cons (h : Host) (c : Call) (cs : List Call) (w : World) :
    runCalls h (c :: cs) w = runCalls h cs (runCall h c w) := rfl

theorem bool_false_of_not_true (b : Bool) (hb : ¬ b = true) : b = false := by
  cases b <;> simp at hb ⊢

/-- The four ways an allowed call can go. -/
theorem runCall_allow_cases (h : Host) (c : Call) (w : World) (ha : c.allow = true) :
    (∃ d, c = Call.Show d true ∧ (w.obj d).m_isShown = false ∧
      runCall h c w = { (Show h d true w).1 with
        trace := (Show h d true w).1.trace ++ [Event.Called (Call.Show d true) true] }) ∨
    (∃ d, c = Call.Hide d true ∧ (w.obj d).m_isShown = true ∧
      runCall h c w = { (Hide h d true w).1 with
        trace := (Hide h d true w).1.trace ++ [Event.Called (Call.Hide d true) true] }) ∨
    (runCall h c w = { w with trace := w.trace ++ [Event.Called c false] }) := by
  cases c with
  | Show d b =>
    have hb : b = true := ha
    subst hb
    by_cases hs : (w.obj d).m_isShown = true
    · right; right
      rw [runCall_Show, Show_shown h d true w hs]
    · left
      have hs2 := bool_false_of_not_true _ hs
      refine ⟨d, rfl, hs2, ?_⟩
      rw [runCall_Show, (Show_allow_spec h d w hs2).1]
  | Hide d b =>
    have hb : b = true := ha
    subst hb
    by_cases hs : (w.obj d).m_isShown = true
    · right; left
      refine ⟨d, rfl, hs, ?_⟩
      rw [runCall_Hide, (Hide_allow_spec h d w hs).1]
    · right; right
      have hs2 := bool_false_of_not_true _ hs
      rw [runCall_Hide, Hide_hidden h d true w hs2]

theorem Inv_with_trace (w : World) (t : List Event) (hi : Inv w) :
    Inv { w with trace := t } := hi

theorem runCall_allow_inv (h : Host) (c : Call) (w : World) (ha : c.allow = true)
    (hi : Inv w) : Inv (runCall h c w) := by
  rcases runCall_allow_cases h c w ha with ⟨d, _, hs, e⟩ | ⟨d, _, hs, e⟩ | e
  · rw [e]; exact Inv_with_trace _ _ (Inv_Show_allow h d w hi hs)
  · rw [e]; exact Inv_with_trace _ _ (Inv_Hide_allow h d w hi hs)
  · rw [e]; exact Inv_with_trace _ _ hi

theorem runCall_allow_state (h : Host) (c : Call) (w : World) (ha : c.allow = true)
    (hi : Inv w) :
    (w.state = State.StateIdle → (runCall h c w).state = State.StateIdle) ∧
    (w.state ≠ State.StateIdle → (runCall h c w).state ≠ State.StateIdle ∧
      (runCall h c w).dialogs.length = w.dialogs.length) := by
  rcases runCall_allow_cases h c w ha with ⟨d, _, hs, e⟩ | ⟨d, _, hs, e⟩ | e
  · obtain ⟨_, l2, _, _, _, l6⟩ := Show_allow_live h d w hi hs
    rw [e]
    refine ⟨fun hst => ?_, fun hst => ⟨?_, ?_⟩⟩
    · simp [l2, hst]
    · simp [l2, hst]
    · simp [l6 hst]
  · obtain ⟨_, l2, _, _, _, l6⟩ := Hide_allow_live h d w hi hs
    rw [e]
    refine ⟨fun hst => ?_, fun hst => ⟨?_, ?_⟩⟩
    · simp [l2, hst]
    · simp [l2, hst]
    · simp [l6 hst]
  · rw [e]
    exact ⟨fun hst => hst, fun hst => ⟨hst, rfl⟩⟩

theorem isShowOk_of_isApi (d : DialogId) (e : Event) (he : Event.isApi e = true) :
    isShowOk d e = false := by
  cases e <;> simp [Event.isApi] at he <;> simp [isShowOk]

theorem lastShown_apiExt (d : DialogId) (w1 w2 : World) (hx : ApiExt w1 w2) :
    lastShown d w2.trace = lastShown d w1.trace := by
  obtain ⟨evs, e1, e2⟩ := hx
  rw [e1]
  exact lastShown_append_of_no_show d _ evs (fun e he => isShowOk_of_isApi d e (e2 e he))

theorem runCall_allow_ordered (h : Host) (c : Call) (w : World) (ha : c.allow = true)
    (hi : Inv w) (ho : Ordered w) : Ordered (runCall h c w) := by
  rcases runCall_allow_cases h c w ha with ⟨d, _, hs, e⟩ | ⟨d, _, hs, e⟩ | e
  · obtain ⟨l1, _, _, _, l5, _⟩ := Show_allow_live h d w hi hs
    have hnot : some d ∉ live w := fun hm => by
      have := (hi.2.2.1 d).1 hm
      rw [hs] at this; exact Bool.noConfusion this
    have hold : ∀ x, x ≠ d → lastShown x (runCall h c w).trace = lastShown x w.trace := by
      intro x hx
      rw [e]
      simp only []
      rw [lastShown_append_single, ← lastShown_apiExt x w _ l5]
      simp [isShowOk, Ne.symm hx]
    have hnew : lastShown d (runCall h c w).trace = (Show h d true w).1.trace.length + 1 := by
      rw [e]
      simp only []
      rw [lastShown_append_single]
      simp [isShowOk]
    have hlen : w.trace.length ≤ (Show h d true w).1.trace.length := by
      obtain ⟨evs, e1, _⟩ := l5
      rw [e1]; simp
    unfold Ordered
    have hl : live (runCall h c w) = live w ++ [some d] := by rw [e]; exact l1
    rw [hl, List.pairwise_append]
    refine ⟨?_, List.pairwise_singleton _ _, ?_⟩
    · refine List.Pairwise.imp_of_mem ?_ ho
      intro a b hma hmb hab x y hx hy
      have hxd : x ≠ d := fun he => hnot (by rw [← he, ← hx]; exact hma)
      have hyd : y ≠ d := fun he => hnot (by rw [← he, ← hy]; exact hmb)
      rw [hold x hxd, hold y hyd]
      exact hab x y hx hy
    · intro a hma b hmb x y hx hy
      rw [List.mem_singleton] at hmb
      have hyd : y = d := by
        rw [hmb] at hy; exact (Option.some.inj hy).symm
      have hxd : x ≠ d := fun he => hnot (by rw [← he, ← hx]; exact hma)
      rw [hyd, hnew, hold x hxd]
      have := lastShown_le x w.trace
      omega
  · obtain ⟨l1, _, _, _, l5, _⟩ := Hide_allow_live h d w hi hs
    have hold : ∀ x, lastShown x (runCall h c w).trace = lastShown x w.trace := by
      intro x
      rw [e]
      simp only []
      rw [lastShown_append_single, ← lastShown_apiExt x w _ l5]
      simp [isShowOk]
    unfold Ordered
    have hl : live (runCall h c w) = (live w).erase (some d) := by rw [e]; exact l1
    rw [hl]
    refine List.Pairwise.sublist (List.erase_sublist _ _) ?_
    refine List.Pairwise.imp ?_ ho
    intro a b hab x y hx hy
    rw [hold x, hold y]
    exact hab x y hx hy
  · have hold : ∀ x, lastShown x (runCall h c w).trace = lastShown x w.trace := by
      intro x
      rw [e]
      simp only []
      rw [lastShown_append_single]
      simp [isShowOk]
    unfold Ordered
    have hl : live (runCall h c w) = live w := by rw [e]; rfl
    rw [hl]
    refine List.Pairwise.imp ?_ ho
    intro a b hab x y hx hy
    rw [hold x, hold y]
    exact hab x y hx hy

theorem runCalls_allow_inv (h : Host) (cs : List Call) (w : World)
    (ha : ∀ c ∈ cs, Call.allow c = true) (hi : Inv w) (ho : Ordered w) :
    Inv (runCalls h cs w) ∧ Ordered (runCalls h cs w) ∧
    (w.state = State.StateIdle → (runCalls h cs w).state = State.StateIdle) := by
  induction cs generalizing w with
  | nil => exact ⟨hi, ho, fun hst => hst⟩
  | cons c cs ih =>
    have hc : Call.allow c = true := ha c (List.mem_cons_self _ _)
    have hcs : ∀ x ∈ cs, Call.allow x = true := fun x hx => ha x (List.mem_cons_of_mem _ hx)
    obtain ⟨r1, r2, r3⟩ := ih (runCall h c w) hcs (runCall_allow_inv h c w hc hi)
      (runCall_allow_ordered h c w hc hi ho)
    rw [runCalls_cons]
    exact ⟨r1, r2, fun hst => r3 ((runCall_allow_state h c w hc hi).1 hst)⟩

theorem Inv_init (objs : DialogId → CDialog) (hf : ∀ d, (objs d).m_isShown = false) :
    Inv (World.init objs) ∧ Ordered (World.init objs) := by
  refine ⟨⟨by simp [World.init], by simp [live, World.init, removeNull], ?_, ?_⟩, ?_⟩
  · intro d; simp [live, World.init, removeNull, hf d]
  · intro _; simp [World.init]
  · simp [Ordered, live, World.init, removeNull]

/-- In an idle world that satisfies the invariant, the main list is a duplicate-free list of
non-null dialogs. -/
theorem Inv_idle_list (w : World) (hi : Inv w) (hst : w.state = State.StateIdle) :
    w.pending_dialogs = [] ∧ live w = w.dialogs ∧
    ∃ L : List DialogId, w.dialogs = L.map some := by
  obtain ⟨n1, n2⟩ := hi.2.2.2 (by rw [hst]; decide)
  refine ⟨n2, by simp [live, n2, removeNull_of_no_null _ n1], w.dialogs.reduceOption, ?_⟩
  generalize w.dialogs = l at n1
  induction l with
  | nil => rfl
  | cons x xs ih =>
    cases x with
    | none => simp at n1
    | some y =>
      have : none ∉ xs := fun hm => n1 (List.mem_cons_of_mem _ hm)
      simp [List.reduceOption_cons_of_some, ← ih this]

/-! ## C1: the main list after `Show`/`Hide` calls made while idle -/

/-- C1: start from the empty registry (gate idle, no dialog shown) and make any finite
sequence of `Show` and `Hide` calls whose `OnShow`/`OnHide` allow. Then the gate is still
idle (so every call of the sequence was made while idle), nothing is pending, and the main
list is `L.map some` for a list `L` of dialogs that has no duplicates, contains exactly the
dialogs whose shown flag is set, and is strictly increasing in the time of the most recent
successful `Show` of each dialog. -/
theorem Show_Hide_idle_list (h : Host) (objs : DialogId → CDialog) (cs : List Call)
    (hf : ∀ d, (objs d).m_isShown = false) (ha : ∀ c ∈ cs, Call.allow c = true) :
    (runCalls h cs (World.init objs)).state = State.StateIdle ∧
    (runCalls h cs (World.init objs)).pending_dialogs = [] ∧
    ∃ L : List DialogId,
      (runCalls h cs (World.init objs)).dialogs = L.map some ∧ L.Nodup ∧
      (∀ d, d ∈ L ↔ ((runCalls h cs (World.init objs)).obj d).m_isShown = true) ∧
      L.Pairwise (fun a b => lastShown a (runCalls h cs (World.init objs)).trace <
        lastShown b (runCalls h cs (World.init objs)).trace) := by
  obtain ⟨i0, o0⟩ := Inv_init objs hf
  obtain ⟨hi, ho, hst⟩ := runCalls_allow_inv h cs (World.init objs) ha i0 o0
  have hst2 := hst rfl
  generalize runCalls h cs (World.init objs) = w at hi ho hst2
  obtain ⟨hp, hl, L, hL⟩ := Inv_idle_list w hi hst2
  refine ⟨hst2, hp, L, hL, ?_, ?_, ?_⟩
  · have := hi.2.1
    rw [hl, hL] at this
    exact List.Nodup.of_map _ this
  · intro d
    rw [← hi.2.2.1 d, hl, hL]
    simp
  · have := ho
    unfold Ordered at this
    rw [hl, hL, List.pairwise_map] at this
    refine List.Pairwise.imp ?_ this
    intro a b hab
    exact hab a b rfl rfl


theorem Show_Hide_idle_list_witness :
    (∀ d, (sampleObjs d).m_isShown = false) ∧ (∀ c ∈ sampleCalls, Call.allow c = true) ∧
    (runCalls Host.sample sampleCalls (World.init sampleObjs)).dialogs = [some 1, some 0] ∧
    ((runCalls Host.sample sampleCalls (World.init sampleObjs)).state = State.StateIdle ∧
    (runCalls Host.sample sampleCalls (World.init sampleObjs)).pending_dialogs = [] ∧
    ∃ L : List DialogId,
      (runCalls Host.sample sampleCalls (World.init sampleObjs)).dialogs = L.map some ∧
      L.Nodup ∧
      (∀ d, d ∈ L ↔
        ((runCalls Host.sample sampleCalls (World.init sampleObjs)).obj d).m_isShown = true) ∧
      L.Pairwise (fun a b =>
        lastShown a (runCalls Host.sample sampleCalls (World.init sampleObjs)).trace <
        lastShown b (runCalls Host.sample sampleCalls (World.init sampleObjs)).trace)) :=
  ⟨fun _ => rfl, by decide, by decide,
    Show_Hide_idle_list Host.sample sampleObjs sampleCalls (fun _ => rfl) (by decide)⟩

/-! ## What a call can change while a pass is running -/

theorem Show_apiExt (h : Host) (d : DialogId) (b : Bool) (w : World) :
    ApiExt w (Show h d b w).1 := by
  by_cases hs : (w.obj d).m_isShown = true
  · rw [Show_shown h d b w hs]; exact ApiExt_refl w
  · have hs2 := bool_false_of_not_true _ hs
    cases b with
    | false => rw [Show_veto h d w hs2]; exact ⟨[], by simp, by simp⟩
    | true =>
      by_cases hst : w.state = State.StateIdle
      · rw [Show_allow_idle h d w hs2 hst]
        obtain ⟨evs, e1, e2⟩ := MaintainS4Api_apiExt h
          { ModifyFeatureCounts h d 1 (setShown d true w) with dialogs := w.dialogs ++ [some d] }
        exact ⟨evs, by simpa using e1, e2⟩
      · rw [Show_allow_busy h d w hs2 hst]; exact ⟨[], by simp, by simp⟩

theorem Hide_apiExt (h : Host) (d : DialogId) (b : Bool) (w : World) :
    ApiExt w (Hide h d b w).1 := by
  by_cases hs : (w.obj d).m_isShown = true
  · cases b with
    | false => rw [Hide_veto h d w hs]; exact ⟨[], by simp, by simp⟩
    | true =>
      rcases state_cases w.state with hst | hst | hst
      · rw [Hide_allow_idle h d w hs hst]
        obtain ⟨evs, e1, e2⟩ := MaintainS4Api_apiExt h
          { ModifyFeatureCounts h d (-1) (setShown d false w) with
            dialogs := eraseLast (some d) w.dialogs }
        exact ⟨evs, by simpa using e1, e2⟩
      · rw [Hide_allow_busy h d w hs hst]; exact ⟨[], by simp [HideBusy], by simp⟩
      · by_cases hp : some d ∈ w.pending_dialogs
        · rw [Hide_allow_pending h d w hs hst hp]; exact ⟨[], by simp, by simp⟩
        · rw [Hide_allow_fallthrough h d w hs hst hp]
          exact ⟨[], by simp [HideBusy], by simp⟩
  · rw [Hide_hidden h d b w (bool_false_of_not_true _ hs)]; exact ApiExt_refl w

/-- The trace after a client call: host API events, then the record of the call. -/
theorem runCall_trace (h : Host) (c : Call) (w : World) :
    ∃ evs r, (runCall h c w).trace = w.trace ++ evs ++ [Event.Called c r] ∧
      ∀ e ∈ evs, Event.isApi e = true := by
  cases c with
  | Show d b =>
    obtain ⟨evs, e1, e2⟩ := Show_apiExt h d b w
    exact ⟨evs, (Show h d b w).2, by rw [runCall_Show]; simp [e1], e2⟩
  | Hide d b =>
    obtain ⟨evs, e1, e2⟩ := Hide_apiExt h d b w
    exact ⟨evs, (Hide h d b w).2, by rw [runCall_Hide]; simp [e1], e2⟩

theorem mouseCalls_append (t1 t2 : List Event) :
    mouseCalls (t1 ++ t2) = mouseCalls t1 ++ mouseCalls t2 := by
  simp [mouseCalls]

theorem drawCalls_append (t1 t2 : List Event) :
    drawCalls (t1 ++ t2) = drawCalls t1 ++ drawCalls t2 := by
  simp [drawCalls]

theorem mouseCalls_api (evs : List Event) (ha : ∀ e ∈ evs, Event.isApi e = true) :
    mouseCalls evs = [] := by
  induction evs with
  | nil => rfl
  | cons e t ih =>
    have h1 := ha e (List.mem_cons_self _ _)
    have h2 := ih (fun x hx => ha x (List.mem_cons_of_mem _ hx))
    cases e <;> simp [Event.isApi] at h1 <;> simpa [mouseCalls] using h2

theorem drawCalls_api (evs : List Event) (ha : ∀ e ∈ evs, Event.isApi e = true) :
    drawCalls evs = [] := by
  induction evs with
  | nil => rfl
  | cons e t ih =>
    have h1 := ha e (List.mem_cons_self _ _)
    have h2 := ih (fun x hx => ha x (List.mem_cons_of_mem _ hx))
    cases e <;> simp [Event.isApi] at h1 <;> simpa [drawCalls] using h2

theorem runCall_handlerCalls (h : Host) (c : Call) (w : World) :
    mouseCalls (runCall h c w).trace = mouseCalls w.trace ∧
    drawCalls (runCall h c w).trace = drawCalls w.trace := by
  obtain ⟨evs, r, e1, e2⟩ := runCall_trace h c w
  rw [e1]
  constructor
  · rw [mouseCalls_append, mouseCalls_append, mouseCalls_api evs e2]; simp [mouseCalls]
  · rw [drawCalls_append, drawCalls_append, drawCalls_api evs e2]; simp [drawCalls]

theorem runCalls_handlerCalls (h : Host) (cs : List Call) (w : World) :
    mouseCalls (runCalls h cs w).trace = mouseCalls w.trace ∧
    drawCalls (runCalls h cs w).trace = drawCalls w.trace := by
  induction cs generalizing w with
  | nil => exact ⟨rfl, rfl⟩
  | cons c cs ih =>
    rw [runCalls_cons]
    obtain ⟨a1, a2⟩ := ih (runCall h c w)
    obtain ⟨b1, b2⟩ := runCall_handlerCalls h c w
    exact ⟨a1.trans b1, a2.trans b2⟩

theorem Frozen_refl (w : World) (hst : w.state ≠ State.StateIdle) : Frozen w w :=
  ⟨hst, rfl, fun _ => Or.inl rfl, fun _ => rfl⟩

theorem Frozen_trans {w1 w2 w3 : World} (h12 : Frozen w1 w2) (h23 : Frozen w2 w3) :
    Frozen w1 w3 := by
  obtain ⟨_, a2, a3, a4⟩ := h12
  obtain ⟨b1, b2, b3, b4⟩ := h23
  refine ⟨b1, b2.trans a2, fun j => ?_, fun d => (b4 d).trans (a4 d)⟩
  rcases b3 j with hb | hb
  · rw [hb]; exact a3 j
  · exact Or.inr hb

theorem nullLast_get (p : Option DialogId) (l : List (Option DialogId)) (j : Nat) :
    (nullLast p l).get? j = l.get? j ∨ (nullLast p l).get? j = some none := by
  by_cases hp : p ∈ l
  · obtain ⟨k, _, _, hk2, hk3⟩ := nullLast_slots p l hp
    by_cases hj : j = k
    · right; rw [hj]; exact hk2
    · left; exact hk3 j hj
  · left; rw [nullLast_of_not_mem p l hp]

theorem setShown_frozen (d : DialogId) (b : Bool) (w : World)
    (hst : w.state ≠ State.StateIdle) : Frozen w (setShown d b w) :=
  ⟨hst, rfl, fun _ => Or.inl rfl, fun e => setShown_position d e b w⟩

theorem HideBusy_frozen (h : Host) (d : DialogId) (add : Int) (w : World) :
    Frozen w (HideBusy d (ModifyFeatureCounts h d add (setShown d false w))) := by
  refine ⟨by simp [HideBusy], by simp [HideBusy, length_nullLast], fun j => ?_, fun e => ?_⟩
  · simpa [HideBusy] using nullLast_get (some d) w.dialogs j
  · simp [HideBusy]

theorem Show_frozen (h : Host) (d : DialogId) (b : Bool) (w : World)
    (hst : w.state ≠ State.StateIdle) : Frozen w (Show h d b w).1 := by
  by_cases hs : (w.obj d).m_isShown = true
  · rw [Show_shown h d b w hs]; exact Frozen_refl w hst
  · have hs2 := bool_false_of_not_true _ hs
    cases b with
    | false => rw [Show_veto h d w hs2]; exact setShown_frozen d true w hst
    | true =>
      rw [Show_allow_busy h d w hs2 hst]
      exact ⟨by simp, by simp, fun _ => Or.inl (by simp), fun e => by simp⟩

theorem Hide_frozen (h : Host) (d : DialogId) (b : Bool) (w : World)
    (hst : w.state ≠ State.StateIdle) : Frozen w (Hide h d b w).1 := by
  by_cases hs : (w.obj d).m_isShown = true
  · cases b with
    | false => rw [Hide_veto h d w hs]; exact setShown_frozen d false w hst
    | true =>
      rcases state_cases w.state with hw | hw | hw
      · exact absurd hw hst
      · rw [Hide_allow_busy h d w hs hw]; exact HideBusy_frozen h d (-1) w
      · by_cases hp : some d ∈ w.pending_dialogs
        · rw [Hide_allow_pending h d w hs hw hp]
          exact ⟨by simp [hw], by simp, fun _ => Or.inl (by simp), fun e => by simp⟩
        · rw [Hide_allow_fallthrough h d w hs hw hp]; exact HideBusy_frozen h d (-1) w
  · rw [Hide_hidden h d b w (bool_false_of_not_true _ hs)]; exact Frozen_refl w hst

theorem Frozen_with_trace (w1 w2 : World) (t : List Event) (hf : Frozen w1 w2) :
    Frozen w1 { w2 with trace := t } := hf

theorem runCall_frozen (h : Host) (c : Call) (w : World)
    (hst : w.state ≠ State.StateIdle) : Frozen w (runCall h c w) := by
  cases c with
  | Show d b => rw [runCall_Show]; exact Frozen_with_trace _ _ _ (Show_frozen h d b w hst)
  | Hide d b => rw [runCall_Hide]; exact Frozen_with_trace _ _ _ (Hide_frozen h d b w hst)

theorem runCalls_frozen (h : Host) (cs : List Call) (w : World)
    (hst : w.state ≠ State.StateIdle) : Frozen w (runCalls h cs w) := by
  induction cs generalizing w with
  | nil => exact Frozen_refl w hst
  | cons c cs ih =>
    rw [runCalls_cons]
    have h1 := runCall_frozen h c w hst
    exact Frozen_trans h1 (ih (runCall h c w) h1.1)


/-! ## The mouse pass -/

theorem isButtonMsg_iff (msg : Nat) :
    isButtonMsg msg = true ↔
      (msg = WM_LBUTTONUP ∨ msg = WM_LBUTTONDOWN ∨ msg = WM_RBUTTONDOWN ∨ msg = WM_RBUTTONUP) := by
  simp [isButtonMsg, or_assoc]

theorem Cleanup_required (h : Host) (w : World)
    (hc : w.state = State.StateBusyCleanupRequired) :
    Cleanup h w =
      { MaintainS4Api h
          { w with dialogs := removeNull w.dialogs ++ w.pending_dialogs, pending_dialogs := [] }
        with state := State.StateIdle } := by
  unfold Cleanup
  rw [if_pos hc]

theorem Cleanup_not_required (h : Host) (w : World)
    (hc : w.state ≠ State.StateBusyCleanupRequired) :
    Cleanup h w = { w with state := State.StateIdle } := by
  unfold Cleanup
  rw [if_neg hc]

theorem Cleanup_apiExt (h : Host) (w : World) : ApiExt w (Cleanup h w) := by
  by_cases hc : w.state = State.StateBusyCleanupRequired
  · rw [Cleanup_required h w hc]
    obtain ⟨evs, e1, e2⟩ := MaintainS4Api_apiExt h
      { w with dialogs := removeNull w.dialogs ++ w.pending_dialogs, pending_dialogs := [] }
    exact ⟨evs, e1, e2⟩
  · rw [Cleanup_not_required h w hc]
    exact ApiExt_refl w

theorem Cleanup_handlerCalls (h : Host) (w : World) :
    mouseCalls (Cleanup h w).trace = mouseCalls w.trace ∧
    drawCalls (Cleanup h w).trace = drawCalls w.trace := by
  obtain ⟨evs, e1, e2⟩ := Cleanup_apiExt h w
  rw [e1, mouseCalls_append, drawCalls_append, mouseCalls_api evs e2, drawCalls_api evs e2]
  simp

theorem hits_take_sublist (pos : DialogId → RECT) (p : POINT) (l : List (Option DialogId))
    (i : Nat) : (hits pos p (l.take i)).Sublist (hits pos p (l.take (i + 1))) := by
  unfold hits
  rw [List.take_succ, List.reverse_append, List.filterMap_append, List.filter_append]
  exact List.sublist_append_right _ _

theorem hits_take_succ (pos : DialogId → RECT) (p : POINT) (l : List (Option DialogId))
    (i : Nat) (d : DialogId) (hd : l.get? i = some (some d)) (hp : PtInRect (pos d) p = true) :
    hits pos p (l.take (i + 1)) = d :: hits pos p (l.take i) := by
  unfold hits
  rw [List.get?_eq_getElem?] at hd
  rw [List.take_succ, List.reverse_append, List.filterMap_append, List.filter_append, hd]
  simp [hp]

theorem mem_dropLast_cons {α : Type} (x e : α) (l : List α) (he : e ∈ (x :: l).dropLast) :
    e = x ∨ e ∈ l.dropLast := by
  cases l with
  | nil => simp at he
  | cons y l => simpa [List.dropLast] using he

/-- The reverse loop of `OnMouseProc`, from slot `i - 1` down, at any moment `w` of a pass
that began in `w0`: the handlers it invokes (`vis`, in order, with their results) are taken
in order from the reachable dialogs of the first `i` slots, only the last of them can have
returned "consumed", and `consumeEvent` says whether one did. -/
theorem mouseLoop_spec (h : Host) (H : Handlers) (btn : Nat) (iX iY : Int) (msg : Nat)
    (w0 : World) (i : Nat) : ∀ w : World, Frozen w0 w →
    ∃ vis : List (DialogId × Bool),
      mouseCalls (mouseLoop h H btn iX iY msg i w).1.trace = mouseCalls w.trace ++ vis ∧
      (vis.map Prod.fst).Sublist
        (hits (fun d => (w0.obj d).m_position) ⟨iX, iY⟩ (w0.dialogs.take i)) ∧
      (∀ e ∈ vis.dropLast, e.2 = false) ∧
      ((mouseLoop h H btn iX iY msg i w).2 = true ↔ ∃ d, (d, true) ∈ vis) ∧
      Frozen w0 (mouseLoop h H btn iX iY msg i w).1 := by
  induction i with
  | zero =>
    intro w hf
    exact ⟨[], by simp [mouseLoop], by simp, by simp, by simp [mouseLoop], hf⟩
  | succ i ih =>
    intro w hf
    have hsub := hits_take_sublist (fun d => (w0.obj d).m_position) ⟨iX, iY⟩ w0.dialogs i
    cases hg : w.dialogs.get? i with
    | none =>
      have e : mouseLoop h H btn iX iY msg (i + 1) w = mouseLoop h H btn iX iY msg i w := by
        simp only [mouseLoop, hg]
      rw [e]
      obtain ⟨vis, v1, v2, v3, v4, v5⟩ := ih w hf
      exact ⟨vis, v1, v2.trans hsub, v3, v4, v5⟩
    | some o =>
      cases o with
      | none =>
        have e : mouseLoop h H btn iX iY msg (i + 1) w =
            mouseLoop h H btn iX iY msg i
              { w with state := State.StateBusyCleanupRequired } := by
          simp only [mouseLoop, hg]
        rw [e]
        have hf2 : Frozen w0 { w with state := State.StateBusyCleanupRequired } :=
          ⟨by simp, hf.2.1, hf.2.2.1, hf.2.2.2⟩
        obtain ⟨vis, v1, v2, v3, v4, v5⟩ := ih _ hf2
        exact ⟨vis, v1, v2.trans hsub, v3, v4, v5⟩
      | some d =>
        have h0 : w0.dialogs.get? i = some (some d) := by
          rcases hf.2.2.1 i with hj | hj
          · rw [← hj, hg]
          · rw [hg] at hj; simp at hj
        by_cases hp : PtInRect (w.obj d).m_position ⟨iX, iY⟩ = true
        · have hp0 : PtInRect (w0.obj d).m_position ⟨iX, iY⟩ = true := by
            rw [← hf.2.2.2 d]; exact hp
          have hh := hits_take_succ (fun d => (w0.obj d).m_position) ⟨iX, iY⟩ w0.dialogs i d
            h0 hp0
          have hfr : Frozen w0 (runCalls h (H.OnMouse d btn iX iY msg w).1
              { w with trace := w.trace ++ [Event.OnMouse d (H.OnMouse d btn iX iY msg w).2] }) :=
            Frozen_trans hf (runCalls_frozen h _ _ hf.1)
          have htr : mouseCalls (runCalls h (H.OnMouse d btn iX iY msg w).1
              { w with trace := w.trace ++
                [Event.OnMouse d (H.OnMouse d btn iX iY msg w).2] }).trace =
              mouseCalls w.trace ++ [(d, (H.OnMouse d btn iX iY msg w).2)] := by
            rw [(runCalls_handlerCalls h _ _).1]
            simp [mouseCalls]
          by_cases hr : (H.OnMouse d btn iX iY msg w).2 = true
          · have e : mouseLoop h H btn iX iY msg (i + 1) w =
                (runCalls h (H.OnMouse d btn iX iY msg w).1
                  { w with trace := w.trace ++
                    [Event.OnMouse d (H.OnMouse d btn iX iY msg w).2] }, true) := by
              simp only [mouseLoop, hg, hp, hr]
              simp
            rw [e]
            refine ⟨[(d, true)], ?_, ?_, by simp, by simp, hfr⟩
            · rw [htr, hr]
            · rw [hh]; simp
          · have hr2 := bool_false_of_not_true _ hr
            have e : mouseLoop h H btn iX iY msg (i + 1) w =
                mouseLoop h H btn iX iY msg i (runCalls h (H.OnMouse d btn iX iY msg w).1
                  { w with trace := w.trace ++
                    [Event.OnMouse d (H.OnMouse d btn iX iY msg w).2] }) := by
              simp only [mouseLoop, hg, hp, hr2]
              simp
            rw [e]
            obtain ⟨vis, v1, v2, v3, v4, v5⟩ := ih _ hfr
            refine ⟨(d, false) :: vis, ?_, ?_, ?_, ?_, v5⟩
            · rw [v1, htr, hr2]; simp
            · rw [hh]; simpa using v2
            · intro x hx
              rcases mem_dropLast_cons _ _ _ hx with hx | hx
              · rw [hx]
              · exact v3 x hx
            · rw [v4]; simp
        · have e : mouseLoop h H btn iX iY msg (i + 1) w = mouseLoop h H btn iX iY msg i w := by
            simp only [mouseLoop, hg, hp]
            simp
          rw [e]
          obtain ⟨vis, v1, v2, v3, v4, v5⟩ := ih w hf
          exact ⟨vis, v1, v2.trans hsub, v3, v4, v5⟩


theorem OnMouseProc_button (h : Host) (H : Handlers) (btn : Nat) (iX iY : Int) (msg : Nat)
    (w : World) (hm : isButtonMsg msg = true) (hst : w.state = State.StateIdle) :
    OnMouseProc h H btn iX iY msg w =
      some (Cleanup h (mouseLoop h H btn iX iY msg w.dialogs.length
          { w with state := State.StateBusy }).1,
        if (mouseLoop h H btn iX iY msg w.dialogs.length
          { w with state := State.StateBusy }).2 then 1 else 0) := by
  simp [OnMouseProc, hm, hst]

theorem OnMouseProc_other (h : Host) (H : Handlers) (btn : Nat) (iX iY : Int) (msg : Nat)
    (w : World) (hm : isButtonMsg msg = false) :
    OnMouseProc h H btn iX iY msg w = some (w, 0) := by
  simp [OnMouseProc, hm]

/-- The mouse pass from an idle world: the handlers invoked, and the result. -/
theorem OnMouseProc_spec (h : Host) (H : Handlers) (btn : Nat) (iX iY : Int) (msg : Nat)
    (w : World) (hm : isButtonMsg msg = true) (hst : w.state = State.StateIdle) :
    ∃ w2 r vis, OnMouseProc h H btn iX iY msg w = some (w2, r) ∧
      mouseCalls w2.trace = mouseCalls w.trace ++ vis ∧
      (vis.map Prod.fst).Sublist (hits (fun d => (w.obj d).m_position) ⟨iX, iY⟩ w.dialogs) ∧
      (∀ e ∈ vis.dropLast, e.2 = false) ∧
      (r ≠ 0 ↔ ∃ d, (d, true) ∈ vis) ∧
      mouseCalls w2.trace = mouseCalls (mouseLoop h H btn iX iY msg w.dialogs.length
          { w with state := State.StateBusy }).1.trace := by
  have hf : Frozen { w with state := State.StateBusy } { w with state := State.StateBusy } :=
    Frozen_refl _ (by simp)
  obtain ⟨vis, v1, v2, v3, v4, _⟩ :=
    mouseLoop_spec h H btn iX iY msg { w with state := State.StateBusy } w.dialogs.length _ hf
  refine ⟨_, _, vis, OnMouseProc_button h H btn iX iY msg w hm hst, ?_, ?_, v3, ?_, ?_⟩
  · rw [(Cleanup_handlerCalls h _).1, v1]
  · simpa using v2
  · rw [← v4]
    by_cases hc : (mouseLoop h H btn iX iY msg w.dialogs.length
        { w with state := State.StateBusy }).2 = true
    · simp [hc]
    · simp [hc]
  · rw [(Cleanup_handlerCalls h _).1]

/-- The scenario of three dialogs: the topmost does nothing and does not consume, the middle
one consumes. -/
theorem mouseLoop_three (h : Host) (H : Handlers) (btn : Nat) (iX iY : Int) (msg : Nat)
    (w : World) (a b c : DialogId) (hd : w.dialogs = [some a, some b, some c])
    (hb : PtInRect (w.obj b).m_position ⟨iX, iY⟩ = true)
    (hc : PtInRect (w.obj c).m_position ⟨iX, iY⟩ = true)
    (hC : ∀ v, H.OnMouse c btn iX iY msg v = ([], false))
    (hB : ∀ v, (H.OnMouse b btn iX iY msg v).2 = true) :
    mouseCalls (mouseLoop h H btn iX iY msg 3 w).1.trace =
      mouseCalls w.trace ++ [(c, false), (b, true)] := by
  have e1 : mouseLoop h H btn iX iY msg 3 w =
      mouseLoop h H btn iX iY msg 2 { w with trace := w.trace ++ [Event.OnMouse c false] } := by
    simp [mouseLoop, hd, hc, hC, runCalls]
  have e2 : mouseLoop h H btn iX iY msg 2
        { w with trace := w.trace ++ [Event.OnMouse c false] } =
      (runCalls h
        (H.OnMouse b btn iX iY msg { w with trace := w.trace ++ [Event.OnMouse c false] }).1
        { w with trace := w.trace ++ [Event.OnMouse c false] ++ [Event.OnMouse b true] },
        true) := by
    simp [mouseLoop, hd, hb, hB]
  rw [e1, e2]
  simp only []
  rw [(runCalls_handlerCalls h _ _).1]
  simp [mouseCalls]

theorem hits_append (pos : DialogId → RECT) (p : POINT) (l1 l2 : List (Option DialogId)) :
    hits pos p (l1 ++ l2) = hits pos p l2 ++ hits pos p l1 := by
  simp [hits, List.reverse_append, List.filterMap_append, List.filter_append]

theorem take_succ_drop {α : Type} (l : List α) (k i : Nat) (x : α) (hk : k ≤ i)
    (hx : l.get? i = some x) : (l.take (i + 1)).drop k = (l.take i).drop k ++ [x] := by
  rw [List.get?_eq_getElem?] at hx
  have hi : i < l.length := (List.getElem?_eq_some_iff.1 hx).1
  rw [List.take_succ, hx]
  have hl : k ≤ (l.take i).length := by
    rw [List.length_take]
    omega
  rw [List.drop_append_of_le_length hl]
  rfl

theorem hits_slot (pos : DialogId → RECT) (p : POINT) (l : List (Option DialogId))
    (k i : Nat) (x : Option DialogId) (hk : k ≤ i) (hx : l.get? i = some x) :
    hits pos p ((l.take (i + 1)).drop k) = hits pos p [x] ++ hits pos p ((l.take i).drop k) := by
  rw [take_succ_drop l k i x hk hx, hits_append]

theorem hits_single_none (pos : DialogId → RECT) (p : POINT) : hits pos p [none] = [] := by
  simp [hits]

theorem hits_single_hit (pos : DialogId → RECT) (p : POINT) (d : DialogId)
    (hp : PtInRect (pos d) p = true) : hits pos p [some d] = [d] := by
  simp [hits, hp]

theorem hits_single_miss (pos : DialogId → RECT) (p : POINT) (d : DialogId)
    (hp : PtInRect (pos d) p = false) : hits pos p [some d] = [] := by
  simp [hits, hp]

theorem hits_past_end (pos : DialogId → RECT) (p : POINT) (l : List (Option DialogId))
    (k i : Nat) (hx : l.get? i = none) :
    hits pos p ((l.take (i + 1)).drop k) = hits pos p ((l.take i).drop k) := by
  rw [List.get?_eq_getElem?] at hx
  have hl : l.length ≤ i := List.getElem?_eq_none_iff.1 hx
  rw [List.take_of_length_le hl, List.take_of_length_le (Nat.le_succ_of_le hl)]

theorem getLast?_cons_of_some {α : Type} (y x : α) (l : List α) (hl : l.getLast? = some x) :
    (y :: l).getLast? = some x := by
  cases l with
  | nil => simp at hl
  | cons z t => simpa [List.getLast?_cons_cons] using hl

theorem mouseLoop_nocalls (h : Host) (H : Handlers) (btn : Nat) (iX iY : Int) (msg : Nat)
    (hH : ∀ d v, (H.OnMouse d btn iX iY msg v).1 = []) (i : Nat) :
    ∀ w : World, (mouseLoop h H btn iX iY msg i w).1.dialogs = w.dialogs := by
  induction i with
  | zero => intro w; rfl
  | succ i ih =>
    intro w
    cases hg : w.dialogs.get? i with
    | none =>
      simp only [mouseLoop, hg]
      exact ih w
    | some o =>
      cases o with
      | none =>
        simp only [mouseLoop, hg]
        rw [ih]
      | some d =>
        by_cases hp : PtInRect (w.obj d).m_position ⟨iX, iY⟩ = true
        · by_cases hr : (H.OnMouse d btn iX iY msg w).2 = true
          · simp only [mouseLoop, hg, hp, hr]
            simp [hH d w, runCalls]
          · have hr2 := bool_false_of_not_true _ hr
            simp only [mouseLoop, hg, hp, hr2]
            simp only [Bool.not_true, Bool.false_eq_true, if_false]
            rw [ih, hH d w]
            rfl
        · simp only [mouseLoop, hg, hp]
          simp only [Bool.not_false, if_true]
          exact ih w

theorem Frozen_slot {w1 w2 : World} (hf : Frozen w1 w2) (i : Nat) (x : Option DialogId)
    (hx : w1.dialogs.get? i = some x) :
    w2.dialogs.get? i = some x ∨ w2.dialogs.get? i = some none := by
  rcases hf.2.2.1 i with hj | hj
  · exact Or.inl (hj.trans hx)
  · exact Or.inr hj

theorem hits_lower_skip (pos : DialogId → RECT) (p : POINT) (l : List (Option DialogId))
    (k i : Nat) (hk : k ≤ i) (S : List DialogId) (x : Option DialogId)
    (hx : hits pos p [x] = [])
    (hl : l.get? i = some x ∨ l.get? i = some none)
    (hs : (hits pos p ((l.take i).drop k)).Sublist S) :
    (hits pos p ((l.take (i + 1)).drop k)).Sublist S := by
  rcases hl with hl | hl
  · rw [hits_slot pos p l k i x hk hl, hx]
    exact hs
  · rw [hits_slot pos p l k i none hk hl, hits_single_none]
    exact hs

theorem hits_lower_cons (pos : DialogId → RECT) (p : POINT) (l : List (Option DialogId))
    (k i : Nat) (hk : k ≤ i) (S : List DialogId) (d : DialogId)
    (hp : PtInRect (pos d) p = true)
    (hl : l.get? i = some (some d) ∨ l.get? i = some none)
    (hs : (hits pos p ((l.take i).drop k)).Sublist S) :
    (hits pos p ((l.take (i + 1)).drop k)).Sublist (d :: S) := by
  rcases hl with hl | hl
  · rw [hits_slot pos p l k i (some d) hk hl, hits_single_hit pos p d hp]
    exact hs.cons₂ d
  · rw [hits_slot pos p l k i none hk hl, hits_single_none]
    exact hs.cons d

theorem hits_upper_skip (pos : DialogId → RECT) (p : POINT) (l : List (Option DialogId))
    (k i : Nat) (hk : k ≤ i) (S : List DialogId) (x : Option DialogId)
    (hl : l.get? i = some x)
    (hs : S.Sublist (hits pos p ((l.take i).drop k))) :
    S.Sublist (hits pos p ((l.take (i + 1)).drop k)) := by
  rw [hits_slot pos p l k i x hk hl]
  exact hs.trans (List.sublist_append_right _ _)

/-- The reverse loop of `OnMouseProc`, from slot `i - 1` down, at any moment `w` of a pass
that began in `w0`: it stops at a slot `k` (slot `0` if no handler consumes, else the slot of
the handler that consumes, which is the last one invoked); the handlers invoked are among the
reachable dialogs of the slots `i - 1, ..., k` at the start, in that order, and every dialog
of these slots that is still there at the end and contains the point has been invoked. -/
theorem mouseLoop_exact (h : Host) (H : Handlers) (btn : Nat) (iX iY : Int) (msg : Nat)
    (w0 : World) (i : Nat) : ∀ w : World, Frozen w0 w →
    ∃ (vis : List (DialogId × Bool)) (k : Nat), k ≤ i ∧
      mouseCalls (mouseLoop h H btn iX iY msg i w).1.trace = mouseCalls w.trace ++ vis ∧
      (vis.map Prod.fst).Sublist
        (hits (fun d => (w0.obj d).m_position) ⟨iX, iY⟩ ((w0.dialogs.take i).drop k)) ∧
      (hits (fun d => (w0.obj d).m_position) ⟨iX, iY⟩
        (((mouseLoop h H btn iX iY msg i w).1.dialogs.take i).drop k)).Sublist
        (vis.map Prod.fst) ∧
      ((mouseLoop h H btn iX iY msg i w).2 = false → k = 0) ∧
      ((mouseLoop h H btn iX iY msg i w).2 = true →
        ∃ d, w0.dialogs.get? k = some (some d) ∧ vis.getLast? = some (d, true)) := by
  induction i with
  | zero =>
    intro w hf
    exact ⟨[], 0, le_refl 0, by simp [mouseLoop], by simp [hits], by simp [hits],
      fun _ => rfl, by simp [mouseLoop]⟩
  | succ i ih =>
    intro w hf
    cases hg : w.dialogs.get? i with
    | none =>
      have e : mouseLoop h H btn iX iY msg (i + 1) w = mouseLoop h H btn iX iY msg i w := by
        simp only [mouseLoop, hg]
      rw [e]
      obtain ⟨_, _, _, _, _, hF⟩ := mouseLoop_spec h H btn iX iY msg w0 i w hf
      have g0 : w0.dialogs.get? i = none := by
        rw [List.get?_eq_getElem?] at hg ⊢
        rw [List.getElem?_eq_none_iff] at hg ⊢
        rw [← hf.2.1]; exact hg
      have gF : (mouseLoop h H btn iX iY msg i w).1.dialogs.get? i = none := by
        rw [List.get?_eq_getElem?] at g0 ⊢
        rw [List.getElem?_eq_none_iff] at g0 ⊢
        rw [hF.2.1]; exact g0
      obtain ⟨vis, k, hk, v1, v2, v3, v4, v5⟩ := ih w hf
      refine ⟨vis, k, Nat.le_succ_of_le hk, v1, ?_, ?_, v4, v5⟩
      · rw [hits_past_end _ _ _ k i g0]; exact v2
      · rw [hits_past_end _ _ _ k i gF]; exact v3
    | some o =>
      have g0 : ∃ x0, w0.dialogs.get? i = some x0 := by
        rcases hf.2.2.1 i with hj | hj
        · exact ⟨o, by rw [← hj, hg]⟩
        · have hi : i < w0.dialogs.length := by
            rw [← hf.2.1]
            rw [List.get?_eq_getElem?] at hg
            exact (List.getElem?_eq_some_iff.1 hg).1
          exact ⟨w0.dialogs[i], by rw [List.get?_eq_getElem?, List.getElem?_eq_getElem hi]⟩
      obtain ⟨x0, hx0⟩ := g0
      cases o with
      | none =>
        have e : mouseLoop h H btn iX iY msg (i + 1) w =
            mouseLoop h H btn iX iY msg i
              { w with state := State.StateBusyCleanupRequired } := by
          simp only [mouseLoop, hg]
        rw [e]
        have hf2 : Frozen w0 { w with state := State.StateBusyCleanupRequired } :=
          ⟨by simp, hf.2.1, hf.2.2.1, hf.2.2.2⟩
        have hfw : Frozen ({ w with state := State.StateBusyCleanupRequired } : World)
            { w with state := State.StateBusyCleanupRequired } := Frozen_refl _ (by simp)
        obtain ⟨_, _, _, _, _, hF⟩ := mouseLoop_spec h H btn iX iY msg _ i _ hfw
        have gF := Frozen_slot hF i none hg
        obtain ⟨vis, k, hk, v1, v2, v3, v4, v5⟩ := ih _ hf2
        refine ⟨vis, k, Nat.le_succ_of_le hk, v1, ?_, ?_, v4, v5⟩
        · exact hits_upper_skip _ _ _ k i hk _ x0 hx0 v2
        · exact hits_lower_skip _ _ _ k i hk _ none (hits_single_none _ _) gF v3
      | some d =>
        have h0 : w0.dialogs.get? i = some (some d) := by
          rcases hf.2.2.1 i with hj | hj
          · rw [← hj, hg]
          · rw [hg] at hj; simp at hj
        by_cases hp : PtInRect (w.obj d).m_position ⟨iX, iY⟩ = true
        · have hp0 : PtInRect (w0.obj d).m_position ⟨iX, iY⟩ = true := by
            rw [← hf.2.2.2 d]; exact hp
          have hfr1 : Frozen w (runCalls h (H.OnMouse d btn iX iY msg w).1
              { w with trace := w.trace ++ [Event.OnMouse d (H.OnMouse d btn iX iY msg w).2] }) :=
            runCalls_frozen h _ _ hf.1
          have hfr : Frozen w0 (runCalls h (H.OnMouse d btn iX iY msg w).1
              { w with trace := w.trace ++ [Event.OnMouse d (H.OnMouse d btn iX iY msg w).2] }) :=
            Frozen_trans hf hfr1
          have htr : mouseCalls (runCalls h (H.OnMouse d btn iX iY msg w).1
              { w with trace := w.trace ++
                [Event.OnMouse d (H.OnMouse d btn iX iY msg w).2] }).trace =
              mouseCalls w.trace ++ [(d, (H.OnMouse d btn iX iY msg w).2)] := by
            rw [(runCalls_handlerCalls h _ _).1]
            simp [mouseCalls]
          by_cases hr : (H.OnMouse d btn iX iY msg w).2 = true
          · have e : mouseLoop h H btn iX iY msg (i + 1) w =
                (runCalls h (H.OnMouse d btn iX iY msg w).1
                  { w with trace := w.trace ++
                    [Event.OnMouse d (H.OnMouse d btn iX iY msg w).2] }, true) := by
              simp only [mouseLoop, hg, hp, hr]
              simp
            rw [e]
            have gF := Frozen_slot hfr1 i (some d) hg
            refine ⟨[(d, true)], i, Nat.le_succ i, ?_, ?_, ?_, ?_, ?_⟩
            · rw [htr, hr]
            · rw [hits_slot _ _ _ i i (some d) (le_refl i) h0, hits_single_hit _ _ d hp0]
              simp
            · have hnil : (hits (fun d => (w0.obj d).m_position) ⟨iX, iY⟩
                  (((runCalls h (H.OnMouse d btn iX iY msg w).1
                    { w with trace := w.trace ++
                      [Event.OnMouse d (H.OnMouse d btn iX iY msg w).2] }).dialogs.take
                        i).drop i)).Sublist [] := by
                rw [List.drop_eq_nil_of_le (by rw [List.length_take]; omega)]
                simp [hits]
              exact hits_lower_cons _ _ _ i i (le_refl i) [] d hp0 gF hnil
            · intro hc; exact absurd hc (by simp)
            · intro _; exact ⟨d, h0, rfl⟩
          · have hr2 := bool_false_of_not_true _ hr
            have e : mouseLoop h H btn iX iY msg (i + 1) w =
                mouseLoop h H btn iX iY msg i (runCalls h (H.OnMouse d btn iX iY msg w).1
                  { w with trace := w.trace ++
                    [Event.OnMouse d (H.OnMouse d btn iX iY msg w).2] }) := by
              simp only [mouseLoop, hg, hp, hr2]
              simp
            rw [e]
            obtain ⟨_, _, _, _, _, hF⟩ := mouseLoop_spec h H btn iX iY msg w i _ hfr1
            have gF := Frozen_slot hF i (some d) hg
            obtain ⟨vis, k, hk, v1, v2, v3, v4, v5⟩ := ih _ hfr
            refine ⟨(d, false) :: vis, k, Nat.le_succ_of_le hk, ?_, ?_, ?_, v4, ?_⟩
            · rw [v1, htr, hr2]; simp
            · rw [hits_slot _ _ _ k i (some d) hk h0, hits_single_hit _ _ d hp0]
              simpa using v2
            · simpa using hits_lower_cons _ _ _ k i hk _ d hp0 gF v3
            · intro hc
              obtain ⟨d2, a1, a2⟩ := v5 hc
              exact ⟨d2, a1, getLast?_cons_of_some _ _ _ a2⟩
        · have hp2 := bool_false_of_not_true _ hp
          have hp0 : PtInRect (w0.obj d).m_position ⟨iX, iY⟩ = false := by
            rw [← hf.2.2.2 d]; exact hp2
          have e : mouseLoop h H btn iX iY msg (i + 1) w = mouseLoop h H btn iX iY msg i w := by
            simp only [mouseLoop, hg, hp]
            simp
          rw [e]
          obtain ⟨_, _, _, _, _, hF⟩ :=
            mouseLoop_spec h H btn iX iY msg w i w (Frozen_refl w hf.1)
          have gF := Frozen_slot hF i (some d) hg
          obtain ⟨vis, k, hk, v1, v2, v3, v4, v5⟩ := ih w hf
          refine ⟨vis, k, Nat.le_succ_of_le hk, v1, ?_, ?_, v4, v5⟩
          · exact hits_upper_skip _ _ _ k i hk _ (some d) h0 v2
          · exact hits_lower_skip _ _ _ k i hk _ (some d) (hits_single_miss _ _ d hp0) gF v3

theorem mouseLoopN_full (h : Host) (H : Handlers) (btn : Nat) (iX iY : Int) (msg : Nat)
    (i : Nat) : ∀ (n : Nat) (w : World), i ≤ n →
    mouseLoopN h H btn iX iY msg n i w = mouseLoop h H btn iX iY msg i w := by
  induction i with
  | zero =>
    intro n w _
    cases n with
    | zero => rfl
    | succ n => rfl
  | succ i ih =>
    intro n w hn
    cases n with
    | zero => omega
    | succ n =>
      have hn2 : i ≤ n := by omega
      cases hg : w.dialogs.get? i with
      | none => simp only [mouseLoopN, mouseLoop, hg, ih n _ hn2]
      | some o =>
        cases o with
        | none => simp only [mouseLoopN, mouseLoop, hg, ih n _ hn2]
        | some d => simp only [mouseLoopN, mouseLoop, hg, ih n _ hn2]

theorem mouseLoopN_zero_slot (h : Host) (H : Handlers) (btn : Nat) (iX iY : Int) (msg : Nat)
    (n : Nat) (w : World) : mouseLoopN h H btn iX iY msg n 0 w = (w, false) := by
  cases n with
  | zero => rfl
  | succ n => rfl

theorem mouseLoopN_split (h : Host) (H : Handlers) (btn : Nat) (iX iY : Int) (msg : Nat)
    (a b : Nat) : ∀ (i : Nat) (w : World),
    mouseLoopN h H btn iX iY msg (a + b) i w =
      if (mouseLoopN h H btn iX iY msg a i w).2 = true then mouseLoopN h H btn iX iY msg a i w
      else mouseLoopN h H btn iX iY msg b (i - a) (mouseLoopN h H btn iX iY msg a i w).1 := by
  induction a with
  | zero =>
    intro i w
    rw [Nat.zero_add]
    simp [mouseLoopN]
  | succ a ih =>
    intro i w
    have ea : a + 1 + b = (a + b) + 1 := by omega
    rw [ea]
    cases i with
    | zero =>
      simp [mouseLoopN, mouseLoopN_zero_slot]
    | succ i =>
      have ei : i + 1 - (a + 1) = i - a := by omega
      rw [ei]
      cases hg : w.dialogs.get? i with
      | none => simp only [mouseLoopN, hg, ih]
      | some o =>
        cases o with
        | none => simp only [mouseLoopN, hg, ih]
        | some d =>
          by_cases hp : PtInRect (w.obj d).m_position ⟨iX, iY⟩ = true
          · by_cases hr : (H.OnMouse d btn iX iY msg w).2 = true
            · simp only [mouseLoopN, hg, hp, hr]
              simp
            · have hr2 := bool_false_of_not_true _ hr
              simp only [mouseLoopN, hg, hp, hr2]
              simp only [Bool.not_true, Bool.false_eq_true, if_false]
              rw [ih]
          · have hp2 := bool_false_of_not_true _ hp
            simp only [mouseLoopN, hg, hp2]
            simp only [Bool.not_false, if_true]
            rw [ih]

theorem mouseLoopN_one (h : Host) (H : Handlers) (btn : Nat) (iX iY : Int) (msg : Nat)
    (i : Nat) (v : World) :
    mouseCalls (mouseLoopN h H btn iX iY msg 1 i v).1.trace =
      mouseCalls v.trace ++ mouseSlot H btn iX iY msg i v := by
  cases i with
  | zero => simp [mouseLoopN, mouseSlot]
  | succ s =>
    cases hg : v.dialogs.get? s with
    | none =>
      simp only [mouseLoopN, mouseSlot, hg]
      simp
    | some o =>
      cases o with
      | none =>
        simp only [mouseLoopN, mouseSlot, hg]
        simp
      | some d =>
        by_cases hp : PtInRect (v.obj d).m_position ⟨iX, iY⟩ = true
        · have htr : mouseCalls (runCalls h (H.OnMouse d btn iX iY msg v).1
              { v with trace := v.trace ++
                [Event.OnMouse d (H.OnMouse d btn iX iY msg v).2] }).trace =
              mouseCalls v.trace ++ [(d, (H.OnMouse d btn iX iY msg v).2)] := by
            rw [(runCalls_handlerCalls h _ _).1]
            simp [mouseCalls]
          by_cases hr : (H.OnMouse d btn iX iY msg v).2 = true
          · simp only [mouseLoopN, mouseSlot, hg, hp, hr]
            simp only [Bool.not_true, Bool.false_eq_true, if_false, if_true]
            rw [← hr]
            exact htr
          · have hr2 := bool_false_of_not_true _ hr
            simp only [mouseLoopN, mouseSlot, hg, hp, hr2]
            simp only [Bool.not_true, Bool.false_eq_true, if_false, if_true]
            rw [← hr2]
            exact htr
        · have hp2 := bool_false_of_not_true _ hp
          simp only [mouseLoopN, mouseSlot, hg, hp2]
          simp

theorem mouseLoopN_calls (h : Host) (H : Handlers) (btn : Nat) (iX iY : Int) (msg : Nat)
    (w0 : World) (n : Nat) :
    mouseCalls (mouseLoopN h H btn iX iY msg n w0.dialogs.length w0).1.trace =
      mouseCalls w0.trace ++ (List.range n).flatMap (mouseAt h H btn iX iY msg w0) := by
  induction n with
  | zero => simp [mouseLoopN]
  | succ n ih =>
    rw [mouseLoopN_split h H btn iX iY msg n 1 w0.dialogs.length w0, List.range_succ,
      List.flatMap_append]
    by_cases hc : (mouseLoopN h H btn iX iY msg n w0.dialogs.length w0).2 = true
    · rw [if_pos hc, ih]
      simp [mouseAt, hc]
    · rw [if_neg hc, mouseLoopN_one, ih]
      simp [mouseAt, hc]

theorem mouseLoop_calls (h : Host) (H : Handlers) (btn : Nat) (iX iY : Int) (msg : Nat)
    (w0 : World) :
    mouseCalls (mouseLoop h H btn iX iY msg w0.dialogs.length w0).1.trace =
      mouseCalls w0.trace ++
        (List.range w0.dialogs.length).flatMap (mouseAt h H btn iX iY msg w0) := by
  rw [← mouseLoopN_full h H btn iX iY msg w0.dialogs.length w0.dialogs.length w0 (le_refl _)]
  exact mouseLoopN_calls h H btn iX iY msg w0 w0.dialogs.length

/-! ## C5: order and extent of the mouse dispatch -/

/-- C5: for a button message in an idle world, `OnMouseProc` returns, and the `OnMouse`
invocations `vis` that it adds to the trace (in order, each with the value returned)
satisfy: the dialogs invoked are, in this order, among the non-null entries of the main list
taken last entry first whose rectangle contains the point (`hits`), each slot at most once;
every invocation but the last returned "not consumed", so nothing is invoked after a handler
that consumes. The pass stops at a slot `k`: slot `0` if no handler consumed (the result is
`0`), else the slot of the dialog that consumed, which is the last one invoked. The dialogs
invoked are among the reachable dialogs of the slots from the last down to `k`, and every
reachable dialog that these slots still hold at the end of the loop has been invoked; so if no
handler calls `Show` or `Hide`, the dialogs invoked are exactly the reachable dialogs of the
slots from the last down to `k`, last entry first. Exactly: `vis` lists, for the iterations
`0, 1, ...` of the loop in this order (slots last to first), the entry found in the slot when
the iteration reaches it (`mouseAt`), once, if it is not null, its rectangle contains the
point and no earlier invocation consumed. In particular, when the list is `A, B, C`,
the point is inside `B` and `C`, the handler of `C` does nothing and does not consume and the
handler of `B` consumes, the invocations are exactly `C` then `B`. -/
theorem OnMouseProc_dispatch (h : Host) (H : Handlers) (btn : Nat) (iX iY : Int) (msg : Nat)
    (w : World)
    (hm : msg = WM_LBUTTONUP ∨ msg = WM_LBUTTONDOWN ∨ msg = WM_RBUTTONDOWN ∨ msg = WM_RBUTTONUP)
    (hst : w.state = State.StateIdle) :
    ∃ w2 r vis k, OnMouseProc h H btn iX iY msg w = some (w2, r) ∧
      mouseCalls w2.trace = mouseCalls w.trace ++ vis ∧
      (vis.map Prod.fst).Sublist (hits (fun d => (w.obj d).m_position) ⟨iX, iY⟩ w.dialogs) ∧
      (∀ e ∈ vis.dropLast, e.2 = false) ∧
      (∀ a b c, w.dialogs = [some a, some b, some c] →
        PtInRect (w.obj b).m_position ⟨iX, iY⟩ = true →
        PtInRect (w.obj c).m_position ⟨iX, iY⟩ = true →
        (∀ v, H.OnMouse c btn iX iY msg v = ([], false)) →
        (∀ v, (H.OnMouse b btn iX iY msg v).2 = true) →
        vis = [(c, false), (b, true)]) ∧
      (vis.map Prod.fst).Sublist
        (hits (fun d => (w.obj d).m_position) ⟨iX, iY⟩ (w.dialogs.drop k)) ∧
      (hits (fun d => (w.obj d).m_position) ⟨iX, iY⟩
        ((mouseLoop h H btn iX iY msg w.dialogs.length
          { w with state := State.StateBusy }).1.dialogs.drop k)).Sublist (vis.map Prod.fst) ∧
      (r = 0 → k = 0) ∧
      (r ≠ 0 → ∃ d, w.dialogs.get? k = some (some d) ∧ vis.getLast? = some (d, true)) ∧
      ((∀ d v, (H.OnMouse d btn iX iY msg v).1 = []) →
        vis.map Prod.fst =
          hits (fun d => (w.obj d).m_position) ⟨iX, iY⟩ (w.dialogs.drop k)) ∧
      vis = (List.range w.dialogs.length).flatMap
        (mouseAt h H btn iX iY msg { w with state := State.StateBusy }) := by
  have hf : Frozen { w with state := State.StateBusy } { w with state := State.StateBusy } :=
    Frozen_refl _ (by simp)
  obtain ⟨vis, v1, v2, v3, _, v5⟩ :=
    mouseLoop_spec h H btn iX iY msg { w with state := State.StateBusy } w.dialogs.length _ hf
  obtain ⟨vis2, k, _, u1, u2, u3, u4, u5⟩ :=
    mouseLoop_exact h H btn iX iY msg { w with state := State.StateBusy } w.dialogs.length _ hf
  have hv : vis2 = vis := by
    rw [v1] at u1
    exact (List.append_cancel_left u1).symm
  subst hv
  have hl : (mouseLoop h H btn iX iY msg w.dialogs.length
      { w with state := State.StateBusy }).1.dialogs.length = w.dialogs.length := v5.2.1
  have up : (vis2.map Prod.fst).Sublist
      (hits (fun d => (w.obj d).m_position) ⟨iX, iY⟩ (w.dialogs.drop k)) := by
    have := u2
    rw [List.take_of_length_le (le_refl _)] at this
    exact this
  have lo : (hits (fun d => (w.obj d).m_position) ⟨iX, iY⟩
      ((mouseLoop h H btn iX iY msg w.dialogs.length
        { w with state := State.StateBusy }).1.dialogs.drop k)).Sublist (vis2.map Prod.fst) := by
    have := u3
    rw [List.take_of_length_le (le_of_eq hl)] at this
    exact this
  have hx : vis2 = (List.range w.dialogs.length).flatMap
      (mouseAt h H btn iX iY msg { w with state := State.StateBusy }) :=
    List.append_cancel_left
      (v1.symm.trans (mouseLoop_calls h H btn iX iY msg { w with state := State.StateBusy }))
  refine ⟨_, _, vis2, k, OnMouseProc_button h H btn iX iY msg w ((isButtonMsg_iff msg).2 hm) hst,
    ?_, by simpa using v2, v3, ?_, up, lo, ?_, ?_, ?_, hx⟩
  · rw [(Cleanup_handlerCalls h _).1, v1]
  · intro a b c hd hb hc hC hB
    have h3 := mouseLoop_three h H btn iX iY msg { w with state := State.StateBusy } a b c hd hb
      hc hC hB
    have h3l : w.dialogs.length = 3 := by rw [hd]; rfl
    rw [h3l] at v1
    have : mouseCalls w.trace ++ vis2 = mouseCalls w.trace ++ [(c, false), (b, true)] := by
      rw [← h3]; exact v1.symm
    exact List.append_cancel_left this
  · intro hr
    by_cases hc : (mouseLoop h H btn iX iY msg w.dialogs.length
        { w with state := State.StateBusy }).2 = true
    · rw [if_pos hc] at hr
      exact absurd hr (by decide)
    · exact u4 (bool_false_of_not_true _ hc)
  · intro hr
    by_cases hc : (mouseLoop h H btn iX iY msg w.dialogs.length
        { w with state := State.StateBusy }).2 = true
    · exact u5 hc
    · rw [if_neg hc] at hr
      exact absurd rfl hr
  · intro hH
    have hd := mouseLoop_nocalls h H btn iX iY msg hH w.dialogs.length
      { w with state := State.StateBusy }
    rw [hd] at lo
    exact List.Sublist.antisymm up lo

theorem OnMouseProc_dispatch_witness :
    (WM_LBUTTONDOWN = WM_LBUTTONUP ∨ WM_LBUTTONDOWN = WM_LBUTTONDOWN ∨
      WM_LBUTTONDOWN = WM_RBUTTONDOWN ∨ WM_LBUTTONDOWN = WM_RBUTTONUP) ∧
    sampleThree.state = State.StateIdle ∧
    sampleThree.dialogs = [some 0, some 1, some 2] ∧
    (OnMouseProc Host.sample Handlers.sample 0 20 20 WM_LBUTTONDOWN sampleThree).map
      (fun x => (mouseCalls x.1.trace, x.2)) = some ([(2, false), (1, true)], 1) ∧
    hits (fun d => (sampleThree.obj d).m_position) ⟨20, 20⟩ (sampleThree.dialogs.drop 1) =
      [2, 1] ∧
    (List.range sampleThree.dialogs.length).flatMap
        (mouseAt Host.sample Handlers.sample 0 20 20 WM_LBUTTONDOWN
          { sampleThree with state := State.StateBusy }) = [(2, false), (1, true)] ∧
    ∃ w2 r vis k,
      OnMouseProc Host.sample Handlers.sample 0 20 20 WM_LBUTTONDOWN sampleThree = some (w2, r) ∧
      mouseCalls w2.trace = mouseCalls sampleThree.trace ++ vis ∧
      (vis.map Prod.fst).Sublist
        (hits (fun d => (sampleThree.obj d).m_position) ⟨20, 20⟩ sampleThree.dialogs) ∧
      (∀ e ∈ vis.dropLast, e.2 = false) ∧
      (∀ a b c, sampleThree.dialogs = [some a, some b, some c] →
        PtInRect (sampleThree.obj b).m_position ⟨20, 20⟩ = true →
        PtInRect (sampleThree.obj c).m_position ⟨20, 20⟩ = true →
        (∀ v, Handlers.sample.OnMouse c 0 20 20 WM_LBUTTONDOWN v = ([], false)) →
        (∀ v, (Handlers.sample.OnMouse b 0 20 20 WM_LBUTTONDOWN v).2 = true) →
        vis = [(c, false), (b, true)]) ∧
      (vis.map Prod.fst).Sublist
        (hits (fun d => (sampleThree.obj d).m_position) ⟨20, 20⟩ (sampleThree.dialogs.drop k)) ∧
      (hits (fun d => (sampleThree.obj d).m_position) ⟨20, 20⟩
        ((mouseLoop Host.sample Handlers.sample 0 20 20 WM_LBUTTONDOWN
          sampleThree.dialogs.length
          { sampleThree with state := State.StateBusy }).1.dialogs.drop k)).Sublist
        (vis.map Prod.fst) ∧
      (r = 0 → k = 0) ∧
      (r ≠ 0 → ∃ d, sampleThree.dialogs.get? k = some (some d) ∧
        vis.getLast? = some (d, true)) ∧
      ((∀ d v, (Handlers.sample.OnMouse d 0 20 20 WM_LBUTTONDOWN v).1 = []) →
        vis.map Prod.fst =
          hits (fun d => (sampleThree.obj d).m_position) ⟨20, 20⟩
            (sampleThree.dialogs.drop k)) ∧
      vis = (List.range sampleThree.dialogs.length).flatMap
        (mouseAt Host.sample Handlers.sample 0 20 20 WM_LBUTTONDOWN
          { sampleThree with state := State.StateBusy }) :=
  ⟨by decide, by decide, by decide, by decide, by decide, by decide,
    OnMouseProc_dispatch Host.sample Handlers.sample 0 20 20 WM_LBUTTONDOWN sampleThree
      (by decide) (by decide)⟩

/-! ## C6: the result of `OnMouseProc` -/

/-- C6: for a message id other than the four button messages `OnMouseProc` returns `0` and
the world it was given (no handler invoked; gate, lists and counters unchanged). For a button
message in an idle world it returns, and its result is non-zero exactly when one of the
`OnMouse` handlers invoked during the pass returned "consumed"; so the result is non-zero if
and only if the message is a button message and a handler invoked during the pass consumed
it. (With a button message and a gate that is not idle the call waits.) -/
theorem OnMouseProc_result (h : Host) (H : Handlers) (btn : Nat) (iX iY : Int) (msg : Nat)
    (w : World) :
    (¬ (msg = WM_LBUTTONUP ∨ msg = WM_LBUTTONDOWN ∨ msg = WM_RBUTTONDOWN ∨ msg = WM_RBUTTONUP) →
      OnMouseProc h H btn iX iY msg w = some (w, 0)) ∧
    (w.state = State.StateIdle →
      ∃ w2 r vis, OnMouseProc h H btn iX iY msg w = some (w2, r) ∧
        mouseCalls w2.trace = mouseCalls w.trace ++ vis ∧
        (r ≠ 0 ↔
          (msg = WM_LBUTTONUP ∨ msg = WM_LBUTTONDOWN ∨ msg = WM_RBUTTONDOWN ∨
            msg = WM_RBUTTONUP) ∧ ∃ d, (d, true) ∈ vis)) ∧
    ((msg = WM_LBUTTONUP ∨ msg = WM_LBUTTONDOWN ∨ msg = WM_RBUTTONDOWN ∨ msg = WM_RBUTTONUP) →
      w.state ≠ State.StateIdle → OnMouseProc h H btn iX iY msg w = none) := by
  refine ⟨fun hn => ?_, fun hst => ?_, fun hm hst => ?_⟩
  · have : isButtonMsg msg = false :=
      bool_false_of_not_true _ (fun hb => hn ((isButtonMsg_iff msg).1 hb))
    exact OnMouseProc_other h H btn iX iY msg w this
  · by_cases hb : isButtonMsg msg = true
    · obtain ⟨w2, r, vis, v1, v2, _, _, v5, _⟩ := OnMouseProc_spec h H btn iX iY msg w hb hst
      exact ⟨w2, r, vis, v1, v2, by rw [v5]; simp [(isButtonMsg_iff msg).1 hb]⟩
    · have hn : ¬ (msg = WM_LBUTTONUP ∨ msg = WM_LBUTTONDOWN ∨ msg = WM_RBUTTONDOWN ∨
          msg = WM_RBUTTONUP) := fun hx => hb ((isButtonMsg_iff msg).2 hx)
      refine ⟨w, 0, [], OnMouseProc_other h H btn iX iY msg w (bool_false_of_not_true _ hb),
        by simp, ?_⟩
      simp [hn]
  · simp [OnMouseProc, (isButtonMsg_iff msg).2 hm, hst]

theorem OnMouseProc_result_witness :
    sampleThree.state = State.StateIdle ∧
    (OnMouseProc Host.sample Handlers.sample 0 20 20 512 sampleThree).map
      (fun x => (x.2, x.1.trace.length, x.1.dialogs)) =
      some (0, sampleThree.trace.length, sampleThree.dialogs) ∧
    (OnMouseProc Host.sample Handlers.sample 0 20 20 WM_RBUTTONUP sampleThree).map
      (fun x => x.2) = some 1 ∧
    (OnMouseProc Host.sample Handlers.sample 0 5 5 WM_RBUTTONUP sampleThree).map
      (fun x => x.2) = some 0 ∧
    (¬ (WM_RBUTTONUP = WM_LBUTTONUP ∨ WM_RBUTTONUP = WM_LBUTTONDOWN ∨
        WM_RBUTTONUP = WM_RBUTTONDOWN ∨ WM_RBUTTONUP = WM_RBUTTONUP) →
      OnMouseProc Host.sample Handlers.sample 0 20 20 WM_RBUTTONUP sampleThree =
        some (sampleThree, 0)) ∧
    (sampleThree.state = State.StateIdle →
      ∃ w2 r vis, OnMouseProc Host.sample Handlers.sample 0 20 20 WM_RBUTTONUP sampleThree =
          some (w2, r) ∧
        mouseCalls w2.trace = mouseCalls sampleThree.trace ++ vis ∧
        (r ≠ 0 ↔
          (WM_RBUTTONUP = WM_LBUTTONUP ∨ WM_RBUTTONUP = WM_LBUTTONDOWN ∨
            WM_RBUTTONUP = WM_RBUTTONDOWN ∨ WM_RBUTTONUP = WM_RBUTTONUP) ∧
          ∃ d, (d, true) ∈ vis)) ∧
    ((WM_RBUTTONUP = WM_LBUTTONUP ∨ WM_RBUTTONUP = WM_LBUTTONDOWN ∨
        WM_RBUTTONUP = WM_RBUTTONDOWN ∨ WM_RBUTTONUP = WM_RBUTTONUP) →
      sampleThree.state ≠ State.StateIdle →
      OnMouseProc Host.sample Handlers.sample 0 20 20 WM_RBUTTONUP sampleThree = none) :=
  ⟨by decide, by decide, by decide, by decide,
    OnMouseProc_result Host.sample Handlers.sample 0 20 20 WM_RBUTTONUP sampleThree⟩


/-! ## The frame pass -/

theorem Frozen_not_mem {w1 w2 : World} (hf : Frozen w1 w2) (p : Option DialogId)
    (hp : p ≠ none) (hn : p ∉ w1.dialogs) : p ∉ w2.dialogs := by
  intro hm
  obtain ⟨k, hk⟩ := List.get?_of_mem hm
  rcases hf.2.2.1 k with hj | hj
  · rw [hk] at hj
    exact hn (List.get?_mem hj.symm)
  · rw [hk] at hj
    exact hp (Option.some.inj hj)

/-- The forward loop of `OnFrameProc`, `n` iterations from slot `i`, at any moment `w` of a
pass that began in `w0`: the handlers it invokes are taken in order from the non-null entries
of the slots `i, ..., i + n - 1`, and no `OnMouse` is invoked. -/
theorem frameLoop_spec (h : Host) (H : Handlers) (w0 : World) (n : Nat) :
    ∀ (i : Nat) (w : World), Frozen w0 w →
    ∃ vis : List (DialogId × Bool),
      drawCalls (frameLoop h H n i w).trace = drawCalls w.trace ++ vis ∧
      (vis.map Prod.fst).Sublist (((w0.dialogs.drop i).take n).filterMap id) ∧
      mouseCalls (frameLoop h H n i w).trace = mouseCalls w.trace ∧
      Frozen w0 (frameLoop h H n i w) := by
  induction n with
  | zero =>
    intro i w hf
    exact ⟨[], by simp [frameLoop], by simp, by simp [frameLoop], hf⟩
  | succ n ih =>
    intro i w hf
    cases hg : w.dialogs.get? i with
    | none =>
      have e : frameLoop h H (n + 1) i w = w := by simp only [frameLoop, hg]
      rw [e]
      exact ⟨[], by simp, by simp, rfl, hf⟩
    | some o =>
      have hi : i < w0.dialogs.length := by
        rw [← hf.2.1]
        rw [List.get?_eq_getElem?] at hg
        exact (List.getElem?_eq_some_iff.1 hg).1
      have hdrop : w0.dialogs.drop i = w0.dialogs[i] :: w0.dialogs.drop (i + 1) :=
        List.drop_eq_getElem_cons hi
      cases o with
      | none =>
        have e : frameLoop h H (n + 1) i w =
            frameLoop h H n (i + 1) { w with state := State.StateBusyCleanupRequired } := by
          simp only [frameLoop, hg]
        rw [e]
        have hf2 : Frozen w0 { w with state := State.StateBusyCleanupRequired } :=
          ⟨by simp, hf.2.1, hf.2.2.1, hf.2.2.2⟩
        obtain ⟨vis, v1, v2, v3, v4⟩ := ih (i + 1) _ hf2
        refine ⟨vis, v1, ?_, v3, v4⟩
        rw [hdrop, List.take_succ_cons]
        refine v2.trans ?_
        cases w0.dialogs[i] with
        | none => simp
        | some x => simp
      | some d =>
        have h0 : w0.dialogs.get? i = some (some d) := by
          rcases hf.2.2.1 i with hj | hj
          · rw [← hj, hg]
          · rw [hg] at hj; simp at hj
        have h0e : w0.dialogs[i] = some d := by
          rw [List.get?_eq_getElem?, List.getElem?_eq_getElem hi] at h0
          exact Option.some.inj h0
        have e : frameLoop h H (n + 1) i w =
            frameLoop h H n (i + 1) (runCalls h (H.OnDraw d w).1
              { w with trace := w.trace ++ [Event.OnDraw d (H.OnDraw d w).2] }) := by
          simp only [frameLoop, hg]
        rw [e]
        have hfr : Frozen w0 (runCalls h (H.OnDraw d w).1
            { w with trace := w.trace ++ [Event.OnDraw d (H.OnDraw d w).2] }) :=
          Frozen_trans hf (runCalls_frozen h _ _ hf.1)
        obtain ⟨vis, v1, v2, v3, v4⟩ := ih (i + 1) _ hfr
        refine ⟨(d, (H.OnDraw d w).2) :: vis, ?_, ?_, ?_, v4⟩
        · rw [v1, (runCalls_handlerCalls h _ _).2]
          simp [drawCalls]
        · rw [hdrop, List.take_succ_cons, h0e]
          simpa using v2
        · rw [v3, (runCalls_handlerCalls h _ _).1]
          simp [mouseCalls]

theorem mem_hits (pos : DialogId → RECT) (p : POINT) (l : List (Option DialogId))
    (d : DialogId) (hd : d ∈ hits pos p l) : some d ∈ l := by
  unfold hits at hd
  simpa using (List.mem_filter.1 hd).1

/-- A dialog that is not in the main list is not invoked in the rest of a pass. -/
theorem not_invoked_of_not_mem (h : Host) (d : DialogId) (w : World)
    (hst : w.state ≠ State.StateIdle) (hn : some d ∉ w.dialogs) :
    (∀ (H : Handlers) (n i : Nat), ∃ vis,
      drawCalls (frameLoop h H n i w).trace = drawCalls w.trace ++ vis ∧
      ∀ e ∈ vis, e.1 ≠ d) ∧
    (∀ (H : Handlers) (btn : Nat) (iX iY : Int) (msg i : Nat), ∃ vis,
      mouseCalls (mouseLoop h H btn iX iY msg i w).1.trace = mouseCalls w.trace ++ vis ∧
      ∀ e ∈ vis, e.1 ≠ d) := by
  constructor
  · intro H n i
    obtain ⟨vis, v1, v2, _, _⟩ := frameLoop_spec h H w n i w (Frozen_refl w hst)
    refine ⟨vis, v1, ?_⟩
    intro e he hed
    have h1 : e.1 ∈ vis.map Prod.fst := List.mem_map_of_mem _ he
    have h2 := v2.subset h1
    rw [hed] at h2
    have h3 : some d ∈ (w.dialogs.drop i).take n := by simpa using h2
    exact hn (List.mem_of_mem_drop (List.mem_of_mem_take h3))
  · intro H btn iX iY msg i
    obtain ⟨vis, v1, v2, _, _, _⟩ :=
      mouseLoop_spec h H btn iX iY msg w i w (Frozen_refl w hst)
    refine ⟨vis, v1, ?_⟩
    intro e he hed
    have h1 : e.1 ∈ vis.map Prod.fst := List.mem_map_of_mem _ he
    have h2 := v2.subset h1
    rw [hed] at h2
    exact hn (List.mem_of_mem_take (mem_hits _ _ _ _ h2))

theorem not_mem_nullLast (p : Option DialogId) (l : List (Option DialogId))
    (hp : p ≠ none) (hc : l.count p = 1) : p ∉ nullLast p l := by
  induction l with
  | nil => simp [nullLast]
  | cons x xs ih =>
    by_cases hx : x = p
    · subst hx
      rw [List.count_cons_self] at hc
      have h0 : xs.count x = 0 := by omega
      have h1 : x ∉ xs := List.count_eq_zero.1 h0
      simp only [nullLast, h1, if_false, if_true]
      intro hm
      rcases List.mem_cons.1 hm with he | he
      · exact hp he
      · exact h1 he
    · rw [List.count_cons_of_ne (Ne.symm hx)] at hc
      have h1 : p ∈ xs := List.count_pos_iff.1 (by omega)
      simp only [nullLast, h1, if_true]
      intro hm
      rcases List.mem_cons.1 hm with he | he
      · exact hx he.symm
      · exact ih hc he


/-! ## The loops with the calls of other threads in the gaps -/

theorem frameLoopGap_quiet (h : Host) (H : Handlers) (n : Nat) :
    ∀ (i : Nat) (w : World), frameLoopGap h H Gaps.quiet n i w = frameLoop h H n i w := by
  induction n with
  | zero => intro i w; rfl
  | succ n ih =>
    intro i w
    cases hg : w.dialogs.get? i with
    | none => simp only [frameLoopGap, frameLoop, hg]
    | some o =>
      cases o with
      | none => simp only [frameLoopGap, frameLoop, hg, ih]
      | some d =>
        have q : Gaps.quiet.BeforeDraw d w = [] := rfl
        simp only [frameLoopGap, frameLoop, hg, ih, q, runCalls_nil]

theorem mouseLoopGap_quiet (h : Host) (H : Handlers) (btn : Nat) (iX iY : Int) (msg : Nat)
    (i : Nat) : ∀ w : World,
    mouseLoopGap h H Gaps.quiet btn iX iY msg i w = mouseLoop h H btn iX iY msg i w := by
  induction i with
  | zero => intro w; rfl
  | succ i ih =>
    intro w
    cases hg : w.dialogs.get? i with
    | none => simp only [mouseLoopGap, mouseLoop, hg, ih]
    | some o =>
      cases o with
      | none => simp only [mouseLoopGap, mouseLoop, hg, ih]
      | some d =>
        have q : Gaps.quiet.BeforeMouse d btn iX iY msg w = [] := rfl
        simp only [mouseLoopGap, mouseLoop, hg, ih, q, runCalls_nil]

/-- The forward loop with gaps, `n` iterations from slot `i`, at any moment `w` of a pass that
began in `w0`: the handlers it invokes are taken in order from the non-null entries of the
slots `i, ..., i + n - 1`, and the result is a later moment of the pass. -/
theorem frameLoopGap_spec (h : Host) (H : Handlers) (G : Gaps) (w0 : World) (n : Nat) :
    ∀ (i : Nat) (w : World), Frozen w0 w →
    ∃ vis : List (DialogId × Bool),
      drawCalls (frameLoopGap h H G n i w).trace = drawCalls w.trace ++ vis ∧
      (vis.map Prod.fst).Sublist (((w0.dialogs.drop i).take n).filterMap id) ∧
      mouseCalls (frameLoopGap h H G n i w).trace = mouseCalls w.trace ∧
      Frozen w0 (frameLoopGap h H G n i w) := by
  induction n with
  | zero =>
    intro i w hf
    exact ⟨[], by simp [frameLoopGap], by simp, by simp [frameLoopGap], hf⟩
  | succ n ih =>
    intro i w hf
    cases hg : w.dialogs.get? i with
    | none =>
      have e : frameLoopGap h H G (n + 1) i w = w := by simp only [frameLoopGap, hg]
      rw [e]
      exact ⟨[], by simp, by simp, rfl, hf⟩
    | some o =>
      have hi : i < w0.dialogs.length := by
        rw [← hf.2.1]
        rw [List.get?_eq_getElem?] at hg
        exact (List.getElem?_eq_some_iff.1 hg).1
      have hdrop : w0.dialogs.drop i = w0.dialogs[i] :: w0.dialogs.drop (i + 1) :=
        List.drop_eq_getElem_cons hi
      cases o with
      | none =>
        have e : frameLoopGap h H G (n + 1) i w =
            frameLoopGap h H G n (i + 1)
              { w with state := State.StateBusyCleanupRequired } := by
          simp only [frameLoopGap, hg]
        rw [e]
        have hf2 : Frozen w0 { w with state := State.StateBusyCleanupRequired } :=
          ⟨by simp, hf.2.1, hf.2.2.1, hf.2.2.2⟩
        obtain ⟨vis, v1, v2, v3, v4⟩ := ih (i + 1) _ hf2
        refine ⟨vis, v1, ?_, v3, v4⟩
        rw [hdrop, List.take_succ_cons]
        refine v2.trans ?_
        cases w0.dialogs[i] with
        | none => simp
        | some x => simp
      | some d =>
        have h0 : w0.dialogs.get? i = some (some d) := by
          rcases hf.2.2.1 i with hj | hj
          · rw [← hj, hg]
          · rw [hg] at hj; simp at hj
        have h0e : w0.dialogs[i] = some d := by
          rw [List.get?_eq_getElem?, List.getElem?_eq_getElem hi] at h0
          exact Option.some.inj h0
        have hf1 : Frozen w (runCalls h (G.BeforeDraw d w) w) := runCalls_frozen h _ w hf.1
        have e : frameLoopGap h H G (n + 1) i w =
            frameLoopGap h H G n (i + 1)
              (runCalls h (H.OnDraw d (runCalls h (G.BeforeDraw d w) w)).1
                { runCalls h (G.BeforeDraw d w) w with
                  trace := (runCalls h (G.BeforeDraw d w) w).trace ++
                    [Event.OnDraw d (H.OnDraw d (runCalls h (G.BeforeDraw d w) w)).2] }) := by
          simp only [frameLoopGap, hg]
        rw [e]
        have hf2 : Frozen (runCalls h (G.BeforeDraw d w) w)
            (runCalls h (H.OnDraw d (runCalls h (G.BeforeDraw d w) w)).1
              { runCalls h (G.BeforeDraw d w) w with
                trace := (runCalls h (G.BeforeDraw d w) w).trace ++
                  [Event.OnDraw d (H.OnDraw d (runCalls h (G.BeforeDraw d w) w)).2] }) :=
          runCalls_frozen h _ _ hf1.1
        have hfr := Frozen_trans hf (Frozen_trans hf1 hf2)
        obtain ⟨vis, v1, v2, v3, v4⟩ := ih (i + 1) _ hfr
        refine ⟨(d, (H.OnDraw d (runCalls h (G.BeforeDraw d w) w)).2) :: vis, ?_, ?_, ?_, v4⟩
        · rw [v1, (runCalls_handlerCalls h _ _).2, drawCalls_append,
            (runCalls_handlerCalls h _ _).2]
          simp [drawCalls]
        · rw [hdrop, List.take_succ_cons, h0e]
          simpa using v2
        · rw [v3, (runCalls_handlerCalls h _ _).1, mouseCalls_append,
            (runCalls_handlerCalls h _ _).1]
          simp [mouseCalls]

/-- The reverse loop with gaps, from slot `i - 1` down, at any moment `w` of a pass that began
in `w0`: the handlers it invokes are taken in order from the reachable dialogs of the first
`i` slots, and the result is a later moment of the pass. -/
theorem mouseLoopGap_spec (h : Host) (H : Handlers) (G : Gaps) (btn : Nat) (iX iY : Int)
    (msg : Nat) (w0 : World) (i : Nat) : ∀ w : World, Frozen w0 w →
    ∃ vis : List (DialogId × Bool),
      mouseCalls (mouseLoopGap h H G btn iX iY msg i w).1.trace = mouseCalls w.trace ++ vis ∧
      (vis.map Prod.fst).Sublist
        (hits (fun d => (w0.obj d).m_position) ⟨iX, iY⟩ (w0.dialogs.take i)) ∧
      drawCalls (mouseLoopGap h H G btn iX iY msg i w).1.trace = drawCalls w.trace ∧
      Frozen w0 (mouseLoopGap h H G btn iX iY msg i w).1 := by
  induction i with
  | zero =>
    intro w hf
    exact ⟨[], by simp [mouseLoopGap], by simp, by simp [mouseLoopGap], hf⟩
  | succ i ih =>
    intro w hf
    have hsub := hits_take_sublist (fun d => (w0.obj d).m_position) ⟨iX, iY⟩ w0.dialogs i
    cases hg : w.dialogs.get? i with
    | none =>
      have e : mouseLoopGap h H G btn iX iY msg (i + 1) w =
          mouseLoopGap h H G btn iX iY msg i w := by
        simp only [mouseLoopGap, hg]
      rw [e]
      obtain ⟨vis, v1, v2, v3, v4⟩ := ih w hf
      exact ⟨vis, v1, v2.trans hsub, v3, v4⟩
    | some o =>
      cases o with
      | none =>
        have e : mouseLoopGap h H G btn iX iY msg (i + 1) w =
            mouseLoopGap h H G btn iX iY msg i
              { w with state := State.StateBusyCleanupRequired } := by
          simp only [mouseLoopGap, hg]
        rw [e]
        have hf2 : Frozen w0 { w with state := State.StateBusyCleanupRequired } :=
          ⟨by simp, hf.2.1, hf.2.2.1, hf.2.2.2⟩
        obtain ⟨vis, v1, v2, v3, v4⟩ := ih _ hf2
        exact ⟨vis, v1, v2.trans hsub, v3, v4⟩
      | some d =>
        have h0 : w0.dialogs.get? i = some (some d) := by
          rcases hf.2.2.1 i with hj | hj
          · rw [← hj, hg]
          · rw [hg] at hj; simp at hj
        by_cases hp : PtInRect (w.obj d).m_position ⟨iX, iY⟩ = true
        · have hp0 : PtInRect (w0.obj d).m_position ⟨iX, iY⟩ = true := by
            rw [← hf.2.2.2 d]; exact hp
          have hh := hits_take_succ (fun d => (w0.obj d).m_position) ⟨iX, iY⟩ w0.dialogs i d
            h0 hp0
          have hf1 : Frozen w (runCalls h (G.BeforeMouse d btn iX iY msg w) w) :=
            runCalls_frozen h _ w hf.1
          have hf2 : Frozen (runCalls h (G.BeforeMouse d btn iX iY msg w) w)
              (runCalls h
                (H.OnMouse d btn iX iY msg (runCalls h (G.BeforeMouse d btn iX iY msg w) w)).1
                { runCalls h (G.BeforeMouse d btn iX iY msg w) w with
                  trace := (runCalls h (G.BeforeMouse d btn iX iY msg w) w).trace ++
                    [Event.OnMouse d (H.OnMouse d btn iX iY msg
                      (runCalls h (G.BeforeMouse d btn iX iY msg w) w)).2] }) :=
            runCalls_frozen h _ _ hf1.1
          have hfr := Frozen_trans hf (Frozen_trans hf1 hf2)
          have htr : mouseCalls (runCalls h
                (H.OnMouse d btn iX iY msg (runCalls h (G.BeforeMouse d btn iX iY msg w) w)).1
                { runCalls h (G.BeforeMouse d btn iX iY msg w) w with
                  trace := (runCalls h (G.BeforeMouse d btn iX iY msg w) w).trace ++
                    [Event.OnMouse d (H.OnMouse d btn iX iY msg
                      (runCalls h (G.BeforeMouse d btn iX iY msg w) w)).2] }).trace =
              mouseCalls w.trace ++ [(d, (H.OnMouse d btn iX iY msg
                (runCalls h (G.BeforeMouse d btn iX iY msg w) w)).2)] := by
            rw [(runCalls_handlerCalls h _ _).1, mouseCalls_append,
              (runCalls_handlerCalls h _ _).1]
            simp [mouseCalls]
          have hdr : drawCalls (runCalls h
                (H.OnMouse d btn iX iY msg (runCalls h (G.BeforeMouse d btn iX iY msg w) w)).1
                { runCalls h (G.BeforeMouse d btn iX iY msg w) w with
                  trace := (runCalls h (G.BeforeMouse d btn iX iY msg w) w).trace ++
                    [Event.OnMouse d (H.OnMouse d btn iX iY msg
                      (runCalls h (G.BeforeMouse d btn iX iY msg w) w)).2] }).trace =
              drawCalls w.trace := by
            rw [(runCalls_handlerCalls h _ _).2, drawCalls_append,
              (runCalls_handlerCalls h _ _).2]
            simp [drawCalls]
          by_cases hr : (H.OnMouse d btn iX iY msg
              (runCalls h (G.BeforeMouse d btn iX iY msg w) w)).2 = true
          · have e : mouseLoopGap h H G btn iX iY msg (i + 1) w =
                (runCalls h
                  (H.OnMouse d btn iX iY msg (runCalls h (G.BeforeMouse d btn iX iY msg w) w)).1
                  { runCalls h (G.BeforeMouse d btn iX iY msg w) w with
                    trace := (runCalls h (G.BeforeMouse d btn iX iY msg w) w).trace ++
                      [Event.OnMouse d (H.OnMouse d btn iX iY msg
                        (runCalls h (G.BeforeMouse d btn iX iY msg w) w)).2] }, true) := by
              simp only [mouseLoopGap, hg, hp, hr]
              simp
            rw [e]
            refine ⟨[(d, true)], ?_, ?_, hdr, hfr⟩
            · rw [htr, hr]
            · rw [hh]; simp
          · have hr2 := bool_false_of_not_true _ hr
            have e : mouseLoopGap h H G btn iX iY msg (i + 1) w =
                mouseLoopGap h H G btn iX iY msg i (runCalls h
                  (H.OnMouse d btn iX iY msg (runCalls h (G.BeforeMouse d btn iX iY msg w) w)).1
                  { runCalls h (G.BeforeMouse d btn iX iY msg w) w with
                    trace := (runCalls h (G.BeforeMouse d btn iX iY msg w) w).trace ++
                      [Event.OnMouse d (H.OnMouse d btn iX iY msg
                        (runCalls h (G.BeforeMouse d btn iX iY msg w) w)).2] }) := by
              simp only [mouseLoopGap, hg, hp, hr2]
              simp
            rw [e]
            obtain ⟨vis, v1, v2, v3, v4⟩ := ih _ hfr
            refine ⟨(d, false) :: vis, ?_, ?_, ?_, v4⟩
            · rw [v1, htr, hr2]; simp
            · rw [hh]; simpa using v2
            · rw [v3, hdr]
        · have e : mouseLoopGap h H G btn iX iY msg (i + 1) w =
              mouseLoopGap h H G btn iX iY msg i w := by
            simp only [mouseLoopGap, hg, hp]
            simp
          rw [e]
          obtain ⟨vis, v1, v2, v3, v4⟩ := ih w hf
          exact ⟨vis, v1, v2.trans hsub, v3, v4⟩

/-- A dialog that is not in the main list is not invoked in the rest of a pass, whatever the
handlers do and whatever other threads call in the gaps. -/
theorem not_invoked_gap (h : Host) (d : DialogId) (w : World)
    (hst : w.state ≠ State.StateIdle) (hn : some d ∉ w.dialogs) :
    (∀ (H : Handlers) (G : Gaps) (n i : Nat), ∃ vis,
      drawCalls (frameLoopGap h H G n i w).trace = drawCalls w.trace ++ vis ∧
      ∀ e ∈ vis, e.1 ≠ d) ∧
    (∀ (H : Handlers) (G : Gaps) (btn : Nat) (iX iY : Int) (msg i : Nat), ∃ vis,
      mouseCalls (mouseLoopGap h H G btn iX iY msg i w).1.trace = mouseCalls w.trace ++ vis ∧
      ∀ e ∈ vis, e.1 ≠ d) := by
  constructor
  · intro H G n i
    obtain ⟨vis, v1, v2, _, _⟩ := frameLoopGap_spec h H G w n i w (Frozen_refl w hst)
    refine ⟨vis, v1, ?_⟩
    intro e he hed
    have h1 : e.1 ∈ vis.map Prod.fst := List.mem_map_of_mem _ he
    have h2 := v2.subset h1
    rw [hed] at h2
    have h3 : some d ∈ (w.dialogs.drop i).take n := by simpa using h2
    exact hn (List.mem_of_mem_drop (List.mem_of_mem_take h3))
  · intro H G btn iX iY msg i
    obtain ⟨vis, v1, v2, _, _⟩ :=
      mouseLoopGap_spec h H G btn iX iY msg w i w (Frozen_refl w hst)
    refine ⟨vis, v1, ?_⟩
    intro e he hed
    have h1 : e.1 ∈ vis.map Prod.fst := List.mem_map_of_mem _ he
    have h2 := v2.subset h1
    rw [hed] at h2
    exact hn (List.mem_of_mem_take (mem_hits _ _ _ _ h2))


theorem not_mem_of_slots (l1 l2 : List (Option DialogId)) (p : Option DialogId)
    (hp : p ≠ none) (hs : ∀ j, l2.get? j = l1.get? j ∨ l2.get? j = some none)
    (hn : p ∉ l1) : p ∉ l2 := by
  intro hm
  obtain ⟨j, hj⟩ := List.get?_of_mem hm
  rcases hs j with hx | hx
  · rw [hj] at hx
    exact hn (List.get?_mem hx.symm)
  · rw [hj] at hx
    exact hp (Option.some.inj hx)

/-! ## C7: `Hide` while a pass is running -/

/-- C7 as stated fails. In a frame pass over `sampleBusy` (main list `0, 1, 2`, nothing
pending) the loop copies the pointer of dialog `1` and releases the lock; another thread's
`Hide` of dialog `1` returns `TRUE` in that gap (`Gaps.hideSelf`), and the `OnDraw` of dialog
`1` is invoked after it; likewise `OnMouse` in a mouse pass. Further, in `samplePendingDup`
(gate `StateBusyCleanupRequired`, dialog `0` in the main list and shown) `Hide` succeeds but
removes the dialog from the pending list, its slot in the main list is not null afterwards,
and the rest of a frame pass still invokes its `OnDraw`. In `sampleMainDup` (gate `StateBusy`,
dialog `0` twice in the main list) `Hide` succeeds and nulls the last slot only, and the rest
of a frame pass still invokes its `OnDraw`. As one pass: with the main list `1, 0` and the flag
of `0` cleared by a vetoed `Hide`, an `OnDraw` of `1` that shows and then hides `0` (both calls
succeed) is followed by the `OnDraw` of `0` in the same pass. -/
theorem Hide_during_pass_counterexample :
    sampleBusy.state = State.StateBusy ∧
    sampleBusy.dialogs = [some 0, some 1, some 2] ∧ sampleBusy.pending_dialogs = [] ∧
    (frameLoopGap Host.sample Handlers.sample Gaps.hideSelf 3 0 sampleBusy).trace.drop
        sampleBusy.trace.length =
      [Event.OnDraw 0 false, Event.Called (Call.Hide 1 true) true, Event.OnDraw 1 false,
        Event.OnDraw 2 false] ∧
    (mouseLoopGap Host.sample Handlers.sample Gaps.hideSelf 0 20 20 WM_LBUTTONDOWN 3
        sampleBusy).1.trace.drop sampleBusy.trace.length =
      [Event.OnMouse 2 false, Event.Called (Call.Hide 1 true) true, Event.OnMouse 1 true] ∧
    samplePendingDup.state = State.StateBusyCleanupRequired ∧
    samplePendingDup.dialogs = [some 0] ∧
    (samplePendingDup.obj 0).m_isShown = true ∧
    (Hide Host.sample 0 true samplePendingDup).2 = true ∧
    (Hide Host.sample 0 true samplePendingDup).1.dialogs = [some 0] ∧
    drawCalls (frameLoop Host.sample Handlers.sample 1 0
      (Hide Host.sample 0 true samplePendingDup).1).trace = [(0, false)] ∧
    sampleMainDup.state = State.StateBusy ∧
    sampleMainDup.dialogs = [some 0, some 0] ∧
    (Hide Host.sample 0 true sampleMainDup).2 = true ∧
    (Hide Host.sample 0 true sampleMainDup).1.dialogs = [some 0, none] ∧
    drawCalls (frameLoop Host.sample Handlers.sample 2 0
      (Hide Host.sample 0 true sampleMainDup).1).trace = [(0, false)] ∧
    (runCalls Host.sample [Call.Show 1 true, Call.Show 0 true, Call.Hide 0 false]
      (World.init sampleObjs)).dialogs = [some 1, some 0] ∧
    (OnFrameProc Host.sample Handlers.reshow
      (runCalls Host.sample [Call.Show 1 true, Call.Show 0 true, Call.Hide 0 false]
        (World.init sampleObjs))).map
      (fun x => (drawCalls x.1.trace, x.1.trace.filter isHideOk)) =
      some ([(1, false), (0, false)], [Event.Called (Call.Hide 0 true) true]) := by
  decide

/-- C7, amended: while the gate is `StateBusy` or `StateBusyCleanupRequired`, a `Hide`
(successful or not), any other client call, and the rest of a frame or mouse pass (whatever
the handlers do and whatever other threads call while the lock is released) leave the gate not
idle and the length of the main list unchanged, and change a slot only to the null pointer.
If the `Hide` succeeds on a dialog that occurs exactly once in the main list and not in the
pending list, then the slot of the dialog holds the null pointer afterwards and every other
slot is unchanged; and at every later moment `w2` of the pass (gate not idle, every slot
holding what it held after the `Hide` or the null pointer) the dialog is not in the main list,
and the iterations of a frame or mouse loop run from there, from any slot, invoke neither
`OnDraw` nor `OnMouse` of that dialog. So the one invocation that can follow the `Hide` is the
one for which the loop had copied the pointer before the `Hide`. -/
theorem Hide_during_pass (h : Host) (d : DialogId) (onHide : Bool) (w : World)
    (hst : w.state ≠ State.StateIdle) :
    (Hide h d onHide w).1.dialogs.length = w.dialogs.length ∧
    (∀ c, (runCall h c w).state ≠ State.StateIdle ∧
      (runCall h c w).dialogs.length = w.dialogs.length ∧
      ∀ j, (runCall h c w).dialogs.get? j = w.dialogs.get? j ∨
        (runCall h c w).dialogs.get? j = some none) ∧
    (∀ (H : Handlers) (G : Gaps) (n i : Nat),
      (frameLoopGap h H G n i w).state ≠ State.StateIdle ∧
      (frameLoopGap h H G n i w).dialogs.length = w.dialogs.length ∧
      ∀ j, (frameLoopGap h H G n i w).dialogs.get? j = w.dialogs.get? j ∨
        (frameLoopGap h H G n i w).dialogs.get? j = some none) ∧
    (∀ (H : Handlers) (G : Gaps) (btn : Nat) (iX iY : Int) (msg i : Nat),
      (mouseLoopGap h H G btn iX iY msg i w).1.state ≠ State.StateIdle ∧
      (mouseLoopGap h H G btn iX iY msg i w).1.dialogs.length = w.dialogs.length ∧
      ∀ j, (mouseLoopGap h H G btn iX iY msg i w).1.dialogs.get? j = w.dialogs.get? j ∨
        (mouseLoopGap h H G btn iX iY msg i w).1.dialogs.get? j = some none) ∧
    ((Hide h d onHide w).2 = true → w.dialogs.count (some d) = 1 →
      some d ∉ w.pending_dialogs →
      (∃ k, w.dialogs.get? k = some (some d) ∧
        (Hide h d onHide w).1.dialogs.get? k = some none ∧
        ∀ j, j ≠ k → (Hide h d onHide w).1.dialogs.get? j = w.dialogs.get? j) ∧
      (∀ w2, w2.state ≠ State.StateIdle →
        (∀ j, w2.dialogs.get? j = (Hide h d onHide w).1.dialogs.get? j ∨
          w2.dialogs.get? j = some none) →
        some d ∉ w2.dialogs ∧
        (∀ (H : Handlers) (G : Gaps) (n i : Nat), ∃ vis,
          drawCalls (frameLoopGap h H G n i w2).trace = drawCalls w2.trace ++ vis ∧
          ∀ e ∈ vis, e.1 ≠ d) ∧
        (∀ (H : Handlers) (G : Gaps) (btn : Nat) (iX iY : Int) (msg i : Nat), ∃ vis,
          mouseCalls (mouseLoopGap h H G btn iX iY msg i w2).1.trace =
            mouseCalls w2.trace ++ vis ∧ ∀ e ∈ vis, e.1 ≠ d))) := by
  refine ⟨(Hide_frozen h d onHide w hst).2.1, fun c => ?_,
    fun H G n i => ?_, fun H G btn iX iY msg i => ?_, fun hok hcount hpend => ?_⟩
  · have v := runCall_frozen h c w hst
    exact ⟨v.1, v.2.1, v.2.2.1⟩
  · obtain ⟨_, _, _, _, v⟩ := frameLoopGap_spec h H G w n i w (Frozen_refl w hst)
    exact ⟨v.1, v.2.1, v.2.2.1⟩
  · obtain ⟨_, _, _, _, v⟩ := mouseLoopGap_spec h H G btn iX iY msg w i w (Frozen_refl w hst)
    exact ⟨v.1, v.2.1, v.2.2.1⟩
  · have hs : (w.obj d).m_isShown = true := by
      by_contra hc
      rw [Hide_hidden h d onHide w (bool_false_of_not_true _ hc)] at hok
      exact Bool.noConfusion hok
    have hb : onHide = true := by
      cases onHide with
      | true => rfl
      | false =>
        rw [Hide_veto h d w hs] at hok
        exact Bool.noConfusion hok
    subst hb
    have hmem : some d ∈ w.dialogs := List.count_pos_iff.1 (by omega)
    have e : Hide h d true w =
        (HideBusy d (ModifyFeatureCounts h d (-1) (setShown d false w)), true) := by
      rcases state_cases w.state with hw | hw | hw
      · exact absurd hw hst
      · exact Hide_allow_busy h d w hs hw
      · exact Hide_allow_fallthrough h d w hs hw hpend
    have ed : (Hide h d true w).1.dialogs = nullLast (some d) w.dialogs := by
      rw [e]; simp [HideBusy]
    have hn : some d ∉ (Hide h d true w).1.dialogs := by
      rw [ed]; exact not_mem_nullLast (some d) w.dialogs (by simp) hcount
    obtain ⟨k, _, k1, k2, k3⟩ := nullLast_slots (some d) w.dialogs hmem
    refine ⟨⟨k, k1, ?_, ?_⟩, fun w2 hst2 hsl => ?_⟩
    · rw [ed]; exact k2
    · intro j hj; rw [ed]; exact k3 j hj
    · have hn2 : some d ∉ w2.dialogs := not_mem_of_slots _ _ (some d) (by simp) hsl hn
      obtain ⟨n1, n2⟩ := not_invoked_gap h d w2 hst2 hn2
      exact ⟨hn2, n1, n2⟩

theorem Hide_during_pass_witness :
    sampleBusy.state ≠ State.StateIdle ∧
    (Hide Host.sample 1 true sampleBusy).2 = true ∧
    sampleBusy.dialogs.count (some 1) = 1 ∧ some 1 ∉ sampleBusy.pending_dialogs ∧
    (Hide Host.sample 1 true sampleBusy).1.dialogs = [some 0, none, some 2] ∧
    ((Hide Host.sample 1 true sampleBusy).1.dialogs.length = sampleBusy.dialogs.length ∧
    (∀ c, (runCall Host.sample c sampleBusy).state ≠ State.StateIdle ∧
      (runCall Host.sample c sampleBusy).dialogs.length = sampleBusy.dialogs.length ∧
      ∀ j, (runCall Host.sample c sampleBusy).dialogs.get? j = sampleBusy.dialogs.get? j ∨
        (runCall Host.sample c sampleBusy).dialogs.get? j = some none) ∧
    (∀ (H : Handlers) (G : Gaps) (n i : Nat),
      (frameLoopGap Host.sample H G n i sampleBusy).state ≠ State.StateIdle ∧
      (frameLoopGap Host.sample H G n i sampleBusy).dialogs.length =
        sampleBusy.dialogs.length ∧
      ∀ j, (frameLoopGap Host.sample H G n i sampleBusy).dialogs.get? j =
          sampleBusy.dialogs.get? j ∨
        (frameLoopGap Host.sample H G n i sampleBusy).dialogs.get? j = some none) ∧
    (∀ (H : Handlers) (G : Gaps) (btn : Nat) (iX iY : Int) (msg i : Nat),
      (mouseLoopGap Host.sample H G btn iX iY msg i sampleBusy).1.state ≠ State.StateIdle ∧
      (mouseLoopGap Host.sample H G btn iX iY msg i sampleBusy).1.dialogs.length =
        sampleBusy.dialogs.length ∧
      ∀ j, (mouseLoopGap Host.sample H G btn iX iY msg i sampleBusy).1.dialogs.get? j =
          sampleBusy.dialogs.get? j ∨
        (mouseLoopGap Host.sample H G btn iX iY msg i sampleBusy).1.dialogs.get? j =
          some none) ∧
    ((Hide Host.sample 1 true sampleBusy).2 = true → sampleBusy.dialogs.count (some 1) = 1 →
      some 1 ∉ sampleBusy.pending_dialogs →
      (∃ k, sampleBusy.dialogs.get? k = some (some 1) ∧
        (Hide Host.sample 1 true sampleBusy).1.dialogs.get? k = some none ∧
        ∀ j, j ≠ k →
          (Hide Host.sample 1 true sampleBusy).1.dialogs.get? j = sampleBusy.dialogs.get? j) ∧
      (∀ w2, w2.state ≠ State.StateIdle →
        (∀ j, w2.dialogs.get? j = (Hide Host.sample 1 true sampleBusy).1.dialogs.get? j ∨
          w2.dialogs.get? j = some none) →
        some 1 ∉ w2.dialogs ∧
        (∀ (H : Handlers) (G : Gaps) (n i : Nat), ∃ vis,
          drawCalls (frameLoopGap Host.sample H G n i w2).trace = drawCalls w2.trace ++ vis ∧
          ∀ e ∈ vis, e.1 ≠ 1) ∧
        (∀ (H : Handlers) (G : Gaps) (btn : Nat) (iX iY : Int) (msg i : Nat), ∃ vis,
          mouseCalls (mouseLoopGap Host.sample H G btn iX iY msg i w2).1.trace =
            mouseCalls w2.trace ++ vis ∧ ∀ e ∈ vis, e.1 ≠ 1)))) :=
  ⟨by decide, by decide, by decide, by decide, by decide,
    Hide_during_pass Host.sample 1 true sampleBusy (by decide)⟩


/-! ## Counting the calls of a pass -/

theorem hideOk_append (t1 t2 : List Event) : hideOk (t1 ++ t2) = hideOk t1 + hideOk t2 := by
  simp [hideOk]

theorem showOk_append (t1 t2 : List Event) : showOk (t1 ++ t2) = showOk t1 + showOk t2 := by
  simp [showOk]

theorem hideOk_api (evs : List Event) (ha : ∀ e ∈ evs, Event.isApi e = true) :
    hideOk evs = 0 := by
  unfold hideOk
  rw [List.countP_eq_zero]
  intro e he
  have h1 := ha e he
  cases e <;> simp [Event.isApi] at h1 <;> simp [isHideOk]

theorem showOk_api (evs : List Event) (ha : ∀ e ∈ evs, Event.isApi e = true) :
    showOk evs = 0 := by
  unfold showOk
  rw [List.countP_eq_zero]
  intro e he
  have h1 := ha e he
  cases e <;> simp [Event.isApi] at h1 <;> simp [isAnyShowOk]

theorem runCall_allow_passInv (h : Host) (c : Call) (w0 w : World)
    (ha : Call.allow c = true) (hp : PassInv w0 w) : PassInv w0 (runCall h c w) := by
  obtain ⟨hi, hst, evs, ht, hn⟩ := hp
  refine ⟨runCall_allow_inv h c w ha hi, ((runCall_allow_state h c w ha hi).2 hst).1, ?_⟩
  rcases runCall_allow_cases h c w ha with ⟨d, _, hs, e⟩ | ⟨d, _, hs, e⟩ | e
  · obtain ⟨l1, _, _, _, ⟨api, a1, a2⟩, _⟩ := Show_allow_live h d w hi hs
    refine ⟨evs ++ api ++ [Event.Called (Call.Show d true) true], ?_, ?_⟩
    · rw [e]; simp only []; rw [a1, ht]; simp
    · have hl : live (runCall h c w) = live w ++ [some d] := by rw [e]; exact l1
      have h1 : hideOk [Event.Called (Call.Show d true) true] = 0 := by
        simp [hideOk, isHideOk]
      have h2 : showOk [Event.Called (Call.Show d true) true] = 1 := by
        simp [showOk, isAnyShowOk]
      rw [hl, hideOk_append, hideOk_append, showOk_append, showOk_append, hideOk_api api a2,
        showOk_api api a2, h1, h2, List.length_append]
      simp only [List.length_singleton]
      omega
  · obtain ⟨l1, _, _, _, ⟨api, a1, a2⟩, _⟩ := Hide_allow_live h d w hi hs
    have hmem : some d ∈ live w := (hi.2.2.1 d).2 hs
    have hpos : 0 < (live w).length := List.length_pos_of_mem hmem
    refine ⟨evs ++ api ++ [Event.Called (Call.Hide d true) true], ?_, ?_⟩
    · rw [e]; simp only []; rw [a1, ht]; simp
    · have hl : live (runCall h c w) = (live w).erase (some d) := by rw [e]; exact l1
      have h1 : hideOk [Event.Called (Call.Hide d true) true] = 1 := by
        simp [hideOk, isHideOk]
      have h2 : showOk [Event.Called (Call.Hide d true) true] = 0 := by
        simp [showOk, isAnyShowOk]
      rw [hl, List.length_erase_of_mem hmem, hideOk_append, hideOk_append, showOk_append,
        showOk_append, hideOk_api api a2, showOk_api api a2, h1, h2]
      omega
  · refine ⟨evs ++ [Event.Called c false], ?_, ?_⟩
    · rw [e]; simp only []; rw [ht]; simp
    · have hl : live (runCall h c w) = live w := by rw [e]; rfl
      rw [hl, hideOk_append, showOk_append]
      have h1 : hideOk [Event.Called c false] = 0 := by
        cases c <;> simp [hideOk, isHideOk]
      have h2 : showOk [Event.Called c false] = 0 := by
        cases c <;> simp [showOk, isAnyShowOk]
      rw [h1, h2]; omega

theorem runCalls_allow_passInv (h : Host) (cs : List Call) (w0 w : World)
    (ha : ∀ c ∈ cs, Call.allow c = true) (hp : PassInv w0 w) :
    PassInv w0 (runCalls h cs w) := by
  induction cs generalizing w with
  | nil => exact hp
  | cons c cs ih =>
    rw [runCalls_cons]
    exact ih (runCall h c w) (fun x hx => ha x (List.mem_cons_of_mem _ hx))
      (runCall_allow_passInv h c w0 w (ha c (List.mem_cons_self _ _)) hp)

theorem PassInv_required (w0 w : World) (hp : PassInv w0 w) :
    PassInv w0 { w with state := State.StateBusyCleanupRequired } := by
  obtain ⟨⟨i1, i2, i3, _⟩, _, hx⟩ := hp
  exact ⟨⟨i1, i2, i3, fun hc => absurd rfl hc⟩, by simp, hx⟩

theorem PassInv_handler (w0 w : World) (e : Event) (hp : PassInv w0 w)
    (h1 : isHideOk e = false) (h2 : isAnyShowOk e = false) :
    PassInv w0 { w with trace := w.trace ++ [e] } := by
  obtain ⟨hi, hst, evs, ht, hn⟩ := hp
  refine ⟨hi, hst, evs ++ [e], by simp [ht], ?_⟩
  rw [hideOk_append, showOk_append]
  have e1 : hideOk [e] = 0 := by simp [hideOk, h1]
  have e2 : showOk [e] = 0 := by simp [showOk, h2]
  rw [e1, e2]
  exact hn

theorem frameLoop_passInv (h : Host) (H : Handlers) (hH : Handlers.Allowing H) (w0 : World)
    (n : Nat) : ∀ (i : Nat) (w : World), PassInv w0 w → PassInv w0 (frameLoop h H n i w) := by
  induction n with
  | zero => intro i w hp; exact hp
  | succ n ih =>
    intro i w hp
    cases hg : w.dialogs.get? i with
    | none =>
      have e : frameLoop h H (n + 1) i w = w := by simp only [frameLoop, hg]
      rw [e]; exact hp
    | some o =>
      cases o with
      | none =>
        have e : frameLoop h H (n + 1) i w =
            frameLoop h H n (i + 1) { w with state := State.StateBusyCleanupRequired } := by
          simp only [frameLoop, hg]
        rw [e]
        exact ih _ _ (PassInv_required w0 w hp)
      | some d =>
        have e : frameLoop h H (n + 1) i w =
            frameLoop h H n (i + 1) (runCalls h (H.OnDraw d w).1
              { w with trace := w.trace ++ [Event.OnDraw d (H.OnDraw d w).2] }) := by
          simp only [frameLoop, hg]
        rw [e]
        exact ih _ _ (runCalls_allow_passInv h _ w0 _ (hH.1 d w)
          (PassInv_handler w0 w _ hp rfl rfl))

theorem mouseLoop_passInv (h : Host) (H : Handlers) (hH : Handlers.Allowing H) (btn : Nat)
    (iX iY : Int) (msg : Nat) (w0 : World) (i : Nat) :
    ∀ w : World, PassInv w0 w → PassInv w0 (mouseLoop h H btn iX iY msg i w).1 := by
  induction i with
  | zero => intro w hp; exact hp
  | succ i ih =>
    intro w hp
    cases hg : w.dialogs.get? i with
    | none =>
      have e : mouseLoop h H btn iX iY msg (i + 1) w = mouseLoop h H btn iX iY msg i w := by
        simp only [mouseLoop, hg]
      rw [e]; exact ih w hp
    | some o =>
      cases o with
      | none =>
        have e : mouseLoop h H btn iX iY msg (i + 1) w =
            mouseLoop h H btn iX iY msg i
              { w with state := State.StateBusyCleanupRequired } := by
          simp only [mouseLoop, hg]
        rw [e]
        exact ih _ (PassInv_required w0 w hp)
      | some d =>
        by_cases hpt : PtInRect (w.obj d).m_position ⟨iX, iY⟩ = true
        · have hw2 := runCalls_allow_passInv h _ w0 _ (hH.2 d btn iX iY msg w)
            (PassInv_handler w0 w (Event.OnMouse d (H.OnMouse d btn iX iY msg w).2) hp rfl rfl)
          by_cases hr : (H.OnMouse d btn iX iY msg w).2 = true
          · have e : mouseLoop h H btn iX iY msg (i + 1) w =
                (runCalls h (H.OnMouse d btn iX iY msg w).1
                  { w with trace := w.trace ++
                    [Event.OnMouse d (H.OnMouse d btn iX iY msg w).2] }, true) := by
              simp only [mouseLoop, hg, hpt, hr]
              simp
            rw [e]; exact hw2
          · have hr2 := bool_false_of_not_true _ hr
            have e : mouseLoop h H btn iX iY msg (i + 1) w =
                mouseLoop h H btn iX iY msg i (runCalls h (H.OnMouse d btn iX iY msg w).1
                  { w with trace := w.trace ++
                    [Event.OnMouse d (H.OnMouse d btn iX iY msg w).2] }) := by
              simp only [mouseLoop, hg, hpt, hr2]
              simp
            rw [e]; exact ih _ hw2
        · have e : mouseLoop h H btn iX iY msg (i + 1) w = mouseLoop h H btn iX iY msg i w := by
            simp only [mouseLoop, hg, hpt]
            simp
          rw [e]; exact ih w hp

theorem PassInv_start (w : World) (hi : Inv w) (hst : w.state = State.StateIdle) :
    PassInv w { w with state := State.StateBusy } := by
  obtain ⟨i1, i2, i3, i4⟩ := hi
  obtain ⟨n1, n2⟩ := i4 (by rw [hst]; decide)
  refine ⟨⟨i1, i2, i3, fun _ => ⟨n1, n2⟩⟩, by simp, [], by simp, ?_⟩
  have : live { w with state := State.StateBusy } = w.dialogs := by
    simp [live, n2, removeNull_of_no_null _ n1]
  rw [this]; simp [hideOk, showOk]

theorem none_not_mem_removeNull (l : List (Option DialogId)) : none ∉ removeNull l := by
  intro hm
  exact ((mem_removeNull _ _).1 hm).2 rfl

/-- The function `Cleanup` at the end of a pass whose calls were all allowed. -/
theorem Cleanup_passInv (h : Host) (w0 w : World) (hp : PassInv w0 w) :
    Inv (Cleanup h w) ∧ (Cleanup h w).state = State.StateIdle ∧
    none ∉ (Cleanup h w).dialogs ∧ (Cleanup h w).pending_dialogs = [] ∧
    ∃ evs, (Cleanup h w).trace = w0.trace ++ evs ∧
      (Cleanup h w).dialogs.length + hideOk evs = w0.dialogs.length + showOk evs := by
  obtain ⟨⟨i1, i2, i3, i4⟩, hst, evs, ht, hn⟩ := hp
  obtain ⟨api, a1, a2⟩ := Cleanup_apiExt h w
  have htr : ∃ evs2, (Cleanup h w).trace = w0.trace ++ evs2 ∧ hideOk evs2 = hideOk evs ∧
      showOk evs2 = showOk evs := by
    refine ⟨evs ++ api, by rw [a1, ht, List.append_assoc], ?_, ?_⟩
    · rw [hideOk_append, hideOk_api api a2]; rfl
    · rw [showOk_append, showOk_api api a2]; rfl
  obtain ⟨evs2, t1, t2, t3⟩ := htr
  by_cases hc : w.state = State.StateBusyCleanupRequired
  · have hd : (Cleanup h w).dialogs = live w := by
      rw [Cleanup_required h w hc]; simp [live]
    have hpd : (Cleanup h w).pending_dialogs = [] := by
      rw [Cleanup_required h w hc]; simp
    have hs : (Cleanup h w).state = State.StateIdle := by
      rw [Cleanup_required h w hc]
    have ho : (Cleanup h w).obj = w.obj := by
      rw [Cleanup_required h w hc]; simp
    have hnone : none ∉ live w := by
      intro hm
      rcases List.mem_append.1 hm with hm | hm
      · exact none_not_mem_removeNull _ hm
      · exact i1 hm
    have hlive : live (Cleanup h w) = live w := by
      unfold live
      rw [hd, hpd, removeNull_of_no_null _ hnone]
      simp [live]
    refine ⟨⟨by rw [hpd]; simp, by rw [hlive]; exact i2, ?_, ?_⟩, hs, by rw [hd]; exact hnone,
      hpd, evs2, t1, ?_⟩
    · intro d; rw [hlive, ho]; exact i3 d
    · intro _; exact ⟨by rw [hd]; exact hnone, hpd⟩
    · rw [hd, t2, t3]; exact hn
  · obtain ⟨n1, n2⟩ := i4 hc
    have e := Cleanup_not_required h w hc
    have hd : (Cleanup h w).dialogs = w.dialogs := by rw [e]
    have hpd : (Cleanup h w).pending_dialogs = [] := by rw [e]; exact n2
    have hs : (Cleanup h w).state = State.StateIdle := by rw [e]
    have hlive : live (Cleanup h w) = live w := by rw [e]; rfl
    have hl : live w = w.dialogs := by simp [live, n2, removeNull_of_no_null _ n1]
    refine ⟨⟨by rw [hpd]; simp, by rw [hlive]; exact i2, ?_, ?_⟩, hs, by rw [hd]; exact n1,
      hpd, evs2, t1, ?_⟩
    · intro d; rw [hlive, e]; exact i3 d
    · intro _; exact ⟨by rw [hd]; exact n1, hpd⟩
    · rw [hd, t2, t3, ← hl]; exact hn

theorem OnFrameProc_idle (h : Host) (H : Handlers) (w : World)
    (hst : w.state = State.StateIdle) :
    OnFrameProc h H w =
      some (Cleanup h (frameLoop h H w.dialogs.length 0 { w with state := State.StateBusy }), 0) := by
  simp [OnFrameProc, hst]

/-- A complete frame pass from an idle world that satisfies the invariant. -/
theorem OnFrameProc_pass (h : Host) (H : Handlers) (hH : Handlers.Allowing H) (w : World)
    (hi : Inv w) (hst : w.state = State.StateIdle) :
    ∃ w2 r evs, OnFrameProc h H w = some (w2, r) ∧ Inv w2 ∧ w2.state = State.StateIdle ∧
      none ∉ w2.dialogs ∧ w2.pending_dialogs = [] ∧ w2.trace = w.trace ++ evs ∧
      w2.dialogs.length + hideOk evs = w.dialogs.length + showOk evs := by
  have hp := frameLoop_passInv h H hH w w.dialogs.length 0 _ (PassInv_start w hi hst)
  obtain ⟨c1, c2, c3, c4, evs, c5, c6⟩ := Cleanup_passInv h w _ hp
  exact ⟨_, _, evs, OnFrameProc_idle h H w hst, c1, c2, c3, c4, c5, c6⟩

/-- A complete mouse pass from an idle world that satisfies the invariant. -/
theorem OnMouseProc_pass (h : Host) (H : Handlers) (hH : Handlers.Allowing H) (btn : Nat)
    (iX iY : Int) (msg : Nat) (w : World) (hi : Inv w) (hst : w.state = State.StateIdle) :
    ∃ w2 r evs, OnMouseProc h H btn iX iY msg w = some (w2, r) ∧ Inv w2 ∧
      w2.state = State.StateIdle ∧
      none ∉ w2.dialogs ∧ w2.pending_dialogs = [] ∧ w2.trace = w.trace ++ evs ∧
      w2.dialogs.length + hideOk evs = w.dialogs.length + showOk evs := by
  by_cases hb : isButtonMsg msg = true
  · have hp := mouseLoop_passInv h H hH btn iX iY msg w w.dialogs.length _
      (PassInv_start w hi hst)
    obtain ⟨c1, c2, c3, c4, evs, c5, c6⟩ := Cleanup_passInv h w _ hp
    exact ⟨_, _, evs, OnMouseProc_button h H btn iX iY msg w hb hst, c1, c2, c3, c4, c5, c6⟩
  · obtain ⟨n1, n2⟩ := hi.2.2.2 (by rw [hst]; decide)
    exact ⟨w, 0, [], OnMouseProc_other h H btn iX iY msg w (bool_false_of_not_true _ hb), hi, hst,
      n1, n2, by simp, by simp [hideOk, showOk]⟩

/-- Every reachable world is idle and satisfies the registry invariant. -/
theorem Reachable_inv (h : Host) (w : World) (hr : Reachable h w) :
    Inv w ∧ w.state = State.StateIdle := by
  induction hr with
  | init objs hf => exact ⟨(Inv_init objs hf).1, rfl⟩
  | call w c _ ha ih =>
    exact ⟨runCall_allow_inv h c w ha ih.1, (runCall_allow_state h c w ha ih.1).1 ih.2⟩
  | frame w w2 H r _ hH hp ih =>
    obtain ⟨v, r2, _, e, c1, c2, _⟩ := OnFrameProc_pass h H hH w ih.1 ih.2
    rw [e] at hp
    have : v = w2 := congrArg Prod.fst (Option.some.inj hp)
    rw [← this]; exact ⟨c1, c2⟩
  | mouse w w2 H btn iX iY msg r _ hH hp ih =>
    obtain ⟨v, r2, _, e, c1, c2, _⟩ := OnMouseProc_pass h H hH btn iX iY msg w ih.1 ih.2
    rw [e] at hp
    have : v = w2 := congrArg Prod.fst (Option.some.inj hp)
    rw [← this]; exact ⟨c1, c2⟩

/-! ## C8: the main list after a pass -/

/-- C8: from every reachable idle world, a frame pass and a mouse pass whose handlers make
only allowed `Show`/`Hide` calls return; if `evs` are the events of the pass, of which
`hideOk evs` are `Hide` calls that returned `TRUE` and `showOk evs` are `Show` calls that
returned `TRUE`, the main list after the pass has length `L - hideOk evs + showOk evs`, where
`L` is its length before, it has no null entry, and the pending list is empty. -/
theorem pass_list_length (h : Host) (H : Handlers) (w : World) (hr : Reachable h w)
    (hH : Handlers.Allowing H) :
    (∃ w2 r evs, OnFrameProc h H w = some (w2, r) ∧ w2.trace = w.trace ++ evs ∧
      (w2.dialogs.length : Int) = (w.dialogs.length : Int) - hideOk evs + showOk evs ∧
      none ∉ w2.dialogs ∧ w2.pending_dialogs = []) ∧
    (∀ (btn : Nat) (iX iY : Int) (msg : Nat),
      ∃ w2 r evs, OnMouseProc h H btn iX iY msg w = some (w2, r) ∧ w2.trace = w.trace ++ evs ∧
        (w2.dialogs.length : Int) = (w.dialogs.length : Int) - hideOk evs + showOk evs ∧
        none ∉ w2.dialogs ∧ w2.pending_dialogs = []) := by
  obtain ⟨hi, hst⟩ := Reachable_inv h w hr
  constructor
  · obtain ⟨w2, r, evs, e, _, _, c3, c4, c5, c6⟩ := OnFrameProc_pass h H hH w hi hst
    exact ⟨w2, r, evs, e, c5, by omega, c3, c4⟩
  · intro btn iX iY msg
    obtain ⟨w2, r, evs, e, _, _, c3, c4, c5, c6⟩ := OnMouseProc_pass h H hH btn iX iY msg w hi hst
    exact ⟨w2, r, evs, e, c5, by omega, c3, c4⟩

theorem Reachable_runCalls (h : Host) (cs : List Call) (w : World) (hr : Reachable h w)
    (ha : ∀ c ∈ cs, Call.allow c = true) : Reachable h (runCalls h cs w) := by
  induction cs generalizing w with
  | nil => exact hr
  | cons c cs ih =>
    rw [runCalls_cons]
    exact ih _ (Reachable.call w c hr (ha c (List.mem_cons_self _ _)))
      (fun x hx => ha x (List.mem_cons_of_mem _ hx))

theorem sampleThree_reachable : Reachable Host.sample sampleThree :=
  Reachable_runCalls Host.sample _ _ (Reachable.init sampleObjs (fun _ => rfl)) (by decide)

theorem swap_allowing : Handlers.Allowing Handlers.swap := by
  refine ⟨fun d _ c hc => ?_, fun _ _ _ _ _ _ c hc => by simp [Handlers.swap] at hc⟩
  by_cases hd : d = 0
  · simp [Handlers.swap, hd] at hc
    rcases hc with hc | hc <;> rw [hc] <;> rfl
  · simp [Handlers.swap, hd] at hc

theorem pass_list_length_witness :
    Reachable Host.sample sampleThree ∧ Handlers.Allowing Handlers.swap ∧
    (OnFrameProc Host.sample Handlers.swap sampleThree).map
      (fun x => (x.1.dialogs, hideOk (x.1.trace.drop sampleThree.trace.length),
        showOk (x.1.trace.drop sampleThree.trace.length))) =
      some ([some 0, some 2, some 3], 1, 1) ∧
    ((∃ w2 r evs, OnFrameProc Host.sample Handlers.swap sampleThree = some (w2, r) ∧
      w2.trace = sampleThree.trace ++ evs ∧
      (w2.dialogs.length : Int) = (sampleThree.dialogs.length : Int) - hideOk evs + showOk evs ∧
      none ∉ w2.dialogs ∧ w2.pending_dialogs = []) ∧
    (∀ (btn : Nat) (iX iY : Int) (msg : Nat),
      ∃ w2 r evs, OnMouseProc Host.sample Handlers.swap btn iX iY msg sampleThree =
          some (w2, r) ∧
        w2.trace = sampleThree.trace ++ evs ∧
        (w2.dialogs.length : Int) =
          (sampleThree.dialogs.length : Int) - hideOk evs + showOk evs ∧
        none ∉ w2.dialogs ∧ w2.pending_dialogs = [])) :=
  ⟨sampleThree_reachable, swap_allowing, by decide,
    pass_list_length Host.sample Handlers.swap sampleThree sampleThree_reachable swap_allowing⟩


/-! ## C14: what `Cleanup` does -/

theorem removeNull_eq_filter (l : List (Option DialogId)) :
    removeNull l = l.filter (fun x => x.isSome) := by
  unfold removeNull
  congr 1
  funext x
  cases x <;> simp

/-- C14: when the gate is `StateBusyCleanupRequired`, `Cleanup` replaces the main list by its
non-null entries (in their order) followed by the pending list (in its order), empties the
pending list, runs `MaintainS4Api` on the result and sets the gate to `StateIdle`; when the
gate is `StateBusy` or `StateIdle` it returns the same world with the gate set to `StateIdle`,
so neither list, no hook and no counter changes and no host call is made. -/
theorem Cleanup_postcondition (h : Host) (w : World) :
    (w.state = State.StateBusyCleanupRequired →
      Cleanup h w =
        { MaintainS4Api h
            { w with dialogs := w.dialogs.filter (fun x => x.isSome) ++ w.pending_dialogs,
                     pending_dialogs := [] }
          with state := State.StateIdle } ∧
      (Cleanup h w).dialogs = w.dialogs.filter (fun x => x.isSome) ++ w.pending_dialogs ∧
      (Cleanup h w).pending_dialogs = [] ∧
      (Cleanup h w).state = State.StateIdle) ∧
    (w.state ≠ State.StateBusyCleanupRequired →
      Cleanup h w = { w with state := State.StateIdle }) := by
  refine ⟨fun hc => ?_, fun hc => Cleanup_not_required h w hc⟩
  have e := Cleanup_required h w hc
  rw [removeNull_eq_filter] at e
  refine ⟨e, ?_, ?_, ?_⟩
  · rw [e]; simp
  · rw [e]; simp
  · rw [e]

theorem Cleanup_postcondition_witness :
    sampleDirty.state = State.StateBusyCleanupRequired ∧
    sampleDirty.dialogs = [some 0, none, some 2] ∧
    sampleDirty.pending_dialogs = [some 3] ∧
    (Cleanup Host.sample sampleDirty).dialogs = [some 0, some 2, some 3] ∧
    ((sampleDirty.state = State.StateBusyCleanupRequired →
      Cleanup Host.sample sampleDirty =
        { MaintainS4Api Host.sample
            { sampleDirty with
                dialogs := sampleDirty.dialogs.filter (fun x => x.isSome) ++
                  sampleDirty.pending_dialogs,
                pending_dialogs := [] }
          with state := State.StateIdle } ∧
      (Cleanup Host.sample sampleDirty).dialogs =
        sampleDirty.dialogs.filter (fun x => x.isSome) ++ sampleDirty.pending_dialogs ∧
      (Cleanup Host.sample sampleDirty).pending_dialogs = [] ∧
      (Cleanup Host.sample sampleDirty).state = State.StateIdle) ∧
    (sampleDirty.state ≠ State.StateBusyCleanupRequired →
      Cleanup Host.sample sampleDirty = { sampleDirty with state := State.StateIdle })) :=
  ⟨by decide, by decide, by decide, by decide, Cleanup_postcondition Host.sample sampleDirty⟩

/-! ## C19: what `MaintainS4Api` establishes -/

/-- The host calls made by `MaintainS4Api` when a handle exists on entry, in order. -/
theorem MaintainS4Api_trace_handle (h : Host) (w : World) (ha : w.s4api ≠ 0) :
    (MaintainS4Api h w).trace =
      w.trace ++
      (if w.hFramehook ≠ 0 ∧ w.countFramehook = 0 then [Event.RemoveListener w.hFramehook]
       else []) ++
      (if w.hMousehook ≠ 0 ∧ w.countMousehook = 0 then [Event.RemoveListener w.hMousehook]
       else []) ++
      (if w.dialogs = [] then [Event.Release w.s4api]
       else
        (if w.hFramehook = 0 ∧ 0 < w.countFramehook then [Event.FrameAddListener] else []) ++
        (if w.hMousehook = 0 ∧ 0 < w.countMousehook then [Event.MouseAddListener] else [])) := by
  rcases w with ⟨ds, ps, api, hF, hM, st, cF, cM, ob, tr⟩
  simp only at ha
  by_cases h2 : hF = 0 <;> by_cases h3 : hM = 0 <;>
  by_cases h4 : cF = 0 <;> by_cases h5 : cM = 0 <;> by_cases h6 : ds = [] <;>
  simp [MaintainS4Api, removeFrameListener, removeMouseListener, releaseApi, acquireApi,
    addFrameListener, addMouseListener, ha, h2, h3, h4, h5, h6, Nat.pos_iff_ne_zero]

/-- C19: when `S4ApiCreate` and both `AddListener` calls return non-null handles, then after
`MaintainS4Api`, for every world it is run in: the handle exists if and only if the main list
is not empty; if the handle exists, the draw hook is installed if and only if the draw counter
is positive and the mouse hook if and only if the mouse counter is positive; and when a handle
existed on entry, the host calls are, in this order, `RemoveListener` for each installed hook
whose counter is 0 (draw first), then `Release` if the list is empty (otherwise the
`AddListener` calls), so a hook whose counter is 0 is uninstalled before the handle is
released. -/
theorem MaintainS4Api_postcondition (h : Host) (w : World)
    (hc : ∀ t, h.S4ApiCreate t ≠ 0) (hf : ∀ t, h.FrameAddListener t ≠ 0)
    (hm : ∀ t, h.MouseAddListener t ≠ 0) :
    ((MaintainS4Api h w).s4api ≠ 0 ↔ (MaintainS4Api h w).dialogs ≠ []) ∧
    (MaintainS4Api h w).dialogs = w.dialogs ∧
    ((MaintainS4Api h w).s4api ≠ 0 →
      ((MaintainS4Api h w).hFramehook ≠ 0 ↔ 0 < (MaintainS4Api h w).countFramehook) ∧
      ((MaintainS4Api h w).hMousehook ≠ 0 ↔ 0 < (MaintainS4Api h w).countMousehook)) ∧
    (MaintainS4Api h w).countFramehook = w.countFramehook ∧
    (MaintainS4Api h w).countMousehook = w.countMousehook ∧
    (w.s4api ≠ 0 →
      (MaintainS4Api h w).trace =
        w.trace ++
        (if w.hFramehook ≠ 0 ∧ w.countFramehook = 0 then [Event.RemoveListener w.hFramehook]
         else []) ++
        (if w.hMousehook ≠ 0 ∧ w.countMousehook = 0 then [Event.RemoveListener w.hMousehook]
         else []) ++
        (if w.dialogs = [] then [Event.Release w.s4api]
         else
          (if w.hFramehook = 0 ∧ 0 < w.countFramehook then [Event.FrameAddListener] else []) ++
          (if w.hMousehook = 0 ∧ 0 < w.countMousehook then [Event.MouseAddListener]
           else []))) := by
  obtain ⟨s1, s2⟩ := MaintainS4Api_settled h w hc hf hm
  refine ⟨⟨fun hne => (s2 hne).1, fun hd hz => hd (s1 hz)⟩, MaintainS4Api_dialogs h w,
    fun hne => (s2 hne).2, MaintainS4Api_countFramehook h w, MaintainS4Api_countMousehook h w,
    fun ha => MaintainS4Api_trace_handle h w ha⟩

theorem MaintainS4Api_postcondition_witness :
    (∀ t, Host.sample.S4ApiCreate t ≠ 0) ∧ (∀ t, Host.sample.FrameAddListener t ≠ 0) ∧
    (∀ t, Host.sample.MouseAddListener t ≠ 0) ∧
    (MaintainS4Api Host.sample { sampleShown with dialogs := [], countFramehook := 0 }).trace =
      sampleShown.trace ++ [Event.RemoveListener 1, Event.Release 1] ∧
    (((MaintainS4Api Host.sample sampleShown).s4api ≠ 0 ↔
        (MaintainS4Api Host.sample sampleShown).dialogs ≠ []) ∧
    (MaintainS4Api Host.sample sampleShown).dialogs = sampleShown.dialogs ∧
    ((MaintainS4Api Host.sample sampleShown).s4api ≠ 0 →
      ((MaintainS4Api Host.sample sampleShown).hFramehook ≠ 0 ↔
        0 < (MaintainS4Api Host.sample sampleShown).countFramehook) ∧
      ((MaintainS4Api Host.sample sampleShown).hMousehook ≠ 0 ↔
        0 < (MaintainS4Api Host.sample sampleShown).countMousehook)) ∧
    (MaintainS4Api Host.sample sampleShown).countFramehook = sampleShown.countFramehook ∧
    (MaintainS4Api Host.sample sampleShown).countMousehook = sampleShown.countMousehook ∧
    (sampleShown.s4api ≠ 0 →
      (MaintainS4Api Host.sample sampleShown).trace =
        sampleShown.trace ++
        (if sampleShown.hFramehook ≠ 0 ∧ sampleShown.countFramehook = 0 then
          [Event.RemoveListener sampleShown.hFramehook] else []) ++
        (if sampleShown.hMousehook ≠ 0 ∧ sampleShown.countMousehook = 0 then
          [Event.RemoveListener sampleShown.hMousehook] else []) ++
        (if sampleShown.dialogs = [] then [Event.Release sampleShown.s4api]
         else
          (if sampleShown.hFramehook = 0 ∧ 0 < sampleShown.countFramehook then
            [Event.FrameAddListener] else []) ++
          (if sampleShown.hMousehook = 0 ∧ 0 < sampleShown.countMousehook then
            [Event.MouseAddListener] else [])))) :=
  ⟨by simp [Host.sample], by simp [Host.sample], by simp [Host.sample], by decide,
    MaintainS4Api_postcondition Host.sample sampleShown (by simp [Host.sample])
      (by simp [Host.sample]) (by simp [Host.sample])⟩


/-! ## C20: `UpdatePositionWithOffsetsFlags` translates the rectangle -/

theorem wrap32_sub_wrap32 (a b x : Int) :
    wrap32 (wrap32 (a + x) - wrap32 (b + x)) = wrap32 (a - b) := by
  unfold wrap32; omega

theorem wrap32_of_In32 (x : Int) (hx : In32 x) : wrap32 x = x := by
  unfold In32 at hx
  unfold wrap32; omega

/-- C20: for every source rectangle, flag word, client rectangle (or none) and pillarbox width
(or none), the position that `UpdatePositionWithOffsetsFlags` stores is the source moved by one
x offset (added to `left` and `right`) and one y offset (added to `top` and `bottom`) in 32-bit
arithmetic, so `right - left` and `bottom - top` are those of the source in 32-bit arithmetic;
the other members of the dialog are unchanged. If none of the eight anchor and align flags is
set, the no-pillarbox flag is set and the source is a rectangle of 32-bit values, the position
is the source. -/
theorem UpdatePosition_translation (F : UiFlags) (PillarboxWidth : Option Int) (c : CDialog)
    (source : RECT) (clientRect : Option RECT) :
    (∃ xo yo : Int,
      (UpdatePositionWithOffsetsFlags F PillarboxWidth c source clientRect).m_position.left =
        wrap32 (source.left + xo) ∧
      (UpdatePositionWithOffsetsFlags F PillarboxWidth c source clientRect).m_position.right =
        wrap32 (source.right + xo) ∧
      (UpdatePositionWithOffsetsFlags F PillarboxWidth c source clientRect).m_position.top =
        wrap32 (source.top + yo) ∧
      (UpdatePositionWithOffsetsFlags F PillarboxWidth c source clientRect).m_position.bottom =
        wrap32 (source.bottom + yo)) ∧
    wrap32 ((UpdatePositionWithOffsetsFlags F PillarboxWidth c source clientRect).m_position.right -
        (UpdatePositionWithOffsetsFlags F PillarboxWidth c source clientRect).m_position.left) =
      wrap32 (source.right - source.left) ∧
    wrap32 ((UpdatePositionWithOffsetsFlags F PillarboxWidth c source clientRect).m_position.bottom -
        (UpdatePositionWithOffsetsFlags F PillarboxWidth c source clientRect).m_position.top) =
      wrap32 (source.bottom - source.top) ∧
    (UpdatePositionWithOffsetsFlags F PillarboxWidth c source clientRect).m_flags = c.m_flags ∧
    (UpdatePositionWithOffsetsFlags F PillarboxWidth c source clientRect).m_isShown =
      c.m_isShown ∧
    (UpdatePositionWithOffsetsFlags F PillarboxWidth c source clientRect).DialogFeatures =
      c.DialogFeatures ∧
    (c.m_flags &&& F.S4_CUSTOMUIFLAGS_ANCHOR_CENTER = 0 →
      c.m_flags &&& F.S4_CUSTOMUIFLAGS_ANCHOR_RIGHT = 0 →
      c.m_flags &&& F.S4_CUSTOMUIFLAGS_ANCHOR_MIDDLE = 0 →
      c.m_flags &&& F.S4_CUSTOMUIFLAGS_ANCHOR_BOTTOM = 0 →
      c.m_flags &&& F.S4_CUSTOMUIFLAGS_ALIGN_CENTER = 0 →
      c.m_flags &&& F.S4_CUSTOMUIFLAGS_ALIGN_RIGHT = 0 →
      c.m_flags &&& F.S4_CUSTOMUIFLAGS_ALIGN_MIDDLE = 0 →
      c.m_flags &&& F.S4_CUSTOMUIFLAGS_ALIGN_BOTTOM = 0 →
      c.m_flags &&& F.S4_CUSTOMUIFLAGS_NO_PILLARBOX ≠ 0 →
      In32 source.left → In32 source.top → In32 source.right → In32 source.bottom →
      (UpdatePositionWithOffsetsFlags F PillarboxWidth c source clientRect).m_position =
        source) := by
  refine ⟨⟨_, _, rfl, rfl, rfl, rfl⟩, ?_, ?_, rfl, rfl, rfl, ?_⟩
  · exact wrap32_sub_wrap32 _ _ _
  · exact wrap32_sub_wrap32 _ _ _
  · intro a1 a2 a3 a4 a5 a6 a7 a8 np i1 i2 i3 i4
    have z : wrap32 0 = 0 := by decide
    simp only [UpdatePositionWithOffsetsFlags, a1, a2, a3, a4, a5, a6, a7, a8, np, ne_eq,
      not_true_eq_false, if_false, z, Int.add_zero]
    rw [wrap32_of_In32 _ i1, wrap32_of_In32 _ i2, wrap32_of_In32 _ i3, wrap32_of_In32 _ i4]

theorem UpdatePosition_translation_witness :
    (UpdatePositionWithOffsetsFlags UiFlags.sample (some 40) (sampleDialog (2 + 64))
      ⟨10, 20, 110, 70⟩ (some ⟨0, 0, 1024, 768⟩)).m_position = ⟨944, 20, 1044, 70⟩ ∧
    (UpdatePositionWithOffsetsFlags UiFlags.sample (some 40) (sampleDialog (8 + 32))
      ⟨10, 20, 110, 71⟩ (some ⟨0, 0, 1024, 768⟩)).m_position = ⟨522, -5, 622, 46⟩ ∧
    (UpdatePositionWithOffsetsFlags UiFlags.sample (some 40) (sampleDialog 0)
      ⟨10, 20, 110, 70⟩ none).m_position = ⟨50, 20, 150, 70⟩ ∧
    (UpdatePositionWithOffsetsFlags UiFlags.sample (some 40) (sampleDialog 1)
      ⟨10, 20, 110, 70⟩ (some ⟨0, 0, 1024, 768⟩)).m_position = ⟨10, 20, 110, 70⟩ ∧
    ((sampleDialog 1).m_flags &&& UiFlags.sample.S4_CUSTOMUIFLAGS_NO_PILLARBOX ≠ 0 ∧
      In32 10 ∧ In32 20 ∧ In32 110 ∧ In32 70) ∧
    ((∃ xo yo : Int,
      (UpdatePositionWithOffsetsFlags UiFlags.sample (some 40) (sampleDialog 1)
        ⟨10, 20, 110, 70⟩ (some ⟨0, 0, 1024, 768⟩)).m_position.left =
        wrap32 ((⟨10, 20, 110, 70⟩ : RECT).left + xo) ∧
      (UpdatePositionWithOffsetsFlags UiFlags.sample (some 40) (sampleDialog 1)
        ⟨10, 20, 110, 70⟩ (some ⟨0, 0, 1024, 768⟩)).m_position.right =
        wrap32 ((⟨10, 20, 110, 70⟩ : RECT).right + xo) ∧
      (UpdatePositionWithOffsetsFlags UiFlags.sample (some 40) (sampleDialog 1)
        ⟨10, 20, 110, 70⟩ (some ⟨0, 0, 1024, 768⟩)).m_position.top =
        wrap32 ((⟨10, 20, 110, 70⟩ : RECT).top + yo) ∧
      (UpdatePositionWithOffsetsFlags UiFlags.sample (some 40) (sampleDialog 1)
        ⟨10, 20, 110, 70⟩ (some ⟨0, 0, 1024, 768⟩)).m_position.bottom =
        wrap32 ((⟨10, 20, 110, 70⟩ : RECT).bottom + yo)) ∧
    wrap32 ((UpdatePositionWithOffsetsFlags UiFlags.sample (some 40) (sampleDialog 1)
        ⟨10, 20, 110, 70⟩ (some ⟨0, 0, 1024, 768⟩)).m_position.right -
        (UpdatePositionWithOffsetsFlags UiFlags.sample (some 40) (sampleDialog 1)
        ⟨10, 20, 110, 70⟩ (some ⟨0, 0, 1024, 768⟩)).m_position.left) =
      wrap32 ((⟨10, 20, 110, 70⟩ : RECT).right - (⟨10, 20, 110, 70⟩ : RECT).left) ∧
    wrap32 ((UpdatePositionWithOffsetsFlags UiFlags.sample (some 40) (sampleDialog 1)
        ⟨10, 20, 110, 70⟩ (some ⟨0, 0, 1024, 768⟩)).m_position.bottom -
        (UpdatePositionWithOffsetsFlags UiFlags.sample (some 40) (sampleDialog 1)
        ⟨10, 20, 110, 70⟩ (some ⟨0, 0, 1024, 768⟩)).m_position.top) =
      wrap32 ((⟨10, 20, 110, 70⟩ : RECT).bottom - (⟨10, 20, 110, 70⟩ : RECT).top) ∧
    (UpdatePositionWithOffsetsFlags UiFlags.sample (some 40) (sampleDialog 1)
        ⟨10, 20, 110, 70⟩ (some ⟨0, 0, 1024, 768⟩)).m_position = ⟨10, 20, 110, 70⟩) := by
  have t := UpdatePosition_translation UiFlags.sample (some 40) (sampleDialog 1)
    ⟨10, 20, 110, 70⟩ (some ⟨0, 0, 1024, 768⟩)
  exact ⟨by decide, by decide, by decide, by decide,
    ⟨by decide, by unfold In32; decide, by unfold In32; decide, by unfold In32; decide,
      by unfold In32; decide⟩, t.1, t.2.1, t.2.2.1,
    t.2.2.2.2.2.2 (by decide) (by decide) (by decide) (by decide) (by decide) (by decide)
      (by decide) (by decide) (by decide) (by unfold In32; decide) (by unfold In32; decide)
      (by unfold In32; decide) (by unfold In32; decide)⟩


/-! ## C12: order and extent of the frame dispatch -/

theorem drop_eq_cons_of_get {α : Type} (l : List α) (i : Nat) (x : α)
    (hx : l.get? i = some x) : l.drop i = x :: l.drop (i + 1) := by
  rw [List.get?_eq_getElem?] at hx
  obtain ⟨hi, he⟩ := List.getElem?_eq_some_iff.1 hx
  rw [List.drop_eq_getElem_cons hi, he]

theorem Cleanup_state (h : Host) (w : World) : (Cleanup h w).state = State.StateIdle := by
  by_cases hc : w.state = State.StateBusyCleanupRequired
  · rw [Cleanup_required h w hc]
  · rw [Cleanup_not_required h w hc]

/-- The entries that are still non-null at the end of the forward loop were all invoked. -/
theorem frameLoop_lower (h : Host) (H : Handlers) (n : Nat) :
    ∀ (i : Nat) (w : World), w.state ≠ State.StateIdle →
    ∃ vis : List (DialogId × Bool),
      drawCalls (frameLoop h H n i w).trace = drawCalls w.trace ++ vis ∧
      ((((frameLoop h H n i w).dialogs.drop i).take n).filterMap id).Sublist
        (vis.map Prod.fst) := by
  induction n with
  | zero =>
    intro i w _
    exact ⟨[], by simp [frameLoop], by simp⟩
  | succ n ih =>
    intro i w hst
    cases hg : w.dialogs.get? i with
    | none =>
      have e : frameLoop h H (n + 1) i w = w := by simp only [frameLoop, hg]
      rw [e]
      have hlen : w.dialogs.length ≤ i := by
        rw [List.get?_eq_getElem?] at hg
        exact List.getElem?_eq_none_iff.1 hg
      exact ⟨[], by simp, by simp [List.drop_eq_nil_of_le hlen]⟩
    | some o =>
      cases o with
      | none =>
        have e : frameLoop h H (n + 1) i w =
            frameLoop h H n (i + 1) { w with state := State.StateBusyCleanupRequired } := by
          simp only [frameLoop, hg]
        rw [e]
        have hf2 : Frozen { w with state := State.StateBusyCleanupRequired }
            { w with state := State.StateBusyCleanupRequired } := Frozen_refl _ (by simp)
        obtain ⟨_, _, _, _, hfin⟩ := frameLoop_spec h H _ n (i + 1) _ hf2
        obtain ⟨vis, v1, v2⟩ := ih (i + 1) { w with state := State.StateBusyCleanupRequired }
          (by simp)
        have hslot : (frameLoop h H n (i + 1)
            { w with state := State.StateBusyCleanupRequired }).dialogs.get? i = some none := by
          rcases hfin.2.2.1 i with hj | hj
          · rw [hj]; exact hg
          · exact hj
        refine ⟨vis, v1, ?_⟩
        rw [drop_eq_cons_of_get _ i none hslot, List.take_succ_cons]
        simpa using v2
      | some d =>
        have e : frameLoop h H (n + 1) i w =
            frameLoop h H n (i + 1) (runCalls h (H.OnDraw d w).1
              { w with trace := w.trace ++ [Event.OnDraw d (H.OnDraw d w).2] }) := by
          simp only [frameLoop, hg]
        rw [e]
        have hfr : Frozen w (runCalls h (H.OnDraw d w).1
            { w with trace := w.trace ++ [Event.OnDraw d (H.OnDraw d w).2] }) :=
          runCalls_frozen h _ _ hst
        obtain ⟨_, _, _, _, hfin⟩ := frameLoop_spec h H w n (i + 1) _ hfr
        obtain ⟨vis, v1, v2⟩ := ih (i + 1) _ hfr.1
        refine ⟨(d, (H.OnDraw d w).2) :: vis, ?_, ?_⟩
        · rw [v1, (runCalls_handlerCalls h _ _).2]
          simp [drawCalls]
        · rcases hfin.2.2.1 i with hj | hj
          · rw [hg] at hj
            rw [drop_eq_cons_of_get _ i (some d) hj, List.take_succ_cons]
            simpa using v2
          · rw [drop_eq_cons_of_get _ i none hj, List.take_succ_cons]
            simpa using v2.trans (List.sublist_cons_self _ _)

theorem frameLoop_nocalls (h : Host) (H : Handlers) (hH : ∀ d v, (H.OnDraw d v).1 = [])
    (n : Nat) : ∀ (i : Nat) (w : World), (frameLoop h H n i w).dialogs = w.dialogs := by
  induction n with
  | zero => intro i w; rfl
  | succ n ih =>
    intro i w
    cases hg : w.dialogs.get? i with
    | none => simp only [frameLoop, hg]
    | some o =>
      cases o with
      | none =>
        simp only [frameLoop, hg]
        rw [ih]
      | some d =>
        simp only [frameLoop, hg]
        rw [ih, hH d w]
        rfl

theorem frameLoop_past_end (h : Host) (H : Handlers) (b i : Nat) (w : World)
    (hg : w.dialogs.get? i = none) (j : Nat) (hj : i ≤ j) : frameLoop h H b j w = w := by
  have hg2 : w.dialogs.get? j = none := by
    rw [List.get?_eq_getElem?] at hg ⊢
    rw [List.getElem?_eq_none_iff] at hg ⊢
    omega
  cases b with
  | zero => rfl
  | succ b => simp only [frameLoop, hg2]

theorem frameLoop_split (h : Host) (H : Handlers) (a b : Nat) :
    ∀ (i : Nat) (w : World),
      frameLoop h H (a + b) i w = frameLoop h H b (i + a) (frameLoop h H a i w) := by
  induction a with
  | zero =>
    intro i w
    rw [Nat.zero_add]
    rfl
  | succ a ih =>
    intro i w
    have ea : a + 1 + b = (a + b) + 1 := by omega
    have ei : i + (a + 1) = i + 1 + a := by omega
    rw [ea, ei]
    cases hg : w.dialogs.get? i with
    | none =>
      have e1 : frameLoop h H (a + b + 1) i w = w := by simp only [frameLoop, hg]
      have e2 : frameLoop h H (a + 1) i w = w := by simp only [frameLoop, hg]
      rw [e1, e2, frameLoop_past_end h H b i w hg (i + 1 + a) (by omega)]
    | some o =>
      cases o with
      | none =>
        have e1 : frameLoop h H (a + b + 1) i w =
            frameLoop h H (a + b) (i + 1)
              { w with state := State.StateBusyCleanupRequired } := by
          simp only [frameLoop, hg]
        have e2 : frameLoop h H (a + 1) i w =
            frameLoop h H a (i + 1) { w with state := State.StateBusyCleanupRequired } := by
          simp only [frameLoop, hg]
        rw [e1, e2, ih]
      | some d =>
        have e1 : frameLoop h H (a + b + 1) i w =
            frameLoop h H (a + b) (i + 1) (runCalls h (H.OnDraw d w).1
              { w with trace := w.trace ++ [Event.OnDraw d (H.OnDraw d w).2] }) := by
          simp only [frameLoop, hg]
        have e2 : frameLoop h H (a + 1) i w =
            frameLoop h H a (i + 1) (runCalls h (H.OnDraw d w).1
              { w with trace := w.trace ++ [Event.OnDraw d (H.OnDraw d w).2] }) := by
          simp only [frameLoop, hg]
        rw [e1, e2, ih]

theorem frameLoop_one (h : Host) (H : Handlers) (k : Nat) (w0 : World) :
    drawCalls (frameLoop h H 1 k (frameLoop h H k 0 w0)).trace =
      drawCalls (frameLoop h H k 0 w0).trace ++ drawAt h H w0 k := by
  unfold drawAt
  generalize frameLoop h H k 0 w0 = wk
  cases hg : wk.dialogs.get? k with
  | none =>
    simp only [frameLoop, hg]
    simp
  | some o =>
    cases o with
    | none =>
      simp only [frameLoop, hg]
      simp
    | some d =>
      simp only [frameLoop, hg]
      rw [(runCalls_handlerCalls h _ _).2, drawCalls_append]
      simp [drawCalls]

theorem frameLoop_draws (h : Host) (H : Handlers) (w0 : World) (n : Nat) :
    drawCalls (frameLoop h H n 0 w0).trace =
      drawCalls w0.trace ++ (List.range n).flatMap (drawAt h H w0) := by
  induction n with
  | zero => simp [frameLoop]
  | succ n ih =>
    have e := frameLoop_split h H n 1 0 w0
    rw [Nat.zero_add] at e
    rw [e, frameLoop_one, ih, List.range_succ, List.flatMap_append]
    simp

/-- C12: in an idle world `OnFrameProc` returns `0` and leaves the gate `StateIdle`
(`Cleanup` has run), whatever the handlers do and return. The `OnDraw` invocations `vis` it
adds to the trace are taken in forward order from the non-null entries of the main list, each
slot at most once; every entry that is still non-null at the end of the loop (so was non-null
when the iteration reached it) has been invoked; and if no handler calls `Show` or `Hide`, the
invocations are exactly the non-null entries of the main list, first entry first. Exactly:
`vis` lists, for the slots `0, 1, ...` of the main list in this order, the entry found in the
slot when the iteration reaches it (`drawAt`), once, if it is not null. No `OnMouse` is
invoked. -/
theorem OnFrameProc_dispatch (h : Host) (H : Handlers) (w : World)
    (hst : w.state = State.StateIdle) :
    ∃ w2 vis, OnFrameProc h H w = some (w2, 0) ∧ w2.state = State.StateIdle ∧
      drawCalls w2.trace = drawCalls w.trace ++ vis ∧
      mouseCalls w2.trace = mouseCalls w.trace ∧
      (vis.map Prod.fst).Sublist (w.dialogs.filterMap id) ∧
      ((frameLoop h H w.dialogs.length 0
          { w with state := State.StateBusy }).dialogs.filterMap id).Sublist
        (vis.map Prod.fst) ∧
      ((∀ d v, (H.OnDraw d v).1 = []) → vis.map Prod.fst = w.dialogs.filterMap id) ∧
      vis = (List.range w.dialogs.length).flatMap
        (drawAt h H { w with state := State.StateBusy }) := by
  have hf : Frozen { w with state := State.StateBusy } { w with state := State.StateBusy } :=
    Frozen_refl _ (by simp)
  obtain ⟨vis, v1, v2, v3, v4⟩ :=
    frameLoop_spec h H { w with state := State.StateBusy } w.dialogs.length 0 _ hf
  obtain ⟨vis2, u1, u2⟩ :=
    frameLoop_lower h H w.dialogs.length 0 { w with state := State.StateBusy } (by simp)
  have hv : vis2 = vis := by
    rw [v1] at u1
    exact (List.append_cancel_left u1).symm
  subst hv
  have up : (vis2.map Prod.fst).Sublist (w.dialogs.filterMap id) := by
    simpa using v2
  have lo : ((frameLoop h H w.dialogs.length 0
      { w with state := State.StateBusy }).dialogs.filterMap id).Sublist
      (vis2.map Prod.fst) := by
    have hl : (frameLoop h H w.dialogs.length 0
        { w with state := State.StateBusy }).dialogs.length = w.dialogs.length := v4.2.1
    have := u2
    rw [List.drop_zero, List.take_of_length_le (le_of_eq hl)] at this
    exact this
  have hx : vis2 = (List.range w.dialogs.length).flatMap
      (drawAt h H { w with state := State.StateBusy }) := by
    have e := frameLoop_draws h H { w with state := State.StateBusy } w.dialogs.length
    rw [v1] at e
    exact List.append_cancel_left e
  refine ⟨_, vis2, OnFrameProc_idle h H w hst, Cleanup_state h _, ?_, ?_, up, lo, ?_, hx⟩
  · rw [(Cleanup_handlerCalls h _).2, v1]
  · rw [(Cleanup_handlerCalls h _).1, v3]
  · intro hH
    have hd := frameLoop_nocalls h H hH w.dialogs.length 0 { w with state := State.StateBusy }
    rw [hd] at lo
    exact List.Sublist.antisymm up lo

theorem OnFrameProc_dispatch_witness :
    sampleThree.state = State.StateIdle ∧
    (OnFrameProc Host.sample Handlers.sample sampleThree).map
      (fun x => (drawCalls x.1.trace, x.2)) =
      some ([(0, false), (1, false), (2, false)], 0) ∧
    (OnFrameProc Host.sample Handlers.hideNext sampleThree).map
      (fun x => (drawCalls x.1.trace, x.1.dialogs, x.2)) =
      some ([(0, true), (2, true)], [some 0, some 2], 0) ∧
    (List.range sampleThree.dialogs.length).flatMap
        (drawAt Host.sample Handlers.hideNext { sampleThree with state := State.StateBusy }) =
      [(0, true), (2, true)] ∧
    ∃ w2 vis, OnFrameProc Host.sample Handlers.hideNext sampleThree = some (w2, 0) ∧
      w2.state = State.StateIdle ∧
      drawCalls w2.trace = drawCalls sampleThree.trace ++ vis ∧
      mouseCalls w2.trace = mouseCalls sampleThree.trace ∧
      (vis.map Prod.fst).Sublist (sampleThree.dialogs.filterMap id) ∧
      ((frameLoop Host.sample Handlers.hideNext sampleThree.dialogs.length 0
          { sampleThree with state := State.StateBusy }).dialogs.filterMap id).Sublist
        (vis.map Prod.fst) ∧
      ((∀ d v, (Handlers.hideNext.OnDraw d v).1 = []) →
        vis.map Prod.fst = sampleThree.dialogs.filterMap id) ∧
      vis = (List.range sampleThree.dialogs.length).flatMap
        (drawAt Host.sample Handlers.hideNext { sampleThree with state := State.StateBusy }) :=
  ⟨by decide, by decide, by decide, by decide,
    OnFrameProc_dispatch Host.sample Handlers.hideNext sampleThree (by decide)⟩


/-! ## C16: `Show` while a pass is running -/

/-- C16 as stated fails. With allowing handlers only: with the main list `0, 1, 2`, an `OnDraw`
of `1` that hides and then shows `0` makes `0` a dialog shown during the pass whose `OnDraw`
was invoked in that pass (before it was hidden). With another thread: in a frame pass over
`sampleBusy` the loop copies the pointer of dialog `1` and releases the lock, another thread
hides dialog `1` (at that moment, `sampleGapMoment`, it is not shown and not in the main list)
and shows it again (`Gaps.reshowSelf`), the `Show` returns `TRUE`, and the `OnDraw` of dialog
`1` is invoked after it; likewise `OnMouse` in a mouse pass. And in `sampleVetoed` with the
gate `StateBusy`, dialog `0` is not shown (its flag was cleared by a vetoed `Hide`) but is in
the main list: `Show` succeeds and queues it, and the rest of the frame pass invokes its
`OnDraw`; as one pass: with the main list `1, 0` in that condition, an `OnDraw` of `1` that
shows `0` is followed by the `OnDraw` of `0` in the same pass, and `Cleanup` leaves `0` twice
in the main list. -/
theorem Show_during_pass_counterexample :
    (OnFrameProc Host.sample Handlers.rehide sampleThree).map
      (fun x => (drawCalls x.1.trace,
        (x.1.trace.drop sampleThree.trace.length).filter isAnyShowOk, x.1.dialogs)) =
      some ([(0, false), (1, false), (2, false)],
        [Event.Called (Call.Show 0 true) true], [some 1, some 2, some 0]) ∧
    sampleGapMoment.state = State.StateBusyCleanupRequired ∧
    sampleGapMoment.dialogs = [some 0, none, some 2] ∧
    (sampleGapMoment.obj 1).m_isShown = false ∧
    (Show Host.sample 1 true sampleGapMoment).2 = true ∧
    (frameLoopGap Host.sample Handlers.sample Gaps.reshowSelf 3 0 sampleBusy).trace.drop
        sampleBusy.trace.length =
      [Event.OnDraw 0 false, Event.Called (Call.Hide 1 true) true,
        Event.Called (Call.Show 1 true) true, Event.OnDraw 1 false, Event.OnDraw 2 false] ∧
    (mouseLoopGap Host.sample Handlers.sample Gaps.reshowSelf 0 20 20 WM_LBUTTONDOWN 3
        sampleBusy).1.trace.drop sampleBusy.trace.length =
      [Event.OnMouse 2 false, Event.Called (Call.Hide 1 true) true,
        Event.Called (Call.Show 1 true) true, Event.OnMouse 1 true] ∧
    ({ sampleVetoed with state := State.StateBusy } : World).dialogs = [some 0] ∧
    (({ sampleVetoed with state := State.StateBusy } : World).obj 0).m_isShown = false ∧
    (Show Host.sample 0 true { sampleVetoed with state := State.StateBusy }).2 = true ∧
    (Show Host.sample 0 true { sampleVetoed with state := State.StateBusy }).1.pending_dialogs =
      [some 0] ∧
    drawCalls (frameLoop Host.sample Handlers.sample 1 0
      (Show Host.sample 0 true { sampleVetoed with state := State.StateBusy }).1).trace =
      [(0, false)] ∧
    (OnFrameProc Host.sample Handlers.showZero
      (runCalls Host.sample [Call.Show 1 true, Call.Show 0 true, Call.Hide 0 false]
        (World.init sampleObjs))).map
      (fun x => (drawCalls x.1.trace, x.1.trace.filter isAnyShowOk, x.1.dialogs)) =
      some ([(1, false), (0, false)],
        [Event.Called (Call.Show 1 true) true, Event.Called (Call.Show 0 true) true,
          Event.Called (Call.Show 0 true) true],
        [some 1, some 0, some 0]) :=
  ⟨by decide, by decide, by decide, by decide, by decide, by decide, by decide, by decide,
    by decide, by decide, by decide, by decide, by decide⟩

/-- C16, amended: while the gate is `StateBusy` or `StateBusyCleanupRequired`, `Show` of a
dialog that is not shown, `OnShow` allowing, returns `TRUE`, appends the dialog to the end of
the pending list, leaves the main list unchanged and sets the gate to
`StateBusyCleanupRequired`; a `Cleanup` run on the result puts the dialog at the end of the
main list. If the dialog is not in the main list at that moment, then at every later moment
`w2` of the pass (gate not idle, every slot holding what it held at the `Show` or the null
pointer, which is all that calls and loop iterations do to the main list) it is not in the
main list, and the iterations of a frame or mouse loop run from there, from any slot, whatever
the handlers do and whatever other threads call while the lock is released, invoke neither its
`OnDraw` nor its `OnMouse`. So the one invocation that can follow the `Show` is the one for
which the loop had copied the pointer before the dialog was hidden. -/
theorem Show_during_pass (h : Host) (d : DialogId) (w : World)
    (hst : w.state ≠ State.StateIdle) (hs : (w.obj d).m_isShown = false) :
    (Show h d true w).2 = true ∧
    (Show h d true w).1.pending_dialogs = w.pending_dialogs ++ [some d] ∧
    (Show h d true w).1.dialogs = w.dialogs ∧
    (Show h d true w).1.state = State.StateBusyCleanupRequired ∧
    (Cleanup h (Show h d true w).1).dialogs =
      removeNull w.dialogs ++ w.pending_dialogs ++ [some d] ∧
    (some d ∉ w.dialogs →
      ∀ w2, w2.state ≠ State.StateIdle →
        (∀ j, w2.dialogs.get? j = (Show h d true w).1.dialogs.get? j ∨
          w2.dialogs.get? j = some none) →
        some d ∉ w2.dialogs ∧
        (∀ (H : Handlers) (G : Gaps) (n i : Nat), ∃ vis,
          drawCalls (frameLoopGap h H G n i w2).trace = drawCalls w2.trace ++ vis ∧
          ∀ e ∈ vis, e.1 ≠ d) ∧
        (∀ (H : Handlers) (G : Gaps) (btn : Nat) (iX iY : Int) (msg i : Nat), ∃ vis,
          mouseCalls (mouseLoopGap h H G btn iX iY msg i w2).1.trace =
            mouseCalls w2.trace ++ vis ∧ ∀ e ∈ vis, e.1 ≠ d) ∧
        (∀ c, (runCall h c w2).state ≠ State.StateIdle ∧
          ∀ j, (runCall h c w2).dialogs.get? j = w2.dialogs.get? j ∨
            (runCall h c w2).dialogs.get? j = some none) ∧
        (∀ (H : Handlers) (G : Gaps) (n i : Nat),
          (frameLoopGap h H G n i w2).state ≠ State.StateIdle ∧
          ∀ j, (frameLoopGap h H G n i w2).dialogs.get? j = w2.dialogs.get? j ∨
            (frameLoopGap h H G n i w2).dialogs.get? j = some none) ∧
        (∀ (H : Handlers) (G : Gaps) (btn : Nat) (iX iY : Int) (msg i : Nat),
          (mouseLoopGap h H G btn iX iY msg i w2).1.state ≠ State.StateIdle ∧
          ∀ j, (mouseLoopGap h H G btn iX iY msg i w2).1.dialogs.get? j = w2.dialogs.get? j ∨
            (mouseLoopGap h H G btn iX iY msg i w2).1.dialogs.get? j = some none)) := by
  have e := Show_allow_busy h d w hs hst
  have e1 : (Show h d true w).1.pending_dialogs = w.pending_dialogs ++ [some d] := by
    rw [e]
  have e2 : (Show h d true w).1.dialogs = w.dialogs := by rw [e]; simp
  have e3 : (Show h d true w).1.state = State.StateBusyCleanupRequired := by rw [e]
  refine ⟨by rw [e], e1, e2, e3, ?_, fun hn w2 hst2 hsl => ?_⟩
  · rw [Cleanup_required h _ e3]
    simp [e1, e2, List.append_assoc]
  · have hn1 : some d ∉ (Show h d true w).1.dialogs := by rw [e2]; exact hn
    have hn2 : some d ∉ w2.dialogs := not_mem_of_slots _ _ (some d) (by simp) hsl hn1
    obtain ⟨n1, n2⟩ := not_invoked_gap h d w2 hst2 hn2
    refine ⟨hn2, n1, n2, fun c => ?_, fun H G n i => ?_, fun H G btn iX iY msg i => ?_⟩
    · have v := runCall_frozen h c w2 hst2
      exact ⟨v.1, v.2.2.1⟩
    · obtain ⟨_, _, _, _, v⟩ := frameLoopGap_spec h H G w2 n i w2 (Frozen_refl w2 hst2)
      exact ⟨v.1, v.2.2.1⟩
    · obtain ⟨_, _, _, _, v⟩ :=
        mouseLoopGap_spec h H G btn iX iY msg w2 i w2 (Frozen_refl w2 hst2)
      exact ⟨v.1, v.2.2.1⟩

theorem Show_during_pass_witness :
    sampleBusy.state ≠ State.StateIdle ∧ (sampleBusy.obj 3).m_isShown = false ∧
    some 3 ∉ sampleBusy.dialogs ∧
    (Cleanup Host.sample (Show Host.sample 3 true sampleBusy).1).dialogs =
      [some 0, some 1, some 2, some 3] ∧
    ((Show Host.sample 3 true sampleBusy).2 = true ∧
    (Show Host.sample 3 true sampleBusy).1.pending_dialogs =
      sampleBusy.pending_dialogs ++ [some 3] ∧
    (Show Host.sample 3 true sampleBusy).1.dialogs = sampleBusy.dialogs ∧
    (Show Host.sample 3 true sampleBusy).1.state = State.StateBusyCleanupRequired ∧
    (Cleanup Host.sample (Show Host.sample 3 true sampleBusy).1).dialogs =
      removeNull sampleBusy.dialogs ++ sampleBusy.pending_dialogs ++ [some 3] ∧
    (some 3 ∉ sampleBusy.dialogs →
      ∀ w2, w2.state ≠ State.StateIdle →
        (∀ j, w2.dialogs.get? j = (Show Host.sample 3 true sampleBusy).1.dialogs.get? j ∨
          w2.dialogs.get? j = some none) →
        some 3 ∉ w2.dialogs ∧
        (∀ (H : Handlers) (G : Gaps) (n i : Nat), ∃ vis,
          drawCalls (frameLoopGap Host.sample H G n i w2).trace = drawCalls w2.trace ++ vis ∧
          ∀ e ∈ vis, e.1 ≠ 3) ∧
        (∀ (H : Handlers) (G : Gaps) (btn : Nat) (iX iY : Int) (msg i : Nat), ∃ vis,
          mouseCalls (mouseLoopGap Host.sample H G btn iX iY msg i w2).1.trace =
            mouseCalls w2.trace ++ vis ∧ ∀ e ∈ vis, e.1 ≠ 3) ∧
        (∀ c, (runCall Host.sample c w2).state ≠ State.StateIdle ∧
          ∀ j, (runCall Host.sample c w2).dialogs.get? j = w2.dialogs.get? j ∨
            (runCall Host.sample c w2).dialogs.get? j = some none) ∧
        (∀ (H : Handlers) (G : Gaps) (n i : Nat),
          (frameLoopGap Host.sample H G n i w2).state ≠ State.StateIdle ∧
          ∀ j, (frameLoopGap Host.sample H G n i w2).dialogs.get? j = w2.dialogs.get? j ∨
            (frameLoopGap Host.sample H G n i w2).dialogs.get? j = some none) ∧
        (∀ (H : Handlers) (G : Gaps) (btn : Nat) (iX iY : Int) (msg i : Nat),
          (mouseLoopGap Host.sample H G btn iX iY msg i w2).1.state ≠ State.StateIdle ∧
          ∀ j, (mouseLoopGap Host.sample H G btn iX iY msg i w2).1.dialogs.get? j =
              w2.dialogs.get? j ∨
            (mouseLoopGap Host.sample H G btn iX iY msg i w2).1.dialogs.get? j =
              some none))) :=
  ⟨by decide, by decide, by decide, by decide,
    Show_during_pass Host.sample 3 sampleBusy (by decide) (by decide)⟩

/-! ## C17: the destructor -/

/-- With allowing `OnShow`/`OnHide` only (the registry invariant), the destructor leaves no
reference to the dialog in either list. -/
theorem destructor_deregisters (h : Host) (d : DialogId) (w : World) (hi : Inv w) :
    some d ∉ (CDialog_destructor h d w).dialogs ∧
    some d ∉ (CDialog_destructor h d w).pending_dialogs := by
  have key : some d ∉ live (CDialog_destructor h d w) := by
    unfold CDialog_destructor
    by_cases hs : (w.obj d).m_isShown = true
    · obtain ⟨l1, _⟩ := Hide_allow_live h d w hi hs
      rw [l1]
      intro hm
      exact ((hi.2.1.mem_erase_iff).1 hm).1 rfl
    · have hs2 := bool_false_of_not_true _ hs
      rw [Hide_hidden h d true w hs2]
      intro hm
      exact hs ((hi.2.2.1 d).1 hm)
  constructor
  · intro hm
    exact key (List.mem_append_left _ ((mem_removeNull _ _).2 ⟨hm, by simp⟩))
  · intro hm
    exact key (List.mem_append_right _ hm)

/-- C17, evaluated: dialog `0` is shown and a `Hide` of it is vetoed by `OnHide`, which
clears its shown flag and leaves it in the main list. The destructor then calls `Hide`, which
returns at once because the flag is clear: the main list still holds the dialog, and the next
frame pass invokes its `OnDraw` and the next mouse pass hit-tests it and invokes its
`OnMouse`. Likewise when the dialog was shown a second time after the veto (it is twice in
the list and the destructor removes one entry), and when it was shown a second time during a
pass (the destructor removes the pending entry and leaves the one in the main list). -/
theorem destructor_leaves_reference :
    sampleVetoed.dialogs = [some 0] ∧ (sampleVetoed.obj 0).m_isShown = false ∧
    (CDialog_destructor Host.sample 0 sampleVetoed).dialogs = [some 0] ∧
    (OnFrameProc Host.sample Handlers.sample
      (CDialog_destructor Host.sample 0 sampleVetoed)).map (fun x => drawCalls x.1.trace) =
      some [(0, false)] ∧
    (OnMouseProc Host.sample Handlers.sample 0 5 5 WM_LBUTTONDOWN
      (CDialog_destructor Host.sample 0 sampleVetoed)).map (fun x => mouseCalls x.1.trace) =
      some [(0, false)] ∧
    (runCalls Host.sample [Call.Show 0 true] sampleVetoed).dialogs = [some 0, some 0] ∧
    (CDialog_destructor Host.sample 0
      (runCalls Host.sample [Call.Show 0 true] sampleVetoed)).dialogs = [some 0] ∧
    samplePendingDup.dialogs = [some 0] ∧ samplePendingDup.pending_dialogs = [some 0] ∧
    (CDialog_destructor Host.sample 0 samplePendingDup).dialogs = [some 0] ∧
    (Cleanup Host.sample (CDialog_destructor Host.sample 0 samplePendingDup)).dialogs =
      [some 0] := by
  decide


/-! ## The worlds that can be reached -/

theorem Reach_mono (h : Host) (w : World) (hr : Reach h false w) : Reach h true w := by
  induction hr with
  | init objs hf => exact Reach.init objs hf
  | call w c _ _ ih => exact Reach.call w c ih (Or.inl rfl)
  | enter w _ hst ih => exact Reach.enter w ih hst
  | null w _ hst hn ih => exact Reach.null w ih hst hn
  | invoke w e _ hst he ih => exact Reach.invoke w e ih hst he
  | cleanup w _ hst ih => exact Reach.cleanup w ih hst

theorem Reach_runCalls (h : Host) (veto : Bool) (cs : List Call) (w : World)
    (hr : Reach h veto w) (ha : ∀ c ∈ cs, veto = true ∨ Call.allow c = true) :
    Reach h veto (runCalls h cs w) := by
  induction cs generalizing w with
  | nil => exact hr
  | cons c cs ih =>
    rw [runCalls_cons]
    exact ih _ (Reach.call w c hr (ha c (List.mem_cons_self _ _)))
      (fun x hx => ha x (List.mem_cons_of_mem _ hx))

theorem Reach_frameLoop (h : Host) (veto : Bool) (H : Handlers)
    (hH : veto = true ∨ Handlers.Allowing H) (n : Nat) :
    ∀ (i : Nat) (w : World), Reach h veto w → w.state ≠ State.StateIdle →
      Reach h veto (frameLoop h H n i w) := by
  induction n with
  | zero => intro i w hr _; exact hr
  | succ n ih =>
    intro i w hr hst
    cases hg : w.dialogs.get? i with
    | none =>
      have e : frameLoop h H (n + 1) i w = w := by simp only [frameLoop, hg]
      rw [e]; exact hr
    | some o =>
      cases o with
      | none =>
        have e : frameLoop h H (n + 1) i w =
            frameLoop h H n (i + 1) { w with state := State.StateBusyCleanupRequired } := by
          simp only [frameLoop, hg]
        rw [e]
        exact ih _ _ (Reach.null w hr hst (List.get?_mem hg)) (by simp)
      | some d =>
        have e : frameLoop h H (n + 1) i w =
            frameLoop h H n (i + 1) (runCalls h (H.OnDraw d w).1
              { w with trace := w.trace ++ [Event.OnDraw d (H.OnDraw d w).2] }) := by
          simp only [frameLoop, hg]
        rw [e]
        have hc : ∀ c ∈ (H.OnDraw d w).1, veto = true ∨ Call.allow c = true := by
          intro c hc
          rcases hH with hv | hA
          · exact Or.inl hv
          · exact Or.inr (hA.1 d w c hc)
        exact ih _ _ (Reach_runCalls h veto _ _ (Reach.invoke w _ hr hst rfl) hc)
          (runCalls_frozen h (H.OnDraw d w).1
            { w with trace := w.trace ++ [Event.OnDraw d (H.OnDraw d w).2] } hst).1

theorem Reach_mouseLoop (h : Host) (veto : Bool) (H : Handlers)
    (hH : veto = true ∨ Handlers.Allowing H) (btn : Nat) (iX iY : Int) (msg : Nat) (i : Nat) :
    ∀ w : World, Reach h veto w → w.state ≠ State.StateIdle →
      Reach h veto (mouseLoop h H btn iX iY msg i w).1 := by
  induction i with
  | zero => intro w hr _; exact hr
  | succ i ih =>
    intro w hr hst
    cases hg : w.dialogs.get? i with
    | none =>
      have e : mouseLoop h H btn iX iY msg (i + 1) w = mouseLoop h H btn iX iY msg i w := by
        simp only [mouseLoop, hg]
      rw [e]; exact ih w hr hst
    | some o =>
      cases o with
      | none =>
        have e : mouseLoop h H btn iX iY msg (i + 1) w =
            mouseLoop h H btn iX iY msg i
              { w with state := State.StateBusyCleanupRequired } := by
          simp only [mouseLoop, hg]
        rw [e]
        exact ih _ (Reach.null w hr hst (List.get?_mem hg)) (by simp)
      | some d =>
        by_cases hpt : PtInRect (w.obj d).m_position ⟨iX, iY⟩ = true
        · have hc : ∀ c ∈ (H.OnMouse d btn iX iY msg w).1,
              veto = true ∨ Call.allow c = true := by
            intro c hc
            rcases hH with hv | hA
            · exact Or.inl hv
            · exact Or.inr (hA.2 d btn iX iY msg w c hc)
          have hw2 := Reach_runCalls h veto _ _
            (Reach.invoke w (Event.OnMouse d (H.OnMouse d btn iX iY msg w).2) hr hst rfl) hc
          by_cases hr2 : (H.OnMouse d btn iX iY msg w).2 = true
          · have e : mouseLoop h H btn iX iY msg (i + 1) w =
                (runCalls h (H.OnMouse d btn iX iY msg w).1
                  { w with trace := w.trace ++
                    [Event.OnMouse d (H.OnMouse d btn iX iY msg w).2] }, true) := by
              simp only [mouseLoop, hg, hpt, hr2]
              simp
            rw [e]; exact hw2
          · have hr3 := bool_false_of_not_true _ hr2
            have e : mouseLoop h H btn iX iY msg (i + 1) w =
                mouseLoop h H btn iX iY msg i (runCalls h (H.OnMouse d btn iX iY msg w).1
                  { w with trace := w.trace ++
                    [Event.OnMouse d (H.OnMouse d btn iX iY msg w).2] }) := by
              simp only [mouseLoop, hg, hpt, hr3]
              simp
            rw [e]
            exact ih _ hw2 (runCalls_frozen h (H.OnMouse d btn iX iY msg w).1
              { w with trace := w.trace ++
                [Event.OnMouse d (H.OnMouse d btn iX iY msg w).2] } hst).1
        · have e : mouseLoop h H btn iX iY msg (i + 1) w = mouseLoop h H btn iX iY msg i w := by
            simp only [mouseLoop, hg, hpt]
            simp
          rw [e]; exact ih w hr hst

/-- The result of a complete frame pass can be reached. -/
theorem Reach_OnFrameProc (h : Host) (veto : Bool) (H : Handlers)
    (hH : veto = true ∨ Handlers.Allowing H) (w w2 : World) (r : Nat) (hr : Reach h veto w)
    (hp : OnFrameProc h H w = some (w2, r)) : Reach h veto w2 := by
  by_cases hst : w.state = State.StateIdle
  · rw [OnFrameProc_idle h H w hst] at hp
    have e : Cleanup h (frameLoop h H w.dialogs.length 0 { w with state := State.StateBusy }) =
        w2 := congrArg Prod.fst (Option.some.inj hp)
    rw [← e]
    have h1 := Reach_frameLoop h veto H hH w.dialogs.length 0 _ (Reach.enter w hr hst)
      (by simp)
    obtain ⟨_, _, _, _, hf⟩ := frameLoop_spec h H { w with state := State.StateBusy }
      w.dialogs.length 0 _ (Frozen_refl _ (by simp))
    exact Reach.cleanup _ h1 hf.1
  · simp [OnFrameProc, hst] at hp

/-- The result of a complete mouse pass can be reached. -/
theorem Reach_OnMouseProc (h : Host) (veto : Bool) (H : Handlers)
    (hH : veto = true ∨ Handlers.Allowing H) (btn : Nat) (iX iY : Int) (msg : Nat)
    (w w2 : World) (r : Nat) (hr : Reach h veto w)
    (hp : OnMouseProc h H btn iX iY msg w = some (w2, r)) : Reach h veto w2 := by
  by_cases hb : isButtonMsg msg = true
  · by_cases hst : w.state = State.StateIdle
    · rw [OnMouseProc_button h H btn iX iY msg w hb hst] at hp
      have e : Cleanup h (mouseLoop h H btn iX iY msg w.dialogs.length
          { w with state := State.StateBusy }).1 = w2 := congrArg Prod.fst (Option.some.inj hp)
      rw [← e]
      have h1 := Reach_mouseLoop h veto H hH btn iX iY msg w.dialogs.length _
        (Reach.enter w hr hst) (by simp)
      obtain ⟨_, _, _, _, _, hf⟩ := mouseLoop_spec h H btn iX iY msg
        { w with state := State.StateBusy } w.dialogs.length _ (Frozen_refl _ (by simp))
      exact Reach.cleanup _ h1 hf.1
    · simp [OnMouseProc, hb, hst] at hp
  · rw [OnMouseProc_other h H btn iX iY msg w (bool_false_of_not_true _ hb)] at hp
    have e : w = w2 := congrArg Prod.fst (Option.some.inj hp)
    rw [← e]; exact hr

theorem Reach_of_Reachable (h : Host) (w : World) (hr : Reachable h w) : Reach h false w := by
  induction hr with
  | init objs hf => exact Reach.init objs hf
  | call w c _ ha ih => exact Reach.call w c ih (Or.inr ha)
  | frame w w2 H r _ hH hp ih => exact Reach_OnFrameProc h false H (Or.inr hH) w w2 r ih hp
  | mouse w w2 H btn iX iY msg r _ hH hp ih =>
    exact Reach_OnMouseProc h false H (Or.inr hH) btn iX iY msg w w2 r ih hp


/-! ## The hook state in reachable worlds, vetoes included -/

theorem eraseLast_sublist (p : Option DialogId) (l : List (Option DialogId)) :
    (eraseLast p l).Sublist l := by
  induction l with
  | nil => exact List.Sublist.refl _
  | cons x xs ih =>
    by_cases h1 : p ∈ xs
    · simp only [eraseLast, h1, if_true]
      exact ih.cons₂ x
    · by_cases h2 : x = p
      · simp only [eraseLast, h1, h2, if_false, if_true]
        exact List.sublist_cons_self _ _
      · simp only [eraseLast, h1, h2, if_false]
        exact List.Sublist.refl _

theorem SameCore_with_trace (w1 w2 : World) (t : List Event) (hs : SameCore w1 w2) :
    SameCore w1 { w2 with trace := t } := hs

theorem SameCore_setShown (d : DialogId) (b : Bool) (w : World) :
    SameCore w (setShown d b w) :=
  ⟨rfl, rfl, rfl, rfl, rfl, rfl, rfl, rfl⟩

theorem SameCore_refl (w : World) : SameCore w w :=
  ⟨rfl, rfl, rfl, rfl, rfl, rfl, rfl, rfl⟩

/-- The three ways a call can go, whatever `OnShow`/`OnHide` answer: it changes nothing but
the flag; or the gate is idle and it changes the main list and runs `MaintainS4Api`; or the
gate is not idle and it leaves the gate `StateBusyCleanupRequired`. -/
theorem runCall_outcome (h : Host) (c : Call) (w : World) :
    SameCore w (runCall h c w) ∨
    (w.state = State.StateIdle ∧ (runCall h c w).state = State.StateIdle ∧
      (runCall h c w).pending_dialogs = w.pending_dialogs ∧
      (runCall h c w).dialogs.Sublist (w.dialogs ++ [some (Call.target c)]) ∧
      (HostOk h → Settled (runCall h c w))) ∨
    (w.state ≠ State.StateIdle ∧
      (runCall h c w).state = State.StateBusyCleanupRequired ∧
      (runCall h c w).pending_dialogs.Sublist (w.pending_dialogs ++ [some (Call.target c)])) := by
  cases c with
  | Show d b =>
    rw [runCall_Show]
    by_cases hs : (w.obj d).m_isShown = true
    · left; rw [Show_shown h d b w hs]; exact SameCore_refl w
    · have hs2 := bool_false_of_not_true _ hs
      cases b with
      | false => left; rw [Show_veto h d w hs2]; exact SameCore_setShown d true w
      | true =>
        by_cases hst : w.state = State.StateIdle
        · right; left
          rw [Show_allow_idle h d w hs2 hst]
          refine ⟨hst, by simp [hst], by simp, by simp [Call.target], fun hk => ?_⟩
          exact MaintainS4Api_settled h _ hk.1 hk.2.1 hk.2.2
        · right; right
          rw [Show_allow_busy h d w hs2 hst]
          exact ⟨hst, rfl, by simp [Call.target]⟩
  | Hide d b =>
    rw [runCall_Hide]
    by_cases hs : (w.obj d).m_isShown = true
    · cases b with
      | false => left; rw [Hide_veto h d w hs]; exact SameCore_setShown d false w
      | true =>
        rcases state_cases w.state with hst | hst | hst
        · right; left
          rw [Hide_allow_idle h d w hs hst]
          refine ⟨hst, by simp [hst], by simp, ?_, fun hk => ?_⟩
          · simp only [MaintainS4Api_dialogs]
            exact (eraseLast_sublist _ _).trans (List.sublist_append_left _ _)
          · exact MaintainS4Api_settled h _ hk.1 hk.2.1 hk.2.2
        · right; right
          rw [Hide_allow_busy h d w hs hst]
          exact ⟨by rw [hst]; decide, by simp [HideBusy],
            by simp [HideBusy]⟩
        · right; right
          by_cases hp : some d ∈ w.pending_dialogs
          · rw [Hide_allow_pending h d w hs hst hp]
            refine ⟨by rw [hst]; decide, by simp [hst], ?_⟩
            simp only [ModifyFeatureCounts_pending, setShown_pending]
            exact (eraseLast_sublist _ _).trans (List.sublist_append_left _ _)
          · rw [Hide_allow_fallthrough h d w hs hst hp]
            exact ⟨by rw [hst]; decide, by simp [HideBusy], by simp [HideBusy]⟩
    · left
      rw [Hide_hidden h d b w (bool_false_of_not_true _ hs)]; exact SameCore_refl w

theorem Calm_runCall (h : Host) (hk : HostOk h) (c : Call) (w : World) (hc : Calm w) :
    Calm (runCall h c w) := by
  obtain ⟨c0, c1⟩ := hc
  rcases runCall_outcome h c w with hs | ⟨hst, s1, s2, s3, s4⟩ | ⟨hst, s1, s2⟩
  · obtain ⟨e1, e2, e3, e4, e5, e6, e7, e8⟩ := hs
    refine ⟨by rw [e2]; exact c0, fun hn => ?_⟩
    rw [e6] at hn
    obtain ⟨n1, n2, ⟨t1, t2⟩⟩ := c1 hn
    refine ⟨by rw [e1]; exact n1, by rw [e2]; exact n2, ?_, ?_⟩
    · intro hz; rw [e1]; rw [e3] at hz; exact t1 hz
    · intro hz; rw [e3] at hz; rw [e1, e4, e5, e7, e8]; exact t2 hz
  · obtain ⟨n1, n2, _⟩ := c1 (by rw [hst]; decide)
    refine ⟨by rw [s2]; exact c0, fun _ => ⟨?_, by rw [s2]; exact n2, s4 hk⟩⟩
    intro hm
    rcases List.mem_append.1 (s3.subset hm) with hm | hm
    · exact n1 hm
    · simp at hm
  · refine ⟨?_, fun hn => absurd s1 hn⟩
    intro hm
    rcases List.mem_append.1 (s2.subset hm) with hm | hm
    · exact c0 hm
    · simp at hm

theorem Settled_with_state (w : World) (s : State) (hs : Settled w) :
    Settled { w with state := s } := hs

theorem Calm_Cleanup (h : Host) (hk : HostOk h) (w : World) (hc : Calm w) :
    Calm (Cleanup h w) := by
  obtain ⟨c0, c1⟩ := hc
  by_cases hb : w.state = State.StateBusyCleanupRequired
  · rw [Cleanup_required h w hb]
    refine ⟨by simp, fun _ => ⟨?_, by simp, ?_⟩⟩
    · simp only [MaintainS4Api_dialogs]
      intro hm
      rcases List.mem_append.1 hm with hm | hm
      · exact none_not_mem_removeNull _ hm
      · exact c0 hm
    · exact Settled_with_state _ _ (MaintainS4Api_settled h _ hk.1 hk.2.1 hk.2.2)
  · rw [Cleanup_not_required h w hb]
    obtain ⟨n1, n2, n3⟩ := c1 hb
    exact ⟨c0, fun _ => ⟨n1, n2, n3⟩⟩

/-- Every reachable world, vetoes included, is calm when the host calls succeed. -/
theorem Reach_calm (h : Host) (hk : HostOk h) (w : World) (hr : Reach h true w) : Calm w := by
  induction hr with
  | init objs hf =>
    exact ⟨by simp [World.init], fun _ => ⟨by simp [World.init], rfl,
      ⟨fun _ => rfl, fun hz => absurd rfl hz⟩⟩⟩
  | call w c _ _ ih => exact Calm_runCall h hk c w ih
  | enter w _ hst ih =>
    obtain ⟨n1, n2, n3⟩ := ih.2 (by rw [hst]; decide)
    exact ⟨ih.1, fun _ => ⟨n1, n2, n3⟩⟩
  | null w _ hst hn ih => exact ⟨ih.1, fun hc => absurd rfl hc⟩
  | invoke w e _ hst he ih => exact ih
  | cleanup w _ hst ih => exact Calm_Cleanup h hk w ih


/-! ## C18: `Cleanup` without compaction -/

/-- C18 as stated fails when the host can fail: `sampleNoHandle` is reached by one `Show`
with a host whose first `S4ApiCreate` returned `NULL`; its gate is idle, its main list is not
empty and has no null entry, nothing is pending, and there is no handle. The full cleanup
work run on it (or on the same world with the gate `StateBusy`) calls `S4ApiCreate` again,
gets a handle and installs the draw hook, while `Cleanup` leaves the world without handle:
the results of the two branches differ. -/
theorem Cleanup_skip_counterexample :
    sampleNoHandle.state = State.StateIdle ∧ sampleNoHandle.dialogs = [some 0] ∧
    sampleNoHandle.pending_dialogs = [] ∧ sampleNoHandle.s4api = 0 ∧
    (MaintainS4Api Host.flaky
      { sampleNoHandle with
        dialogs := removeNull sampleNoHandle.dialogs ++ sampleNoHandle.pending_dialogs,
        pending_dialogs := [] }).s4api = 7 ∧
    (MaintainS4Api Host.flaky
      { sampleNoHandle with
        dialogs := removeNull sampleNoHandle.dialogs ++ sampleNoHandle.pending_dialogs,
        pending_dialogs := [] }).hFramehook = 1 ∧
    sampleNoHandle.hFramehook = 0 ∧
    (Cleanup Host.flaky { sampleNoHandle with state := State.StateBusy }).s4api = 0 ∧
    (CleanupFull Host.flaky { sampleNoHandle with state := State.StateBusy }).s4api = 7 ∧
    (Cleanup Host.flaky
      { sampleNoHandle with state := State.StateBusyCleanupRequired }).s4api = 7 := by
  decide

theorem Cleanup_full_calm (h : Host) (v : World) (n1 : none ∉ v.dialogs)
    (n2 : v.pending_dialogs = []) (n3 : Settled v) :
    MaintainS4Api h
      { v with dialogs := removeNull v.dialogs ++ v.pending_dialogs, pending_dialogs := [] } =
      v ∧
    CleanupFull h v = { v with state := State.StateIdle } := by
  have e : ({ v with dialogs := removeNull v.dialogs ++ v.pending_dialogs,
                     pending_dialogs := [] } : World) = v := by
    rcases v with ⟨ds, ps, api, hF, hM, st, cF, cM, ob, tr⟩
    simp only at n1 n2
    subst n2
    simp [removeNull_of_no_null _ n1]
  have m : MaintainS4Api h
      { v with dialogs := removeNull v.dialogs ++ v.pending_dialogs, pending_dialogs := [] } =
      v := by
    rw [e]; exact MaintainS4Api_of_settled h v n3
  refine ⟨m, ?_⟩
  unfold CleanupFull
  rw [m]

/-- C18, amended: when `S4ApiCreate` and both `AddListener` calls return non-null handles,
then in every reachable world (calls allowed or vetoed, at any moment of a pass) whose gate is
`StateBusy` or `StateIdle`, the main list has no null entry and the pending list is empty,
the full cleanup work (remove the null entries, append the pending list, clear it, run
`MaintainS4Api`) returns the world unchanged, without any host call, and `Cleanup` gives the
result of the full work, which is also what its `StateBusyCleanupRequired` branch gives. -/
theorem Cleanup_skip_equiv (h : Host) (w : World) (hk : HostOk h) (hr : Reach h true w)
    (hst : w.state ≠ State.StateBusyCleanupRequired) :
    none ∉ w.dialogs ∧ w.pending_dialogs = [] ∧
    MaintainS4Api h
      { w with dialogs := removeNull w.dialogs ++ w.pending_dialogs, pending_dialogs := [] } =
      w ∧
    Cleanup h w = CleanupFull h w ∧
    Cleanup h w = Cleanup h { w with state := State.StateBusyCleanupRequired } := by
  obtain ⟨n1, n2, n3⟩ := (Reach_calm h hk w hr).2 hst
  obtain ⟨m, f⟩ := Cleanup_full_calm h w n1 n2 n3
  obtain ⟨_, f2⟩ := Cleanup_full_calm h { w with state := State.StateBusyCleanupRequired }
    n1 n2 (Settled_with_state w _ n3)
  have c1 : Cleanup h w = { w with state := State.StateIdle } := Cleanup_not_required h w hst
  have c2 : Cleanup h { w with state := State.StateBusyCleanupRequired } =
      CleanupFull h { w with state := State.StateBusyCleanupRequired } :=
    Cleanup_required h _ rfl
  refine ⟨n1, n2, m, by rw [c1, f], ?_⟩
  rw [c1, c2, f2]

theorem sampleThree_reach : Reach Host.sample true sampleThree :=
  Reach_runCalls Host.sample true _ _ (Reach.init sampleObjs (fun _ => rfl))
    (fun _ _ => Or.inl rfl)

theorem sample_hostOk : HostOk Host.sample :=
  ⟨by simp [Host.sample], by simp [Host.sample], by simp [Host.sample]⟩

theorem Cleanup_skip_equiv_witness :
    HostOk Host.sample ∧ Reach Host.sample true sampleBusy ∧
    sampleBusy.state ≠ State.StateBusyCleanupRequired ∧
    (none ∉ sampleBusy.dialogs ∧ sampleBusy.pending_dialogs = [] ∧
    MaintainS4Api Host.sample
      { sampleBusy with
        dialogs := removeNull sampleBusy.dialogs ++ sampleBusy.pending_dialogs,
        pending_dialogs := [] } = sampleBusy ∧
    Cleanup Host.sample sampleBusy = CleanupFull Host.sample sampleBusy ∧
    Cleanup Host.sample sampleBusy =
      Cleanup Host.sample { sampleBusy with state := State.StateBusyCleanupRequired }) :=
  ⟨sample_hostOk, Reach.enter sampleThree sampleThree_reach (by decide), by decide,
    Cleanup_skip_equiv Host.sample sampleBusy sample_hostOk
      (Reach.enter sampleThree sampleThree_reach (by decide)) (by decide)⟩


/-! ## The counters in reachable worlds -/

theorem featCount_live (f : Nat) (w : World) :
    featCount f w = (live w).countP (hasFeatureAt w.obj f) := by
  simp [featCount, live]

theorem hasFeatureAt_congr (o1 o2 : DialogId → CDialog) (f : Nat)
    (hf : ∀ d, HasFeature (o1 d) f = HasFeature (o2 d) f) :
    hasFeatureAt o1 f = hasFeatureAt o2 f := by
  funext p
  cases p with
  | none => rfl
  | some d => exact hf d

theorem hasFeatureAt_setShown (d : DialogId) (b : Bool) (w : World) (f : Nat) :
    hasFeatureAt (setShown d b w).obj f = hasFeatureAt w.obj f :=
  hasFeatureAt_congr _ _ f (fun e => HasFeature_setShown d e b w f)

theorem addU32_succ_mod (n : Nat) :
    addU32 (n % 4294967296) 1 = (n + 1) % 4294967296 := by
  unfold addU32; omega

theorem addU32_pred_mod (n : Nat) :
    addU32 ((n + 1) % 4294967296) (-1) = n % 4294967296 := by
  unfold addU32; omega

theorem countP_erase_mem (p : Option DialogId → Bool) (a : Option DialogId)
    (l : List (Option DialogId)) (ha : a ∈ l) :
    l.countP p = (l.erase a).countP p + (if p a then 1 else 0) := by
  induction l with
  | nil => simp at ha
  | cons x xs ih =>
    by_cases hx : x = a
    · subst hx
      rw [List.erase_cons_head, List.countP_cons]
    · have hm : a ∈ xs := by
        rcases List.mem_cons.1 ha with he | he
        · exact absurd he.symm hx
        · exact he
      rw [List.erase_cons_tail (by simpa using hx), List.countP_cons, List.countP_cons, ih hm]
      omega

/-- The count of a feature after a successful `Show`. -/
theorem Show_allow_featCount (h : Host) (d : DialogId) (w : World) (hi : Inv w)
    (hs : (w.obj d).m_isShown = false) (f : Nat) :
    featCount f (Show h d true w).1 =
      featCount f w + (if HasFeature (w.obj d) f then 1 else 0) := by
  obtain ⟨l1, _⟩ := Show_allow_live h d w hi hs
  obtain ⟨_, s2, _, _⟩ := Show_allow_spec h d w hs
  rw [featCount_live, featCount_live, l1, s2, hasFeatureAt_setShown, List.countP_append]
  by_cases hf : HasFeature (w.obj d) f = true <;> simp [List.countP_cons, hasFeatureAt, hf]

/-- The count of a feature before a successful `Hide`. -/
theorem Hide_allow_featCount (h : Host) (d : DialogId) (w : World) (hi : Inv w)
    (hs : (w.obj d).m_isShown = true) (f : Nat) :
    featCount f w =
      featCount f (Hide h d true w).1 + (if HasFeature (w.obj d) f then 1 else 0) := by
  obtain ⟨l1, _⟩ := Hide_allow_live h d w hi hs
  obtain ⟨_, s2, _, _⟩ := Hide_allow_spec h d w hs
  have hmem : some d ∈ live w := (hi.2.2.1 d).2 hs
  rw [featCount_live, featCount_live, l1, s2, hasFeatureAt_setShown,
    countP_erase_mem (hasFeatureAt w.obj f) (some d) (live w) hmem]
  rfl

theorem Show_allow_counters (h : Host) (d : DialogId) (w : World)
    (hs : (w.obj d).m_isShown = false) :
    (Show h d true w).1.countFramehook =
      (if HasFeature (w.obj d) h.FeatureOnDraw then addU32 w.countFramehook 1
       else w.countFramehook) ∧
    (Show h d true w).1.countMousehook =
      (if HasFeature (w.obj d) h.FeatureOnMouse then addU32 w.countMousehook 1
       else w.countMousehook) := by
  obtain ⟨_, _, s3, s4⟩ := Show_allow_spec h d w hs
  have c := ModifyFeatureCounts_counts h d 1 (setShown d true w)
  simp only [HasFeature_setShown, setShown_countFramehook, setShown_countMousehook] at c
  exact ⟨s3.trans c.1, s4.trans c.2⟩

theorem Hide_allow_counters (h : Host) (d : DialogId) (w : World)
    (hs : (w.obj d).m_isShown = true) :
    (Hide h d true w).1.countFramehook =
      (if HasFeature (w.obj d) h.FeatureOnDraw then addU32 w.countFramehook (-1)
       else w.countFramehook) ∧
    (Hide h d true w).1.countMousehook =
      (if HasFeature (w.obj d) h.FeatureOnMouse then addU32 w.countMousehook (-1)
       else w.countMousehook) := by
  obtain ⟨_, _, s3, s4⟩ := Hide_allow_spec h d w hs
  have c := ModifyFeatureCounts_counts h d (-1) (setShown d false w)
  simp only [HasFeature_setShown, setShown_countFramehook, setShown_countMousehook] at c
  exact ⟨s3.trans c.1, s4.trans c.2⟩

/-- After `MaintainS4Api` no hook is installed without a handle, if that was so before and
the counters are 0 when the list is empty. -/
theorem MaintainS4Api_nohandle (h : Host) (w : World)
    (h0 : w.s4api = 0 → w.hFramehook = 0 ∧ w.hMousehook = 0)
    (h1 : w.dialogs = [] → w.countFramehook = 0 ∧ w.countMousehook = 0) :
    (MaintainS4Api h w).s4api = 0 →
      (MaintainS4Api h w).hFramehook = 0 ∧ (MaintainS4Api h w).hMousehook = 0 := by
  rcases w with ⟨ds, ps, api, hF, hM, st, cF, cM, ob, tr⟩
  simp only at h0 h1
  by_cases a1 : api = 0 <;> by_cases a2 : hF = 0 <;> by_cases a3 : hM = 0 <;>
  by_cases a4 : cF = 0 <;> by_cases a5 : cM = 0 <;> by_cases a6 : ds = [] <;>
  by_cases a7 : h.S4ApiCreate tr = 0 <;>
  simp [MaintainS4Api, removeFrameListener, removeMouseListener, releaseApi, acquireApi,
    addFrameListener, addMouseListener, a1, a2, a3, a4, a5, a6, a7, Nat.pos_iff_ne_zero]
    at h0 h1 ⊢


@[simp] theorem ModifyFeatureCounts_s4api (h : Host) (d : DialogId) (add : Int) (w : World) :
    (ModifyFeatureCounts h d add w).s4api = w.s4api :=
  (ModifyFeatureCounts_fields h d add w).2.2.2.2.2.1

@[simp] theorem ModifyFeatureCounts_hFramehook (h : Host) (d : DialogId) (add : Int)
    (w : World) : (ModifyFeatureCounts h d add w).hFramehook = w.hFramehook :=
  (ModifyFeatureCounts_fields h d add w).2.2.2.2.2.2.1

@[simp] theorem ModifyFeatureCounts_hMousehook (h : Host) (d : DialogId) (add : Int)
    (w : World) : (ModifyFeatureCounts h d add w).hMousehook = w.hMousehook :=
  (ModifyFeatureCounts_fields h d add w).2.2.2.2.2.2.2

theorem Good_with_trace (h : Host) (w : World) (t : List Event) (hg : Good h w) :
    Good h { w with trace := t } := hg

theorem featCount_of_live_nil (f : Nat) (w : World) (hl : live w = []) : featCount f w = 0 := by
  rw [featCount_live, hl]; rfl

theorem Good_Show_allow (h : Host) (d : DialogId) (w : World) (hg : Good h w)
    (hs : (w.obj d).m_isShown = false) : Good h (Show h d true w).1 := by
  obtain ⟨hi, g1, g2, g3⟩ := hg
  obtain ⟨c1, c2⟩ := Show_allow_counters h d w hs
  refine ⟨Inv_Show_allow h d w hi hs, ?_, ?_, ?_⟩
  · rw [c1, Show_allow_featCount h d w hi hs, g1]
    by_cases hf : HasFeature (w.obj d) h.FeatureOnDraw = true
    · simp only [hf, if_true]; exact addU32_succ_mod _
    · simp [hf]
  · rw [c2, Show_allow_featCount h d w hi hs, g2]
    by_cases hf : HasFeature (w.obj d) h.FeatureOnMouse = true
    · simp only [hf, if_true]; exact addU32_succ_mod _
    · simp [hf]
  · by_cases hst : w.state = State.StateIdle
    · rw [Show_allow_idle h d w hs hst]
      exact MaintainS4Api_nohandle h _ (by simpa using g3) (by simp)
    · rw [Show_allow_busy h d w hs hst]
      simpa using g3

theorem Good_Hide_allow (h : Host) (d : DialogId) (w : World) (hg : Good h w)
    (hs : (w.obj d).m_isShown = true) : Good h (Hide h d true w).1 := by
  obtain ⟨hi, g1, g2, g3⟩ := hg
  obtain ⟨c1, c2⟩ := Hide_allow_counters h d w hs
  have k1 : (Hide h d true w).1.countFramehook =
      featCount h.FeatureOnDraw (Hide h d true w).1 % 4294967296 := by
    rw [c1, g1, Hide_allow_featCount h d w hi hs h.FeatureOnDraw]
    by_cases hf : HasFeature (w.obj d) h.FeatureOnDraw = true
    · simp only [hf, if_true]; exact addU32_pred_mod _
    · simp [hf]
  have k2 : (Hide h d true w).1.countMousehook =
      featCount h.FeatureOnMouse (Hide h d true w).1 % 4294967296 := by
    rw [c2, g2, Hide_allow_featCount h d w hi hs h.FeatureOnMouse]
    by_cases hf : HasFeature (w.obj d) h.FeatureOnMouse = true
    · simp only [hf, if_true]; exact addU32_pred_mod _
    · simp [hf]
  refine ⟨Inv_Hide_allow h d w hi hs, k1, k2, ?_⟩
  rcases state_cases w.state with hst | hst | hst
  · obtain ⟨_, n2⟩ := hi.2.2.2 (by rw [hst]; decide)
    have e := Hide_allow_idle h d w hs hst
    have hd : (Hide h d true w).1.dialogs = eraseLast (some d) w.dialogs := by rw [e]; simp
    have hp : (Hide h d true w).1.pending_dialogs = [] := by rw [e]; simpa using n2
    have hzero : eraseLast (some d) w.dialogs = [] →
        (Hide h d true w).1.countFramehook = 0 ∧ (Hide h d true w).1.countMousehook = 0 := by
      intro hnil
      have hl : live (Hide h d true w).1 = [] := by
        unfold live; rw [hd, hp, hnil]; rfl
      rw [k1, k2, featCount_of_live_nil _ _ hl, featCount_of_live_nil _ _ hl]
      exact ⟨rfl, rfl⟩
    rw [e] at hzero ⊢
    exact MaintainS4Api_nohandle h _ (by simpa using g3) (by simpa using hzero)
  · rw [Hide_allow_busy h d w hs hst]
    simpa [HideBusy] using g3
  · by_cases hp : some d ∈ w.pending_dialogs
    · rw [Hide_allow_pending h d w hs hst hp]
      simpa using g3
    · rw [Hide_allow_fallthrough h d w hs hst hp]
      simpa [HideBusy] using g3

theorem Good_runCall (h : Host) (c : Call) (w : World) (ha : Call.allow c = true)
    (hg : Good h w) : Good h (runCall h c w) := by
  rcases runCall_allow_cases h c w ha with ⟨d, _, hs, e⟩ | ⟨d, _, hs, e⟩ | e
  · rw [e]; exact Good_with_trace h _ _ (Good_Show_allow h d w hg hs)
  · rw [e]; exact Good_with_trace h _ _ (Good_Hide_allow h d w hg hs)
  · rw [e]; exact Good_with_trace h _ _ hg

theorem Good_Cleanup (h : Host) (w : World) (hg : Good h w) : Good h (Cleanup h w) := by
  obtain ⟨⟨i1, i2, i3, i4⟩, g1, g2, g3⟩ := hg
  by_cases hc : w.state = State.StateBusyCleanupRequired
  · have e := Cleanup_required h w hc
    have hd : (Cleanup h w).dialogs = live w := by rw [e]; simp [live]
    have hpd : (Cleanup h w).pending_dialogs = [] := by rw [e]; simp
    have ho : (Cleanup h w).obj = w.obj := by rw [e]; simp
    have hcf : (Cleanup h w).countFramehook = w.countFramehook := by rw [e]; simp
    have hcm : (Cleanup h w).countMousehook = w.countMousehook := by rw [e]; simp
    have hnone : none ∉ live w := by
      intro hm
      rcases List.mem_append.1 hm with hm | hm
      · exact none_not_mem_removeNull _ hm
      · exact i1 hm
    have hlive : live (Cleanup h w) = live w := by
      unfold live
      rw [hd, hpd, removeNull_of_no_null _ hnone]
      simp [live]
    have hfc : ∀ f, featCount f (Cleanup h w) = featCount f w := by
      intro f; rw [featCount_live, featCount_live, hlive, ho]
    refine ⟨⟨by rw [hpd]; simp, by rw [hlive]; exact i2, ?_, ?_⟩, ?_, ?_, ?_⟩
    · intro d; rw [hlive, ho]; exact i3 d
    · intro _; exact ⟨by rw [hd]; exact hnone, hpd⟩
    · rw [hcf, hfc]; exact g1
    · rw [hcm, hfc]; exact g2
    · have hzero : live w = [] → w.countFramehook = 0 ∧ w.countMousehook = 0 := by
        intro hl
        rw [g1, g2, featCount_of_live_nil _ _ hl, featCount_of_live_nil _ _ hl]
        exact ⟨rfl, rfl⟩
      rw [e]
      exact MaintainS4Api_nohandle h
        { w with dialogs := removeNull w.dialogs ++ w.pending_dialogs, pending_dialogs := [] }
        g3 hzero
  · rw [Cleanup_not_required h w hc]
    obtain ⟨n1, n2⟩ := i4 hc
    exact ⟨⟨i1, i2, i3, fun _ => ⟨n1, n2⟩⟩, g1, g2, g3⟩

/-- Every world reached with allowing hooks satisfies the invariant `Good`. -/
theorem Reach_good (h : Host) (w : World) (hr : Reach h false w) : Good h w := by
  induction hr with
  | init objs hf =>
    refine ⟨(Inv_init objs hf).1, ?_, ?_, fun _ => ⟨rfl, rfl⟩⟩
    · simp [featCount, World.init, removeNull]
    · simp [featCount, World.init, removeNull]
  | call w c _ ha ih =>
    rcases ha with hv | ha
    · exact Bool.noConfusion hv
    · exact Good_runCall h c w ha ih
  | enter w _ hst ih =>
    obtain ⟨⟨i1, i2, i3, i4⟩, g1, g2, g3⟩ := ih
    obtain ⟨n1, n2⟩ := i4 (by rw [hst]; decide)
    exact ⟨⟨i1, i2, i3, fun _ => ⟨n1, n2⟩⟩, g1, g2, g3⟩
  | null w _ hst hn ih =>
    obtain ⟨⟨i1, i2, i3, _⟩, g1, g2, g3⟩ := ih
    exact ⟨⟨i1, i2, i3, fun hc => absurd rfl hc⟩, g1, g2, g3⟩
  | invoke w e _ hst he ih => exact ih
  | cleanup w _ hst ih => exact Good_Cleanup h w ih


/-! ## C15: the counters count the registered dialogs -/

theorem featCount_le (f : Nat) (w : World) :
    featCount f w ≤ (removeNull w.dialogs).length + w.pending_dialogs.length := by
  unfold featCount
  have h1 := List.countP_le_length (hasFeatureAt w.obj f) (l := removeNull w.dialogs)
  have h2 := List.countP_le_length (hasFeatureAt w.obj f) (l := w.pending_dialogs)
  omega

theorem featCount_pos (f : Nat) (w : World) (d : DialogId) (hm : some d ∈ live w)
    (hf : HasFeature (w.obj d) f = true) : 0 < featCount f w := by
  rw [featCount_live, List.countP_pos_iff]
  exact ⟨some d, hm, hf⟩

theorem addU32_pred (c : Nat) (h0 : 0 < c) (h1 : c < 4294967296) :
    addU32 c (-1) = c - 1 := by
  unfold addU32; omega

theorem Hide_ok_shown (h : Host) (d : DialogId) (onHide : Bool) (w : World)
    (hok : (Hide h d onHide w).2 = true) : (w.obj d).m_isShown = true ∧ onHide = true := by
  have hs : (w.obj d).m_isShown = true := by
    by_contra hc
    rw [Hide_hidden h d onHide w (bool_false_of_not_true _ hc)] at hok
    exact Bool.noConfusion hok
  refine ⟨hs, ?_⟩
  cases onHide with
  | true => rfl
  | false =>
    rw [Hide_veto h d w hs] at hok
    exact Bool.noConfusion hok

/-- C15: in every world reached from the empty registry by allowed `Show` and `Hide` calls
made in any gate state and by the steps of dispatch passes, with fewer than `2^32` dialogs
registered (the counters are 32-bit): the draw counter is the number of dialogs with the draw
feature among the non-null entries of the main list and the entries of the pending list, the
mouse counter is that number for the mouse feature, and a `Hide` that succeeds decrements a
counter only when it is positive (it takes 1 from the counter of each feature the dialog has
and leaves the other alone), so no counter wraps around. -/
theorem counters_count (h : Host) (w : World) (hr : Reach h false w)
    (hb : (removeNull w.dialogs).length + w.pending_dialogs.length < 4294967296) :
    w.countFramehook =
      (removeNull w.dialogs).countP (hasFeatureAt w.obj h.FeatureOnDraw) +
        w.pending_dialogs.countP (hasFeatureAt w.obj h.FeatureOnDraw) ∧
    w.countMousehook =
      (removeNull w.dialogs).countP (hasFeatureAt w.obj h.FeatureOnMouse) +
        w.pending_dialogs.countP (hasFeatureAt w.obj h.FeatureOnMouse) ∧
    (∀ d onHide, (Hide h d onHide w).2 = true →
      (if HasFeature (w.obj d) h.FeatureOnDraw then
          0 < w.countFramehook ∧ (Hide h d onHide w).1.countFramehook = w.countFramehook - 1
        else (Hide h d onHide w).1.countFramehook = w.countFramehook) ∧
      (if HasFeature (w.obj d) h.FeatureOnMouse then
          0 < w.countMousehook ∧ (Hide h d onHide w).1.countMousehook = w.countMousehook - 1
        else (Hide h d onHide w).1.countMousehook = w.countMousehook)) := by
  obtain ⟨hi, g1, g2, _⟩ := Reach_good h w hr
  have b1 := featCount_le h.FeatureOnDraw w
  have b2 := featCount_le h.FeatureOnMouse w
  have e1 : w.countFramehook = featCount h.FeatureOnDraw w := by
    rw [g1]; exact Nat.mod_eq_of_lt (by omega)
  have e2 : w.countMousehook = featCount h.FeatureOnMouse w := by
    rw [g2]; exact Nat.mod_eq_of_lt (by omega)
  refine ⟨e1, e2, ?_⟩
  intro d onHide hok
  obtain ⟨hs, hb2⟩ := Hide_ok_shown h d onHide w hok
  subst hb2
  obtain ⟨c1, c2⟩ := Hide_allow_counters h d w hs
  have hm : some d ∈ live w := (hi.2.2.1 d).2 hs
  constructor
  · by_cases hf : HasFeature (w.obj d) h.FeatureOnDraw = true
    · have hp := featCount_pos h.FeatureOnDraw w d hm hf
      simp only [hf, if_true] at c1 ⊢
      exact ⟨by omega, by rw [c1]; exact addU32_pred _ (by omega) (by omega)⟩
    · simp only [hf] at c1 ⊢
      simpa using c1
  · by_cases hf : HasFeature (w.obj d) h.FeatureOnMouse = true
    · have hp := featCount_pos h.FeatureOnMouse w d hm hf
      simp only [hf, if_true] at c2 ⊢
      exact ⟨by omega, by rw [c2]; exact addU32_pred _ (by omega) (by omega)⟩
    · simp only [hf] at c2 ⊢
      simpa using c2

theorem sampleDirty_reach : Reach Host.sample false sampleDirty :=
  Reach_runCalls Host.sample false _ _
    (Reach.enter sampleThree
      (Reach_runCalls Host.sample false _ _ (Reach.init sampleObjs (fun _ => rfl))
        (by decide)) (by decide))
    (by decide)

theorem counters_count_witness :
    Reach Host.sample false sampleDirty ∧
    (removeNull sampleDirty.dialogs).length + sampleDirty.pending_dialogs.length <
      4294967296 ∧
    sampleDirty.countFramehook = 3 ∧ sampleDirty.countMousehook = 2 ∧
    (sampleDirty.countFramehook =
      (removeNull sampleDirty.dialogs).countP
        (hasFeatureAt sampleDirty.obj Host.sample.FeatureOnDraw) +
        sampleDirty.pending_dialogs.countP
          (hasFeatureAt sampleDirty.obj Host.sample.FeatureOnDraw) ∧
    sampleDirty.countMousehook =
      (removeNull sampleDirty.dialogs).countP
        (hasFeatureAt sampleDirty.obj Host.sample.FeatureOnMouse) +
        sampleDirty.pending_dialogs.countP
          (hasFeatureAt sampleDirty.obj Host.sample.FeatureOnMouse) ∧
    (∀ d onHide, (Hide Host.sample d onHide sampleDirty).2 = true →
      (if HasFeature (sampleDirty.obj d) Host.sample.FeatureOnDraw then
          0 < sampleDirty.countFramehook ∧
          (Hide Host.sample d onHide sampleDirty).1.countFramehook =
            sampleDirty.countFramehook - 1
        else (Hide Host.sample d onHide sampleDirty).1.countFramehook =
          sampleDirty.countFramehook) ∧
      (if HasFeature (sampleDirty.obj d) Host.sample.FeatureOnMouse then
          0 < sampleDirty.countMousehook ∧
          (Hide Host.sample d onHide sampleDirty).1.countMousehook =
            sampleDirty.countMousehook - 1
        else (Hide Host.sample d onHide sampleDirty).1.countMousehook =
          sampleDirty.countMousehook))) :=
  ⟨sampleDirty_reach, by decide, by decide, by decide,
    counters_count Host.sample sampleDirty sampleDirty_reach (by decide)⟩


/-! ## C11: handle and hooks in idle worlds -/

/-- C11 as stated fails when the host can fail: `sampleNoHandle` is reached from the empty
registry by one allowed `Show` of dialog `0`, with a host whose `S4ApiCreate` returned `NULL`.
Its gate is idle and its main list is not empty, but there is no handle; dialog `0` is shown
and has the draw feature, but the draw hook is not installed. -/
theorem idle_handle_hooks_counterexample :
    sampleNoHandle.state = State.StateIdle ∧ sampleNoHandle.dialogs = [some 0] ∧
    sampleNoHandle.s4api = 0 ∧ (sampleNoHandle.obj 0).m_isShown = true ∧
    HasFeature (sampleNoHandle.obj 0) Host.flaky.FeatureOnDraw = true ∧
    sampleNoHandle.hFramehook = 0 := by
  decide

theorem hook_iff_feature (f : Nat) (w : World) (hi : Inv w) (c hk : Nat)
    (hc : c = featCount f w) (hs : hk ≠ 0 ↔ 0 < c) :
    hk ≠ 0 ↔ ∃ d, (w.obj d).m_isShown = true ∧ HasFeature (w.obj d) f = true := by
  rw [hs, hc, featCount_live, List.countP_pos_iff]
  constructor
  · rintro ⟨p, hm, hp⟩
    cases p with
    | none => exact Bool.noConfusion hp
    | some d => exact ⟨d, (hi.2.2.1 d).1 hm, hp⟩
  · rintro ⟨d, hd, hf⟩
    exact ⟨some d, (hi.2.2.1 d).2 hd, hf⟩

/-- C11, amended: when `S4ApiCreate` and both `AddListener` calls return non-null handles,
then in every world with an idle gate reached from the empty registry by allowed `Show` and
`Hide` calls and dispatch passes (its main list shorter than `2^32` entries): the main list
holds exactly the shown dialogs; the handle exists if and only if the main list is not empty;
the draw hook is installed if and only if some shown dialog has the draw feature, the mouse
hook if and only if some shown dialog has the mouse feature; and when the main list is empty
there is no handle and no hook. -/
theorem idle_handle_hooks (h : Host) (w : World) (hk : HostOk h) (hr : Reach h false w)
    (hst : w.state = State.StateIdle) (hb : w.dialogs.length < 4294967296) :
    (∀ d, some d ∈ w.dialogs ↔ (w.obj d).m_isShown = true) ∧
    (w.s4api ≠ 0 ↔ w.dialogs ≠ []) ∧
    (w.hFramehook ≠ 0 ↔
      ∃ d, (w.obj d).m_isShown = true ∧ HasFeature (w.obj d) h.FeatureOnDraw = true) ∧
    (w.hMousehook ≠ 0 ↔
      ∃ d, (w.obj d).m_isShown = true ∧ HasFeature (w.obj d) h.FeatureOnMouse = true) ∧
    (w.dialogs = [] → w.s4api = 0 ∧ w.hFramehook = 0 ∧ w.hMousehook = 0) := by
  obtain ⟨hi, g1, g2, g3⟩ := Reach_good h w hr
  obtain ⟨n1, n2, s1, s2⟩ := (Reach_calm h hk w (Reach_mono h w hr)).2 (by rw [hst]; decide)
  have hl : live w = w.dialogs := by simp [live, n2, removeNull_of_no_null _ n1]
  have hlen : (removeNull w.dialogs).length + w.pending_dialogs.length < 4294967296 := by
    rw [n2, removeNull_of_no_null _ n1]; simpa using hb
  have b1 := featCount_le h.FeatureOnDraw w
  have b2 := featCount_le h.FeatureOnMouse w
  have e1 : w.countFramehook = featCount h.FeatureOnDraw w := by
    rw [g1]; exact Nat.mod_eq_of_lt (by omega)
  have e2 : w.countMousehook = featCount h.FeatureOnMouse w := by
    rw [g2]; exact Nat.mod_eq_of_lt (by omega)
  have hz : w.s4api = 0 → w.countFramehook = 0 ∧ w.countMousehook = 0 := by
    intro ha
    have hnil : live w = [] := by rw [hl]; exact s1 ha
    rw [e1, e2, featCount_of_live_nil _ _ hnil, featCount_of_live_nil _ _ hnil]
    exact ⟨rfl, rfl⟩
  have hF : w.hFramehook ≠ 0 ↔ 0 < w.countFramehook := by
    by_cases ha : w.s4api = 0
    · rw [(g3 ha).1, (hz ha).1]; simp
    · exact (s2 ha).2.1
  have hM : w.hMousehook ≠ 0 ↔ 0 < w.countMousehook := by
    by_cases ha : w.s4api = 0
    · rw [(g3 ha).2, (hz ha).2]; simp
    · exact (s2 ha).2.2
  refine ⟨fun d => ?_, ⟨fun ha => (s2 ha).1, fun hd ha => hd (s1 ha)⟩,
    hook_iff_feature _ w hi _ _ e1 hF, hook_iff_feature _ w hi _ _ e2 hM, fun hd => ?_⟩
  · rw [← hl]; exact hi.2.2.1 d
  · have ha : w.s4api = 0 := by
      by_contra hne
      exact (s2 hne).1 hd
    exact ⟨ha, g3 ha⟩

theorem sampleThree_reach_allowed : Reach Host.sample false sampleThree :=
  Reach_runCalls Host.sample false _ _ (Reach.init sampleObjs (fun _ => rfl)) (by decide)

theorem idle_handle_hooks_witness :
    HostOk Host.sample ∧ Reach Host.sample false sampleThree ∧
    sampleThree.state = State.StateIdle ∧ sampleThree.dialogs.length < 4294967296 ∧
    sampleThree.s4api = 1 ∧ sampleThree.hFramehook = 1 ∧ sampleThree.hMousehook = 1 ∧
    (runCalls Host.sample [Call.Hide 0 true, Call.Hide 1 true, Call.Hide 2 true]
      sampleThree).trace.filter Event.isApi =
      [Event.S4ApiCreate, Event.FrameAddListener, Event.MouseAddListener,
        Event.RemoveListener 1, Event.RemoveListener 1, Event.Release 1] ∧
    ((∀ d, some d ∈ sampleThree.dialogs ↔ (sampleThree.obj d).m_isShown = true) ∧
    (sampleThree.s4api ≠ 0 ↔ sampleThree.dialogs ≠ []) ∧
    (sampleThree.hFramehook ≠ 0 ↔
      ∃ d, (sampleThree.obj d).m_isShown = true ∧
        HasFeature (sampleThree.obj d) Host.sample.FeatureOnDraw = true) ∧
    (sampleThree.hMousehook ≠ 0 ↔
      ∃ d, (sampleThree.obj d).m_isShown = true ∧
        HasFeature (sampleThree.obj d) Host.sample.FeatureOnMouse = true) ∧
    (sampleThree.dialogs = [] →
      sampleThree.s4api = 0 ∧ sampleThree.hFramehook = 0 ∧ sampleThree.hMousehook = 0)) :=
  ⟨sample_hostOk, sampleThree_reach_allowed, by decide, by decide, by decide, by decide,
    by decide, by decide,
    idle_handle_hooks Host.sample sampleThree sample_hostOk sampleThree_reach_allowed
      (by decide) (by decide)⟩


end S4ModApi
